import Mathlib

/-!
# Swept collision of axis-aligned sprites (`src/sprite_collider.cpp`)

A shallow embedding of the collision core and the properties proved about it. The code
is embedded twice.

The definitions of `SpriteCollider` take a C `float` as an exact rational number (`ℚ`),
without rounding. They carry the properties of the collector, of the bookkeeping of the
resolver, of the stepper on the scenario of the spec and of the registry, and they are
the reference against which the binary32 solver is compared.

The definitions of `SpriteCollider.Binary32` take a C `float` as a binary32 value
(`F32`): a finite rational, an infinity or NaN, with every operation rounded on its own
to nearest, ties to even (`fl`), without extended precision and without fused
multiply-add, overflow to an infinity, gradual underflow, and comparisons that are false
on NaN. They carry the properties of the solver, of the frame clock and of the
velocities that depend on the arithmetic.

Conventions of both embeddings:

* in the exact embedding the `time` field of a collision record is an `FTime`: a rational
  time, or the sentinel `FLT_MAX`, which lies above every rational time (`⊤` of
  `WithTop ℚ`); in binary32 it is an `F32` and `FLT_MAX` is the largest finite `float`;
* the sign of a zero is not kept in `F32`: `-0.0` and `0.0` compare equal in C, and a
  quotient by a zero of either sign is an infinity or NaN, which the solver rejects;
* a `SPRITE*` is an address (`Ptr`), the sprites live in a `Heap`, and a
  record or the registry holds addresses, so identity is address identity;
* a collision buffer together with its element count is the list of its first
  `count` records: the code never reads a slot at or beyond `count`;
* the `vec_3_*` helpers are declared outside the file and follow the spec (Euclidean
  norm, reflection about a normal): in the exact embedding with `Rat.sqrt` as the square
  root, in binary32 with the norm rounded once from the exact sum of squares and every
  other operation rounded;
* the `while` loop of `process_sprites` is run with a bound on its iterations;
* the registry globals are a `REGISTRY`; an array of references is the function from
  the index to the slot, and an `int` sum wraps to 32 bits (`wrap_int`).
-/

namespace SpriteCollider

/-! ## Data model -/

/-- Three `float` components, `v[0]`, `v[1]`, `v[2]`. -/
structure Vec3 where
  x : ℚ
  y : ℚ
  z : ℚ
deriving DecidableEq

/-- The fields of `SPRITE` that the collider reads or writes. -/
structure SPRITE where
  pos : Vec3
  vel : Vec3
  size : Vec3
  is_static : Bool
deriving DecidableEq

/-- A `SPRITE*`. -/
abbrev Ptr := Nat

/-- The sprites the addresses point to. -/
abbrev Heap := Ptr → SPRITE

/-- The `float time` of a collision record: a rational, or `FLT_MAX` as the top element. -/
abbrev FTime := WithTop ℚ

/-- The sentinel `FLT_MAX`. -/
abbrev FLT_MAX : FTime := ⊤

def SPRITES_MAX : Nat := 1000

def COLLISIONS_MAX : Nat := 20

def NONE : Nat := 0

def RIGHT : Nat := 1

def LEFT : Nat := 2

def TOP : Nat := 3

def BOTTOM : Nat := 4

/-- The struct `collision_values`. -/
structure COLLISION_VALUES where
  mode_a : Nat
  mode_b : Nat
  time : FTime
  sprite : Ptr
  other_sprite : Ptr
deriving DecidableEq

/-! ## Time-of-impact solver -/

/-- Strict overlap of the y-intervals of `a` and `b`, each translated by its own velocity. -/
def is_colliding_x (a b : SPRITE) (time : ℚ) : Prop :=
  let top_a := a.pos.y + a.vel.y * time + a.size.y
  let top_b := b.pos.y + b.vel.y * time + b.size.y
  let bottom_a := a.pos.y + a.vel.y * time
  let bottom_b := b.pos.y + b.vel.y * time
  (top_a > bottom_b ∧ top_b > bottom_a) ∧ (bottom_a < top_b ∧ bottom_b < top_a)

instance (a b : SPRITE) (time : ℚ) : Decidable (is_colliding_x a b time) := by
  unfold is_colliding_x; infer_instance

/-- Strict overlap of the x-intervals of `a` and `b`, each translated by its own velocity. -/
def is_colliding_y (a b : SPRITE) (time : ℚ) : Prop :=
  let left_a := a.pos.x + a.vel.x * time
  let left_b := b.pos.x + b.vel.x * time
  let right_a := a.pos.x + a.vel.x * time + a.size.x
  let right_b := b.pos.x + b.vel.x * time + b.size.x
  (left_a < right_b ∧ left_b < right_a) ∧ (right_a > left_b ∧ right_b > left_a)

instance (a b : SPRITE) (time : ℚ) : Decidable (is_colliding_y a b time) := by
  unfold is_colliding_y; infer_instance

/-- One of the four directed cases of `intersection_time`:
`if (guard) { time = num / den; if (time >= 0 && time < collision.time && cross(a, b, time)) { ... } }`.
The numerator is non-zero whenever the guard holds, so for `den = 0` the IEEE quotient is
an infinity, which fails `time >= 0 && time < collision.time`: the record is kept. -/
def directed_case (collision : COLLISION_VALUES) (guard : Prop) [Decidable guard]
    (num den : ℚ) (cross : ℚ → Prop) [DecidablePred cross] (mode_a mode_b : Nat) :
    COLLISION_VALUES :=
  if guard then
    if den = 0 then collision
    else
      let time : ℚ := num / den
      if time ≥ 0 ∧ (time : FTime) < collision.time ∧ cross time then
        { collision with time := (time : FTime), mode_a := mode_a, mode_b := mode_b }
      else collision
  else collision

/-- The function `intersection_time(a, b)`, reading the two sprites from the heap. -/
def intersection_time (m : Heap) (a b : Ptr) : COLLISION_VALUES :=
  let left_a := (m a).pos.x
  let left_b := (m b).pos.x
  let right_a := (m a).pos.x + (m a).size.x
  let right_b := (m b).pos.x + (m b).size.x
  let top_a := (m a).pos.y + (m a).size.y
  let top_b := (m b).pos.y + (m b).size.y
  let bottom_a := (m a).pos.y
  let bottom_b := (m b).pos.y
  let a_vel_x := (m a).vel.x
  let a_vel_y := (m a).vel.y
  let b_vel_x := (m b).vel.x
  let b_vel_y := (m b).vel.y
  let collision : COLLISION_VALUES :=
    { time := FLT_MAX, mode_a := NONE, mode_b := NONE, sprite := a, other_sprite := b }
  let collision := directed_case collision (a_vel_x > 0 ∧ right_a < left_b)
    (left_b - right_a) (a_vel_x - b_vel_x) (is_colliding_x (m a) (m b)) RIGHT LEFT
  let collision := directed_case collision (a_vel_x < 0 ∧ left_a > right_b)
    (right_b - left_a) (a_vel_x - b_vel_x) (is_colliding_x (m a) (m b)) LEFT RIGHT
  let collision := directed_case collision (a_vel_y > 0 ∧ top_a < bottom_b)
    (bottom_b - top_a) (a_vel_y - b_vel_y) (is_colliding_y (m a) (m b)) TOP BOTTOM
  let collision := directed_case collision (a_vel_y < 0 ∧ bottom_a > top_b)
    (top_b - bottom_a) (a_vel_y - b_vel_y) (is_colliding_y (m a) (m b)) BOTTOM TOP
  collision

/-- A heap holding `A` at address 0 and `B` at every other address. -/
def heap2 (A B : SPRITE) : Heap := fun p => if p = 0 then A else B

/-- A unit cube at `(x, y, 0)` with velocity `(vx, vy, 0)`. -/
def unit_box (x y vx vy : ℚ) (is_static : Bool) : SPRITE :=
  { pos := ⟨x, y, 0⟩, vel := ⟨vx, vy, 0⟩, size := ⟨1, 1, 1⟩, is_static := is_static }

/-- The scenario of the spec: A at the origin moving right with velocity 1 (address 0),
B static at x = 3 (every other address). -/
def heap_scenario : Heap := heap2 (unit_box 0 0 1 0 false) (unit_box 3 0 0 0 true)

/-! ## Simultaneous-collision collector -/

/-- The value `(*collisions)[0].time`; the code reads it only when `count != 0`. -/
def slot0_time (collisions : List COLLISION_VALUES) : FTime :=
  match collisions with
  | [] => FLT_MAX
  | c :: _ => c.time

/-- The body of the loop of `find_collision_time` for `sprites[i] = s`; the buffer with
its count is the list `collisions`. The diagnostic `printf` is not modelled. -/
def find_collision_step (m : Heap) (max_collisions : Nat) (a : Ptr) (time : ℚ)
    (collisions : List COLLISION_VALUES) (s : Ptr) : List COLLISION_VALUES :=
  if s = a then collisions
  else
    let collision := intersection_time m a s
    if collisions.length ≠ 0 ∧ collision.time ≥ ((0 : ℚ) : FTime) ∧
        collision.time ≠ FLT_MAX ∧ collision.time = slot0_time collisions ∧
        collision.time ≤ (time : FTime) then
      if collisions.length ≥ max_collisions then collisions
      else collisions ++ [collision]
    else if collision.time ≥ ((0 : ℚ) : FTime) ∧ collision.time ≠ FLT_MAX ∧
        collision.time ≤ (time : FTime) then
      if collisions.length = 0 then [collision]
      else if collision.time < slot0_time collisions then [collision]
      else collisions
    else collisions

/-- The function `find_collision_time(collisions, collisions_count, max_collisions, a, time)`
over the registry `sprites`; it returns the buffer prefix of length `count`. -/
def find_collision_time (m : Heap) (sprites : List Ptr) (collisions : List COLLISION_VALUES)
    (max_collisions : Nat) (a : Ptr) (time : ℚ) : List COLLISION_VALUES :=
  sprites.foldl (find_collision_step m max_collisions a time) collisions

/-! ## Vector helpers -/

/-- Modelled from the spec: `vec_3_length` is declared outside `sprite_collider.cpp`; the
spec calls it the Euclidean norm. The square root is `Rat.sqrt`, which is exact
whenever the norm is a rational number. -/
def vec_3_length (v : Vec3) : ℚ := Rat.sqrt (v.x * v.x + v.y * v.y + v.z * v.z)

/-- Modelled from the spec: `vec_3_normalize` is declared outside `sprite_collider.cpp`;
it scales its argument to unit length and returns it. The spec leaves the zero vector
undefined; here the quotient by a zero length is `0`. -/
def vec_3_normalize (v : Vec3) : Vec3 :=
  ⟨v.x / vec_3_length v, v.y / vec_3_length v, v.z / vec_3_length v⟩

/-- Modelled from the spec: `vec_3_reflect(out, v, n)` is declared outside
`sprite_collider.cpp`; it is the reflection `v - 2 (v . n) n` of `v` about the normal `n`. -/
def vec_3_reflect (v n : Vec3) : Vec3 :=
  ⟨v.x - 2 * (v.x * n.x + v.y * n.y + v.z * n.z) * n.x,
   v.y - 2 * (v.x * n.x + v.y * n.y + v.z * n.z) * n.y,
   v.z - 2 * (v.x * n.x + v.y * n.y + v.z * n.z) * n.z⟩

/-- Modelled from the spec: `vec_3_mul_scalar(out, v, s)` is declared outside
`sprite_collider.cpp`; it scales `v` by `s`. -/
def vec_3_mul_scalar (v : Vec3) (s : ℚ) : Vec3 := ⟨v.x * s, v.y * s, v.z * s⟩

/-- The table `normals[12]`. -/
def normals : List ℚ := [-1, 0, 0, 1, 0, 0, 0, -1, 0, 0, 1, 0]

/-- The three floats at `normals + (mode - 1) * 3`. For `mode = NONE` the C offset is
negative (out of bounds); the records of a winning set never carry `NONE`. -/
def normal_of (mode : Nat) : Vec3 :=
  ⟨normals.getD ((mode - 1) * 3) 0, normals.getD ((mode - 1) * 3 + 1) 0,
   normals.getD ((mode - 1) * 3 + 2) 0⟩

/-! ## Collision resolver and stepper -/

/-- The store `p->vel[0..2] = v`. -/
def set_vel (m : Heap) (p : Ptr) (v : Vec3) : Heap :=
  fun q => if q = p then { m p with vel := v } else m q

/-- The state of one resolution pass: the heap, the non-NULL prefix of `resolved[]`, and a
ghost log of the addresses whose velocity the pass has written, in order. -/
structure RESOLVE_STATE where
  heap : Heap
  resolved : List Ptr
  assigned : List Ptr

/-- The loop `for j: if (resolved[j] == NULL) { resolved[j] = p; break; }` over the
`COLLISIONS_MAX` slots: the address is stored in the first free slot, if there is one. -/
def mark_resolved (resolved : List Ptr) (p : Ptr) : List Ptr :=
  if resolved.length < COLLISIONS_MAX then resolved ++ [p] else resolved

/-- The body of the resolver loop of `process_sprites` for the record `c = collision_set[i]`.
The two momenta and `orig_vel` are read before either store. In the `other_sprite` branch
the result of `vec_3_reflect(vel, other_sprite->vel, ...)` is overwritten by
`vec_3_mul_scalar` before it is read, so it has no counterpart here. -/
def resolve_record (st : RESOLVE_STATE) (c : COLLISION_VALUES) : RESOLVE_STATE :=
  let orig_vel := (st.heap c.sprite).vel
  let vel_a_momentum := vec_3_length (st.heap c.sprite).vel
  let vel_b_momentum := vec_3_length (st.heap c.other_sprite).vel
  let st1 : RESOLVE_STATE :=
    if ¬ (st.heap c.sprite).is_static = true ∧ c.sprite ∉ st.resolved then
      let vel := vec_3_reflect (st.heap c.sprite).vel (normal_of c.mode_a)
      let vel := vec_3_normalize vel
      let factor : ℚ := if (st.heap c.other_sprite).is_static = true then 1 else 2
      let vel := vec_3_mul_scalar (vec_3_normalize vel)
        ((vel_a_momentum + vel_b_momentum) / factor)
      { heap := set_vel st.heap c.sprite vel,
        resolved := mark_resolved st.resolved c.sprite,
        assigned := st.assigned ++ [c.sprite] }
    else st
  if ¬ (st1.heap c.other_sprite).is_static = true ∧ c.other_sprite ∉ st1.resolved then
    let factor : ℚ := if (st1.heap c.other_sprite).is_static = true then 1 else 2
    let vel := vec_3_mul_scalar (vec_3_normalize orig_vel)
      ((vel_a_momentum + vel_b_momentum) / factor)
    { heap := set_vel st1.heap c.other_sprite vel,
      resolved := mark_resolved st1.resolved c.other_sprite,
      assigned := st1.assigned ++ [c.other_sprite] }
  else st1

/-- The resolver loop over `collision_set[0 .. collision_count)`, entered with `resolved[]`
cleared. -/
def resolve_pass (m : Heap) (collision_set : List COLLISION_VALUES) : RESOLVE_STATE :=
  collision_set.foldl resolve_record { heap := m, resolved := [], assigned := [] }

/-- The scan loop of one sub-step: every registered sprite in turn extends the candidate
set, which is carried from one sprite to the next, and a candidate set whose slot 0 time
is `>= 0` and `< dt - processed_time` is copied to the winning set. The pair is
`(candidate_collision_set, collision_set)`, each with its count. -/
def scan_sprites (m : Heap) (sprites : List Ptr) (remaining : ℚ) :
    List COLLISION_VALUES × List COLLISION_VALUES :=
  sprites.foldl
    (fun sets s =>
      let candidate := find_collision_time m sprites sets.1 COLLISIONS_MAX s remaining
      if candidate.length ≠ 0 ∧ slot0_time candidate ≥ ((0 : ℚ) : FTime) ∧
          slot0_time candidate < (remaining : FTime) then
        (candidate, candidate)
      else (candidate, sets.2))
    ([], [])

/-- The `float` read from a `time` field; the sentinel reads as the value of `FLT_MAX`. -/
def time_value (t : FTime) : ℚ :=
  match (t : Option ℚ) with
  | none => 340282346638528859811704183484516925440
  | some q => q

/-- The loop `sprites[j]->pos[k] += sprites[j]->vel[k] * fmaxf(0.0f, t - 0.0000001f)`
over the registry. -/
def advance_sprites (m : Heap) (sprites : List Ptr) (t : ℚ) : Heap :=
  sprites.foldl
    (fun h p q =>
      if q = p then
        { h p with pos :=
            ⟨(h p).pos.x + (h p).vel.x * max 0 (t - 1 / 10000000),
             (h p).pos.y + (h p).vel.y * max 0 (t - 1 / 10000000),
             (h p).pos.z + (h p).vel.z * max 0 (t - 1 / 10000000)⟩ }
      else h q)
    m

/-- One iteration of the `while (processed_time < dt)` loop of `process_sprites`, from the
heap and `processed_time` to the next heap and `processed_time`. Both counts are zero
when an iteration begins. -/
def sub_step (sprites : List Ptr) (dt : ℚ) (st : Heap × ℚ) : Heap × ℚ :=
  let collision_set := (scan_sprites st.1 sprites (dt - st.2)).2
  let m1 :=
    if collision_set.length ≠ 0 then
      advance_sprites st.1 sprites (time_value (slot0_time collision_set))
    else st.1
  let m2 := (resolve_pass m1 collision_set).heap
  if collision_set.length = 0 then
    (advance_sprites m2 sprites (dt - st.2), dt)
  else (m2, st.2 + time_value (slot0_time collision_set))

/-- The loop `while (processed_time < dt)` run for at most `fuel` iterations. -/
def process_loop (sprites : List Ptr) (dt : ℚ) : Nat → Heap × ℚ → Heap × ℚ
  | 0, st => st
  | fuel + 1, st =>
    if st.2 < dt then process_loop sprites dt fuel (sub_step sprites dt st) else st

/-- The function `process_sprites(dt)`: the heap when the loop has ended within `fuel`
iterations. -/
def process_sprites (fuel : Nat) (m : Heap) (sprites : List Ptr) (dt : ℚ) : Option Heap :=
  let st := process_loop sprites dt fuel (m, 0)
  if st.2 < dt then none else some st.1

/-! ### What the collector is meant to return -/

/-- The solver records `intersection_time(a, B)` of the registered `B != a`, in registry order. -/
def solver_records (m : Heap) (sprites : List Ptr) (a : Ptr) : List COLLISION_VALUES :=
  (sprites.filter (fun s => decide (s ≠ a))).map (intersection_time m a)

/-- A solver time that is `>= 0`, not the sentinel and `<= L`. -/
def qualifies (L : ℚ) (c : COLLISION_VALUES) : Prop :=
  c.time ≥ ((0 : ℚ) : FTime) ∧ c.time ≠ FLT_MAX ∧ c.time ≤ (L : FTime)

instance (L : ℚ) (c : COLLISION_VALUES) : Decidable (qualifies L c) := by
  unfold qualifies; infer_instance

/-- The record `c` qualifies and no qualifying record of `recs` has a smaller time. -/
def is_earliest (L : ℚ) (recs : List COLLISION_VALUES) (c : COLLISION_VALUES) : Prop :=
  qualifies L c ∧ ∀ d ∈ recs, qualifies L d → c.time ≤ d.time

instance (L : ℚ) (recs : List COLLISION_VALUES) (c : COLLISION_VALUES) :
    Decidable (is_earliest L recs c) := by
  unfold is_earliest; infer_instance

/-- The records of `recs` whose time is the minimum qualifying time, in order. -/
def tied_earliest (L : ℚ) (recs : List COLLISION_VALUES) : List COLLISION_VALUES :=
  recs.filter (fun c => decide (is_earliest L recs c))

/-- A registry of three sprites: A (address 0) moving right, and B, C (addresses 1, 2)
at rest at the same distance. -/
def heap3 : Heap := fun p =>
  if p = 0 then unit_box 0 0 1 0 false
  else if p = 1 then unit_box 3 0 0 0 false
  else unit_box 3 (1 / 2) 0 0 false

/-! ## Geometry of the moving boxes -/

/-- The left edge of the box of `s` at time `t`. -/
def left_at (s : SPRITE) (t : ℚ) : ℚ := s.pos.x + s.vel.x * t

/-- The right edge of the box of `s` at time `t`. -/
def right_at (s : SPRITE) (t : ℚ) : ℚ := s.pos.x + s.vel.x * t + s.size.x

/-- The bottom edge of the box of `s` at time `t`. -/
def bottom_at (s : SPRITE) (t : ℚ) : ℚ := s.pos.y + s.vel.y * t

/-- The top edge of the box of `s` at time `t`. -/
def top_at (s : SPRITE) (t : ℚ) : ℚ := s.pos.y + s.vel.y * t + s.size.y

/-- The two reported faces coincide on the hit axis at time `t` and the boxes strictly
overlap on the other axis at `t`; the face pair is one of the four the solver writes. -/
def faces_touch (A B : SPRITE) (mode_a mode_b : Nat) (t : ℚ) : Prop :=
  (mode_a = RIGHT ∧ mode_b = LEFT ∧ right_at A t = left_at B t ∧ is_colliding_x A B t) ∨
  (mode_a = LEFT ∧ mode_b = RIGHT ∧ left_at A t = right_at B t ∧ is_colliding_x A B t) ∨
  (mode_a = TOP ∧ mode_b = BOTTOM ∧ top_at A t = bottom_at B t ∧ is_colliding_y A B t) ∨
  (mode_a = BOTTOM ∧ mode_b = TOP ∧ bottom_at A t = top_at B t ∧ is_colliding_y A B t)

/-- What a reported time `t` of a record means: a first touch. -/
def first_touch (A B : SPRITE) (mode_a mode_b : Nat) (t : ℚ) : Prop :=
  0 ≤ t ∧ faces_touch A B mode_a mode_b t ∧
    ∀ u : ℚ, 0 ≤ u → u < t → ¬ (is_colliding_x A B u ∧ is_colliding_y A B u)

/-! ## Vocabulary of the statements and concrete heaps -/

/-- The invariant carried through the four directed cases. -/
def touch_inv (A B : SPRITE) (c : COLLISION_VALUES) : Prop :=
  ∀ t : ℚ, c.time = (t : FTime) → first_touch A B c.mode_a c.mode_b t

/-- Corner contact: A at the origin moving with velocity (1, 1), B static at (2, 2). -/
def heap_corner : Heap := heap2 (unit_box 0 0 1 1 false) (unit_box 2 2 0 0 true)

/-- The squared Euclidean norm. -/
def norm_sq (v : Vec3) : ℚ := v.x * v.x + v.y * v.y + v.z * v.z

/-- The Euclidean norm of `v` is a rational number, so `vec_3_length v` is exact. -/
def exact_norm (v : Vec3) : Prop := vec_3_length v * vec_3_length v = norm_sq v

instance (v : Vec3) : Decidable (exact_norm v) := by
  unfold exact_norm; infer_instance

/-- The face is one of RIGHT, LEFT, TOP, BOTTOM. -/
def is_face (mode : Nat) : Prop := mode = RIGHT ∨ mode = LEFT ∨ mode = TOP ∨ mode = BOTTOM

instance (mode : Nat) : Decidable (is_face mode) := by
  unfold is_face; infer_instance

/-- A at the origin moving right with velocity 1, B at x = 3 drifting down with velocity
1/4; both non-static. -/
def heap_glance : Heap := heap2 (unit_box 0 0 1 0 false) (unit_box 3 0 0 (-1 / 4) false)

/-- A static sprite S with velocity 1 at the origin and a non-static M at rest at x = 3. -/
def heap_static_first : Heap := heap2 (unit_box 0 0 1 0 true) (unit_box 3 0 0 0 false)

/-- Two non-static unit boxes approaching head-on with velocities 1 and -1. -/
def heap_head_on : Heap := heap2 (unit_box 0 0 1 0 false) (unit_box 3 0 (-1) 0 false)

/-- A pile-up of 23 non-static unit boxes that all meet at time 2: ten pairs A (even
address, moving right) and B (odd address, at rest) in rows of their own, and in a last
row X (address 21) at rest between A (address 20) coming from the left and A (address 22)
coming from the right. -/
def heap_pileup : Heap := fun p =>
  if p < 20 then
    if p % 2 = 0 then unit_box 0 (((10 * (p / 2) : Nat) : ℚ)) 1 0 false
    else unit_box 3 (((10 * (p / 2) : Nat) : ℚ)) 0 0 false
  else if p = 20 then unit_box 0 100 1 0 false
  else if p = 21 then unit_box 3 100 0 0 false
  else unit_box 6 100 (-1) 0 false

/-- From heap `m` to heap `n` no `is_static` flag changed and every static sprite kept
its velocity. -/
def keeps_static (m n : Heap) : Prop :=
  ∀ p : Ptr, (n p).is_static = (m p).is_static ∧
    ((m p).is_static = true → (n p).vel = (m p).vel)

/-- The shape shared by the two branches of `resolve_record`: a participant `p` that is
neither static nor in `resolved[]` gets the velocity `v` and is marked. -/
def resolve_branch (st : RESOLVE_STATE) (p : Ptr) (v : Vec3) : RESOLVE_STATE :=
  if ¬ (st.heap p).is_static = true ∧ p ∉ st.resolved then
    { heap := set_vel st.heap p v, resolved := mark_resolved st.resolved p,
      assigned := st.assigned ++ [p] }
  else st

/-- While `resolved[]` has not overflowed it holds exactly the addresses written so far,
each once, and all of them non-static. -/
def pass_inv (st : RESOLVE_STATE) : Prop :=
  st.resolved = st.assigned ∧ st.assigned.Nodup ∧
    ∀ p ∈ st.assigned, ¬ (st.heap p).is_static = true

/-- A at rest at x = 0 and B at x = 3 moving towards A with velocity -1. -/
def heap_b_moves : Heap := heap2 (unit_box 0 0 0 0 false) (unit_box 3 0 (-1) 0 false)

/-! ## Vocabulary of the statements on the scan and on quiet frames -/

/-- The solver records of the scans of the sprites of `scanned`, one scan after the other:
for each `a` of `scanned` in order, `intersection_time(a, B)` for the registered `B != a`. -/
def scan_records (m : Heap) (sprites : List Ptr) : List Ptr → List COLLISION_VALUES
  | [] => []
  | a :: scanned => solver_records m sprites a ++ scan_records m sprites scanned

/-- The adoption test of the scan loop on a candidate set. -/
def adoptable (remaining : ℚ) (candidate : List COLLISION_VALUES) : Prop :=
  candidate.length ≠ 0 ∧ slot0_time candidate ≥ ((0 : ℚ) : FTime) ∧
    slot0_time candidate < (remaining : FTime)

instance (remaining : ℚ) (candidate : List COLLISION_VALUES) :
    Decidable (adoptable remaining candidate) := by
  unfold adoptable; infer_instance

/-- The sprite `s` moved by `s.vel * fmaxf(0, t - 0.0000001f)` on the three axes. -/
def advanced (s : SPRITE) (t : ℚ) : SPRITE :=
  { s with pos :=
      ⟨s.pos.x + s.vel.x * max 0 (t - 1 / 10000000),
       s.pos.y + s.vel.y * max 0 (t - 1 / 10000000),
       s.pos.z + s.vel.z * max 0 (t - 1 / 10000000)⟩ }

/-- No directed solver call between two different registered sprites reports a time
below `L`. -/
def no_time_below (m : Heap) (sprites : List Ptr) (L : ℚ) : Prop :=
  ∀ a ∈ sprites, ∀ b ∈ sprites, a ≠ b → ¬ (intersection_time m a b).time < (L : FTime)

/-- The boxes are separated on the x axis and the gap between them does not close. -/
def apart_x (A B : SPRITE) : Prop :=
  (A.pos.x + A.size.x ≤ B.pos.x ∧ A.vel.x ≤ B.vel.x) ∨
    (B.pos.x + B.size.x ≤ A.pos.x ∧ B.vel.x ≤ A.vel.x)

/-- The boxes are separated on the y axis and the gap between them does not close. -/
def apart_y (A B : SPRITE) : Prop :=
  (A.pos.y + A.size.y ≤ B.pos.y ∧ A.vel.y ≤ B.vel.y) ∨
    (B.pos.y + B.size.y ≤ A.pos.y ∧ B.vel.y ≤ A.vel.y)

/-- The pair has zero relative velocity along both axes, or is already separated on an
axis and diverging (not approaching) on it. -/
def never_meet (A B : SPRITE) : Prop :=
  (A.vel.x = B.vel.x ∧ A.vel.y = B.vel.y) ∨ apart_x A B ∨ apart_y A B

instance (A B : SPRITE) : Decidable (never_meet A B) := by
  unfold never_meet apart_x apart_y; infer_instance

instance (m : Heap) (sprites : List Ptr) (L : ℚ) : Decidable (no_time_below m sprites L) := by
  unfold no_time_below; infer_instance

/-- Two non-static unit boxes moving right with the same velocity 1, A at the origin
(address 0) and B at x = 3. -/
def heap_convoy : Heap := heap2 (unit_box 0 0 1 0 false) (unit_box 3 0 1 0 false)

/-! ## Entity registry -/

/-- The value an `int` holds after an arithmetic operation with the exact result `x`:
the result wrapped to 32 bits in two's complement. -/
def wrap_int (x : Int) : Int := (x + 2147483648) % 4294967296 - 2147483648

/-- The largest `int`. -/
def INT_MAX : Int := 2147483647

/-- The globals `sprites_count` and `sprites`. A block of `SPRITE*` slots is the function
from the index to the content of the slot (so is the array of the caller); `sprites` is
`none` when it is `NULL`. An access outside a block is not modelled. -/
structure REGISTRY where
  sprites_count : Int
  sprites : Option (Int → Ptr)

/-- The loop `for (i = sprites_count; i < new_count; ++i) sprites[i] = add_sprites[i];`
after `n` iterations from `i = start`. -/
def copy_refs (refs : Int → Ptr) (start : Int) (n : Nat) (block : Int → Ptr) : Int → Ptr :=
  (List.range n).foldl
    (fun (blk : Int → Ptr) (k : Nat) (j : Int) =>
      if j = start + (k : Int) then refs (start + (k : Int)) else blk j)
    block

/-- The function `add_sprites(add_sprites, count)`; `malloc` is what the call of `malloc`
returns (`none` for `NULL`). The result is the returned flag and the globals. The sum
`count + sprites_count` is an `int` sum; the loop counter stays below `new_count`. -/
def add_sprites (malloc : Option (Int → Ptr)) (r : REGISTRY) (refs : Int → Ptr)
    (count : Int) : Bool × REGISTRY :=
  let new_count := wrap_int (count + r.sprites_count)
  if new_count > (SPRITES_MAX : Int) then (false, r)
  else if r.sprites_count = 0 ∧ malloc.isNone = true then
    (false, { r with sprites := none })
  else
    let block := if r.sprites_count = 0 then malloc else r.sprites
    (true,
      { sprites_count := new_count,
        sprites := block.map
          (copy_refs refs r.sprites_count (new_count - r.sprites_count).toNat) })

/-- The function `remove_sprites()`. -/
def remove_sprites (r : REGISTRY) : REGISTRY :=
  if r.sprites_count ≠ 0 then { sprites_count := 0, sprites := none } else r

/-- The registered references `sprites[0 .. sprites_count)`, the registry the collector
and the stepper loop over. -/
def registered (r : REGISTRY) : List Ptr :=
  match r.sprites with
  | none => []
  | some block => (List.range r.sprites_count.toNat).map (fun i => block (i : Int))

/-- The array of a caller that holds the references of `l`. -/
def array_of (l : List Ptr) : Int → Ptr := fun i => l.getD i.toNat 0

/-- The registry before the first call. -/
def registry_empty : REGISTRY := { sprites_count := 0, sprites := none }

/-- The registry after `add_sprites(refs, 1000)` on the empty registry, with the
references 0 .. 999. -/
def registry_full : REGISTRY :=
  (add_sprites (some (fun _ => 0)) registry_empty (fun i => i.toNat) 1000).2

/-- The registry after `add_sprites({10}, 1)` on the empty registry. -/
def registry_one : REGISTRY :=
  (add_sprites (some (fun _ => 0)) registry_empty (array_of [10]) 1).2

/-! ## Invariants of the solver and of the resolution pass -/

/-- The record holds the sprites `a`, `b` and, unless its time is the sentinel, the
y-intervals overlap at its time. -/
def x_case_inv (m : Heap) (a b : Ptr) (c : COLLISION_VALUES) : Prop :=
  c.sprite = a ∧ c.other_sprite = b ∧
    ∀ u : ℚ, c.time = (u : FTime) → is_colliding_x (m a) (m b) u

/-- The record after the two x-axis cases of `intersection_time(a, b)`. -/
def after_x_cases (m : Heap) (a b : Ptr) : COLLISION_VALUES :=
  directed_case
    (directed_case
      { time := FLT_MAX, mode_a := NONE, mode_b := NONE, sprite := a, other_sprite := b }
      ((m a).vel.x > 0 ∧ (m a).pos.x + (m a).size.x < (m b).pos.x)
      ((m b).pos.x - ((m a).pos.x + (m a).size.x)) ((m a).vel.x - (m b).vel.x)
      (is_colliding_x (m a) (m b)) RIGHT LEFT)
    ((m a).vel.x < 0 ∧ (m a).pos.x > (m b).pos.x + (m b).size.x)
    ((m b).pos.x + (m b).size.x - (m a).pos.x) ((m a).vel.x - (m b).vel.x)
    (is_colliding_x (m a) (m b)) LEFT RIGHT

/-- What a reported record `(mode_a, mode_b, t)` of `intersection_time(A, B)` stands for:
the guard of its case (the two faces apart at time 0), a closing relative velocity, the
contact of the two faces at `t`, and the strict overlap on the other axis at `t`. -/
def contact_event (A B : SPRITE) (mode_a mode_b : Nat) (t : ℚ) : Prop :=
  (mode_a = RIGHT ∧ mode_b = LEFT ∧ A.pos.x + A.size.x < B.pos.x ∧
    0 < A.vel.x - B.vel.x ∧
    (A.vel.x - B.vel.x) * t = B.pos.x - (A.pos.x + A.size.x) ∧ is_colliding_x A B t) ∨
  (mode_a = LEFT ∧ mode_b = RIGHT ∧ A.pos.x > B.pos.x + B.size.x ∧
    A.vel.x - B.vel.x < 0 ∧
    (A.vel.x - B.vel.x) * t = B.pos.x + B.size.x - A.pos.x ∧ is_colliding_x A B t) ∨
  (mode_a = TOP ∧ mode_b = BOTTOM ∧ A.pos.y + A.size.y < B.pos.y ∧
    0 < A.vel.y - B.vel.y ∧
    (A.vel.y - B.vel.y) * t = B.pos.y - (A.pos.y + A.size.y) ∧ is_colliding_y A B t) ∨
  (mode_a = BOTTOM ∧ mode_b = TOP ∧ A.pos.y > B.pos.y + B.size.y ∧
    A.vel.y - B.vel.y < 0 ∧
    (A.vel.y - B.vel.y) * t = B.pos.y + B.size.y - A.pos.y ∧ is_colliding_y A B t)

/-- The invariant of the four directed cases: a reported record stands for a contact
event. -/
def event_inv (A B : SPRITE) (c : COLLISION_VALUES) : Prop :=
  ∀ t : ℚ, c.time = (t : FTime) → contact_event A B c.mode_a c.mode_b t

/-- The face lies on the x axis. -/
def on_x_axis (mode : Nat) : Prop := mode = RIGHT ∨ mode = LEFT

/-- The face lies on the y axis. -/
def on_y_axis (mode : Nat) : Prop := mode = TOP ∨ mode = BOTTOM

/-- The vector has a non-zero x or y component. -/
def moving (v : Vec3) : Prop := v.x ≠ 0 ∨ v.y ≠ 0

/-! ## Binary32 arithmetic -/

namespace Binary32

/-- A C `float` in binary32: a finite value, an infinity with its sign (`neg` for the
negative one), or NaN. The finite values a `float` can hold are the rationals that
`fl` leaves unchanged (`is_f32`). The sign of a zero is not kept: the code only
compares, adds, multiplies and divides, and a quotient by a zero of either sign is an
infinity or NaN. -/
inductive F32 where
  | fin (q : ℚ)
  | inf (neg : Bool)
  | nan
deriving DecidableEq

open F32

/-- The power `2 ^ e` of an integer exponent. -/
def pow2 (e : Int) : ℚ :=
  if 0 ≤ e then ((2 ^ e.toNat : Nat) : ℚ) else 1 / ((2 ^ (-e).toNat : Nat) : ℚ)

/-- The number of binary digits of `n`, counted with at most `fuel` halvings. -/
def bit_length : Nat → Nat → Nat
  | 0, _ => 0
  | fuel + 1, n => if n = 0 then 0 else bit_length fuel (n / 2) + 1

/-- The binary32 exponent of `a >= 0`: the `e` with `2 ^ e <= a < 2 ^ (e + 1)`, kept
within `-126` (the subnormal range and the smallest normal binade) and `127` (the largest
binade). The difference `d` of the bit lengths of the numerator and the denominator is
the exponent or one more. -/
def exponent (a : ℚ) : Int :=
  if a ≤ 0 then -126
  else
    let d : Int := (bit_length a.num.natAbs a.num.natAbs : Int) - (bit_length a.den a.den : Int)
    max (-126) (min 127 (if a < pow2 d then d - 1 else d))

/-- The nearest integer to `x`, the even one of the two when `x` lies halfway. -/
def round_even (x : ℚ) : Int :=
  if x - ⌊x⌋ < 1 / 2 then ⌊x⌋
  else if 1 / 2 < x - ⌊x⌋ then ⌊x⌋ + 1
  else if ⌊x⌋ % 2 = 0 then ⌊x⌋ else ⌊x⌋ + 1

/-- The unit in the last place of the binade of `a`: 24 significant bits. -/
def ulp (a : ℚ) : ℚ := pow2 (exponent a - 23)

/-- The magnitude `a >= 0` rounded to the nearest multiple of its `ulp`, ties to even. -/
def round_abs (a : ℚ) : ℚ := (round_even (a / ulp a) : ℚ) * ulp a

/-- Rounding to binary32, to nearest with ties to even: the `float` that an operation with
the exact result `q` returns. A magnitude that rounds to `2 ^ 128` overflows to an
infinity. -/
def fl (q : ℚ) : F32 :=
  if pow2 128 ≤ round_abs |q| then inf (decide (q < 0))
  else fin (if q < 0 then -round_abs |q| else round_abs |q|)

/-- The rational `q` is a `float`. -/
def is_f32 (q : ℚ) : Prop := fl q = fin q

instance (q : ℚ) : Decidable (is_f32 q) := by
  unfold is_f32; infer_instance

/-- The value of `FLT_MAX`, `(2 ^ 24 - 1) * 2 ^ 104`. -/
def FLT_MAX_value : ℚ := 340282346638528859811704183484516925440

/-- The constant `FLT_MAX`. -/
def FLT_MAX : F32 := fin FLT_MAX_value

/-- The `float` operation `x + y`. -/
def fadd : F32 → F32 → F32
  | fin a, fin b => fl (a + b)
  | fin _, inf n => inf n
  | inf n, fin _ => inf n
  | inf n1, inf n2 => if n1 = n2 then inf n1 else nan
  | _, _ => nan

/-- The `float` operation `-x`. -/
def fneg : F32 → F32
  | fin a => fin (-a)
  | inf n => inf (!n)
  | nan => nan

/-- The `float` operation `x - y`. -/
def fsub (x y : F32) : F32 := fadd x (fneg y)

/-- The `float` operation `x * y`. -/
def fmul : F32 → F32 → F32
  | fin a, fin b => fl (a * b)
  | fin a, inf n => if a = 0 then nan else inf (xor (decide (a < 0)) n)
  | inf n, fin b => if b = 0 then nan else inf (xor n (decide (b < 0)))
  | inf n1, inf n2 => inf (xor n1 n2)
  | _, _ => nan

/-- The `float` operation `x / y`. A non-zero value over zero is an infinity, here with
the sign of the dividend, as the sign of a zero is not kept: the solver rejects a time
that is either infinity, and the other divisors of the collider are a norm, 1 and 2. -/
def fdiv : F32 → F32 → F32
  | fin a, fin b =>
    if b = 0 then (if a = 0 then nan else inf (decide (a < 0))) else fl (a / b)
  | fin _, inf _ => fin 0
  | inf n, fin b => inf (xor n (decide (b < 0)))
  | _, _ => nan

/-- The comparison `x < y` of two `float`s; false when one of them is NaN. -/
def flt : F32 → F32 → Prop
  | fin a, fin b => a < b
  | fin _, inf n => n = false
  | inf n, fin _ => n = true
  | inf n1, inf n2 => n1 = true ∧ n2 = false
  | _, _ => False

/-- The comparison `x <= y` of two `float`s; false when one of them is NaN. -/
def fle : F32 → F32 → Prop
  | fin a, fin b => a ≤ b
  | fin _, inf n => n = false
  | inf n, fin _ => n = true
  | inf n1, inf n2 => n1 = true ∨ n2 = false
  | _, _ => False

/-- The comparison `x == y` of two `float`s; false when one of them is NaN. -/
def feq : F32 → F32 → Prop
  | fin a, fin b => a = b
  | inf n1, inf n2 => n1 = n2
  | _, _ => False

/-- The comparison `x > y`. -/
def fgt (x y : F32) : Prop := flt y x

/-- The comparison `x >= y`. -/
def fge (x y : F32) : Prop := fle y x

instance (x y : F32) : Decidable (flt x y) := by
  cases x <;> cases y <;> unfold flt <;> infer_instance

instance (x y : F32) : Decidable (fle x y) := by
  cases x <;> cases y <;> unfold fle <;> infer_instance

instance (x y : F32) : Decidable (feq x y) := by
  cases x <;> cases y <;> unfold feq <;> infer_instance

instance (x y : F32) : Decidable (fgt x y) := by
  unfold fgt; infer_instance

instance (x y : F32) : Decidable (fge x y) := by
  unfold fge; infer_instance

/-- The library function `fmaxf(x, y)`: the larger argument, and the other argument when
one of them is NaN. -/
def fmaxf : F32 → F32 → F32
  | nan, y => y
  | x, nan => x
  | x, y => if flt x y then y else x

/-- The literal `0.0000001f`. -/
def EPSILON : F32 := fl (1 / 10000000)

/-! ## The collider in binary32 -/

/-- Three `float` components, `v[0]`, `v[1]`, `v[2]`. -/
structure Vec3 where
  x : F32
  y : F32
  z : F32
deriving DecidableEq

/-- The fields of `SPRITE` that the collider reads or writes. -/
structure SPRITE where
  pos : Vec3
  vel : Vec3
  size : Vec3
  is_static : Bool
deriving DecidableEq

/-- The sprites the addresses point to. -/
abbrev Heap := Ptr → SPRITE

/-- The struct `collision_values`. -/
structure COLLISION_VALUES where
  mode_a : Nat
  mode_b : Nat
  time : F32
  sprite : Ptr
  other_sprite : Ptr
deriving DecidableEq

/-- The function `is_colliding_x(a, b, time)`, each operation rounded to binary32. -/
def is_colliding_x (a b : SPRITE) (time : F32) : Prop :=
  let top_a := fadd (fadd a.pos.y (fmul a.vel.y time)) a.size.y
  let top_b := fadd (fadd b.pos.y (fmul b.vel.y time)) b.size.y
  let bottom_a := fadd a.pos.y (fmul a.vel.y time)
  let bottom_b := fadd b.pos.y (fmul b.vel.y time)
  (fgt top_a bottom_b ∧ fgt top_b bottom_a) ∧ (flt bottom_a top_b ∧ flt bottom_b top_a)

instance (a b : SPRITE) (time : F32) : Decidable (is_colliding_x a b time) := by
  unfold is_colliding_x; infer_instance

/-- The function `is_colliding_y(a, b, time)`, each operation rounded to binary32. -/
def is_colliding_y (a b : SPRITE) (time : F32) : Prop :=
  let left_a := fadd a.pos.x (fmul a.vel.x time)
  let left_b := fadd b.pos.x (fmul b.vel.x time)
  let right_a := fadd (fadd a.pos.x (fmul a.vel.x time)) a.size.x
  let right_b := fadd (fadd b.pos.x (fmul b.vel.x time)) b.size.x
  (flt left_a right_b ∧ flt left_b right_a) ∧ (fgt right_a left_b ∧ fgt right_b left_a)

instance (a b : SPRITE) (time : F32) : Decidable (is_colliding_y a b time) := by
  unfold is_colliding_y; infer_instance

/-- One of the four directed cases of `intersection_time`:
`if (guard) { time = num / den; if (time >= 0 && time < collision.time && cross(a, b, time)) { ... } }`. -/
def directed_case (collision : COLLISION_VALUES) (guard : Prop) [Decidable guard]
    (num den : F32) (cross : F32 → Prop) [DecidablePred cross] (mode_a mode_b : Nat) :
    COLLISION_VALUES :=
  if guard then
    if fge (fdiv num den) (fin 0) ∧ flt (fdiv num den) collision.time ∧
        cross (fdiv num den) then
      { collision with time := fdiv num den, mode_a := mode_a, mode_b := mode_b }
    else collision
  else collision

/-- The function `intersection_time(a, b)`, reading the two sprites from the heap. -/
def intersection_time (m : Heap) (a b : Ptr) : COLLISION_VALUES :=
  let left_a := (m a).pos.x
  let left_b := (m b).pos.x
  let right_a := fadd (m a).pos.x (m a).size.x
  let right_b := fadd (m b).pos.x (m b).size.x
  let top_a := fadd (m a).pos.y (m a).size.y
  let top_b := fadd (m b).pos.y (m b).size.y
  let bottom_a := (m a).pos.y
  let bottom_b := (m b).pos.y
  let a_vel_x := (m a).vel.x
  let a_vel_y := (m a).vel.y
  let b_vel_x := (m b).vel.x
  let b_vel_y := (m b).vel.y
  let collision : COLLISION_VALUES :=
    { time := FLT_MAX, mode_a := NONE, mode_b := NONE, sprite := a, other_sprite := b }
  let collision := directed_case collision (fgt a_vel_x (fin 0) ∧ flt right_a left_b)
    (fsub left_b right_a) (fsub a_vel_x b_vel_x) (is_colliding_x (m a) (m b)) RIGHT LEFT
  let collision := directed_case collision (flt a_vel_x (fin 0) ∧ fgt left_a right_b)
    (fsub right_b left_a) (fsub a_vel_x b_vel_x) (is_colliding_x (m a) (m b)) LEFT RIGHT
  let collision := directed_case collision (fgt a_vel_y (fin 0) ∧ flt top_a bottom_b)
    (fsub bottom_b top_a) (fsub a_vel_y b_vel_y) (is_colliding_y (m a) (m b)) TOP BOTTOM
  let collision := directed_case collision (flt a_vel_y (fin 0) ∧ fgt bottom_a top_b)
    (fsub top_b bottom_a) (fsub a_vel_y b_vel_y) (is_colliding_y (m a) (m b)) BOTTOM TOP
  collision

/-- The value `(*collisions)[0].time`; the code reads it only when `count != 0`. -/
def slot0_time (collisions : List COLLISION_VALUES) : F32 :=
  match collisions with
  | [] => FLT_MAX
  | c :: _ => c.time

/-- The body of the loop of `find_collision_time` for `sprites[i] = s`; the buffer with
its count is the list `collisions`. The diagnostic `printf` is not modelled. -/
def find_collision_step (m : Heap) (max_collisions : Nat) (a : Ptr) (time : F32)
    (collisions : List COLLISION_VALUES) (s : Ptr) : List COLLISION_VALUES :=
  if s = a then collisions
  else
    let collision := intersection_time m a s
    if collisions.length ≠ 0 ∧ fge collision.time (fin 0) ∧
        ¬ feq collision.time FLT_MAX ∧ feq collision.time (slot0_time collisions) ∧
        fle collision.time time then
      if collisions.length ≥ max_collisions then collisions
      else collisions ++ [collision]
    else if fge collision.time (fin 0) ∧ ¬ feq collision.time FLT_MAX ∧
        fle collision.time time then
      if collisions.length = 0 then [collision]
      else if flt collision.time (slot0_time collisions) then [collision]
      else collisions
    else collisions

/-- The function `find_collision_time(collisions, collisions_count, max_collisions, a, time)`
over the registry `sprites`; it returns the buffer prefix of length `count`. -/
def find_collision_time (m : Heap) (sprites : List Ptr) (collisions : List COLLISION_VALUES)
    (max_collisions : Nat) (a : Ptr) (time : F32) : List COLLISION_VALUES :=
  sprites.foldl (find_collision_step m max_collisions a time) collisions

/-- The integer square root bit by bit: below the bit `k`, the largest `r + d` with
`d < 2 ^ k` whose square is at most `n`. -/
def isqrt_from : Nat → Nat → Nat → Nat
  | 0, _, r => r
  | k + 1, n, r =>
    if (r + 2 ^ k) * (r + 2 ^ k) ≤ n then isqrt_from k n (r + 2 ^ k) else isqrt_from k n r

/-- The floor of the square root of `n`. -/
def isqrt (n : Nat) : Nat := isqrt_from (bit_length n n) n 0

/-- The root of `q >= 0` when `q` is the square of a rational: the roots of its numerator
and its denominator. -/
def rat_root (q : ℚ) : ℚ := (isqrt q.num.natAbs : ℚ) / (isqrt q.den : ℚ)

/-- The search for the exponent of the square root of `q`, upwards from `e` for at most
`k` steps: the first exponent with `q < (2 ^ (e + 1)) ^ 2`. -/
def sqrt_exponent_from (q : ℚ) : Nat → Int → Int
  | 0, e => e
  | k + 1, e => if q < pow2 (2 * (e + 1)) then e else sqrt_exponent_from q k (e + 1)

/-- The `float` nearest to the square root of `q >= 0`, as `sqrtf` returns it. When `q`
is the square of a rational the root is rounded as it is; otherwise the root is
irrational, lies strictly between two neighbouring multiples `n u` and `(n + 1) u` of the
unit `u` of its binade, and is compared with their midpoint through the squares. -/
def fl_sqrt (q : ℚ) : F32 :=
  if rat_root q * rat_root q = q then fl (rat_root q)
  else
    let u := pow2 (sqrt_exponent_from q 253 (-126) - 23)
    let n : ℚ := (isqrt ⌊q / (u * u)⌋₊ : ℚ)
    let r := if q / (u * u) < (n + 1 / 2) * (n + 1 / 2) then n * u else (n + 1) * u
    if pow2 128 ≤ r then inf false else fin r

/-- Modelled from the spec: `vec_3_length` is declared outside `sprite_collider.cpp`; the
spec calls it the Euclidean norm: here the `float` nearest to the norm (an infinity for
an infinite component, NaN for a NaN component). -/
def vec_3_length (v : Vec3) : F32 :=
  match v.x, v.y, v.z with
  | fin a, fin b, fin c => fl_sqrt (a * a + b * b + c * c)
  | nan, _, _ => nan
  | _, nan, _ => nan
  | _, _, nan => nan
  | _, _, _ => inf false

/-- Modelled from the spec: `vec_3_normalize` is declared outside `sprite_collider.cpp`;
it scales its argument to unit length and returns it: each component is divided by the
length. -/
def vec_3_normalize (v : Vec3) : Vec3 :=
  ⟨fdiv v.x (vec_3_length v), fdiv v.y (vec_3_length v), fdiv v.z (vec_3_length v)⟩

/-- The scalar product in `float` operations. -/
def vec_3_dot (v n : Vec3) : F32 :=
  fadd (fadd (fmul v.x n.x) (fmul v.y n.y)) (fmul v.z n.z)

/-- Modelled from the spec: `vec_3_reflect(out, v, n)` is declared outside
`sprite_collider.cpp`; it is the reflection `v - 2 (v . n) n` of `v` about the normal `n`,
in `float` operations. -/
def vec_3_reflect (v n : Vec3) : Vec3 :=
  ⟨fsub v.x (fmul (fmul (fin 2) (vec_3_dot v n)) n.x),
   fsub v.y (fmul (fmul (fin 2) (vec_3_dot v n)) n.y),
   fsub v.z (fmul (fmul (fin 2) (vec_3_dot v n)) n.z)⟩

/-- Modelled from the spec: `vec_3_mul_scalar(out, v, s)` is declared outside
`sprite_collider.cpp`; it scales `v` by `s`. -/
def vec_3_mul_scalar (v : Vec3) (s : F32) : Vec3 := ⟨fmul v.x s, fmul v.y s, fmul v.z s⟩

/-- The table `normals[12]`. -/
def normals : List F32 :=
  [fin (-1), fin 0, fin 0, fin 1, fin 0, fin 0, fin 0, fin (-1), fin 0, fin 0, fin 1, fin 0]

/-- The three floats at `normals + (mode - 1) * 3`. For `mode = NONE` the C offset is
negative (out of bounds); the records of a winning set never carry `NONE`. -/
def normal_of (mode : Nat) : Vec3 :=
  ⟨normals.getD ((mode - 1) * 3) (fin 0), normals.getD ((mode - 1) * 3 + 1) (fin 0),
   normals.getD ((mode - 1) * 3 + 2) (fin 0)⟩

/-- The store `p->vel[0..2] = v`. -/
def set_vel (m : Heap) (p : Ptr) (v : Vec3) : Heap :=
  fun q => if q = p then { m p with vel := v } else m q

/-- The state of one resolution pass: the heap, the non-NULL prefix of `resolved[]`, and a
ghost log of the addresses whose velocity the pass has written, in order. -/
structure RESOLVE_STATE where
  heap : Heap
  resolved : List Ptr
  assigned : List Ptr

/-- The body of the resolver loop of `process_sprites` for the record `c = collision_set[i]`.
The two momenta and `orig_vel` are read before either store. In the `other_sprite` branch
the result of `vec_3_reflect(vel, other_sprite->vel, ...)` is overwritten by
`vec_3_mul_scalar` before it is read, so it has no counterpart here. -/
def resolve_record (st : RESOLVE_STATE) (c : COLLISION_VALUES) : RESOLVE_STATE :=
  let orig_vel := (st.heap c.sprite).vel
  let vel_a_momentum := vec_3_length (st.heap c.sprite).vel
  let vel_b_momentum := vec_3_length (st.heap c.other_sprite).vel
  let st1 : RESOLVE_STATE :=
    if ¬ (st.heap c.sprite).is_static = true ∧ c.sprite ∉ st.resolved then
      let vel := vec_3_reflect (st.heap c.sprite).vel (normal_of c.mode_a)
      let vel := vec_3_normalize vel
      let factor : F32 := if (st.heap c.other_sprite).is_static = true then fin 1 else fin 2
      let vel := vec_3_mul_scalar (vec_3_normalize vel)
        (fdiv (fadd vel_a_momentum vel_b_momentum) factor)
      { heap := set_vel st.heap c.sprite vel,
        resolved := mark_resolved st.resolved c.sprite,
        assigned := st.assigned ++ [c.sprite] }
    else st
  if ¬ (st1.heap c.other_sprite).is_static = true ∧ c.other_sprite ∉ st1.resolved then
    let factor : F32 := if (st1.heap c.other_sprite).is_static = true then fin 1 else fin 2
    let vel := vec_3_mul_scalar (vec_3_normalize orig_vel)
      (fdiv (fadd vel_a_momentum vel_b_momentum) factor)
    { heap := set_vel st1.heap c.other_sprite vel,
      resolved := mark_resolved st1.resolved c.other_sprite,
      assigned := st1.assigned ++ [c.other_sprite] }
  else st1

/-- The resolver loop over `collision_set[0 .. collision_count)`, entered with `resolved[]`
cleared. -/
def resolve_pass (m : Heap) (collision_set : List COLLISION_VALUES) : RESOLVE_STATE :=
  collision_set.foldl resolve_record { heap := m, resolved := [], assigned := [] }

/-- The scan loop of one sub-step: every registered sprite in turn extends the candidate
set, which is carried from one sprite to the next, and a candidate set whose slot 0 time
is `>= 0` and `< dt - processed_time` is copied to the winning set. The pair is
`(candidate_collision_set, collision_set)`, each with its count. -/
def scan_sprites (m : Heap) (sprites : List Ptr) (remaining : F32) :
    List COLLISION_VALUES × List COLLISION_VALUES :=
  sprites.foldl
    (fun sets s =>
      let candidate := find_collision_time m sprites sets.1 COLLISIONS_MAX s remaining
      if candidate.length ≠ 0 ∧ fge (slot0_time candidate) (fin 0) ∧
          flt (slot0_time candidate) remaining then
        (candidate, candidate)
      else (candidate, sets.2))
    ([], [])

/-- The sprite `s` after `s->pos[k] += s->vel[k] * fmaxf(0.0f, t - 0.0000001f)` on the
three axes. -/
def advanced (s : SPRITE) (t : F32) : SPRITE :=
  { s with pos :=
      ⟨fadd s.pos.x (fmul s.vel.x (fmaxf (fin 0) (fsub t EPSILON))),
       fadd s.pos.y (fmul s.vel.y (fmaxf (fin 0) (fsub t EPSILON))),
       fadd s.pos.z (fmul s.vel.z (fmaxf (fin 0) (fsub t EPSILON)))⟩ }

/-- The loop `sprites[j]->pos[k] += sprites[j]->vel[k] * fmaxf(0.0f, t - 0.0000001f)`
over the registry. -/
def advance_sprites (m : Heap) (sprites : List Ptr) (t : F32) : Heap :=
  sprites.foldl (fun h p q => if q = p then advanced (h p) t else h q) m

/-- One iteration of the `while (processed_time < dt)` loop of `process_sprites`, from the
heap and `processed_time` to the next heap and `processed_time`. Both counts are zero
when an iteration begins. -/
def sub_step (sprites : List Ptr) (dt : F32) (st : Heap × F32) : Heap × F32 :=
  let collision_set := (scan_sprites st.1 sprites (fsub dt st.2)).2
  let m1 :=
    if collision_set.length ≠ 0 then
      advance_sprites st.1 sprites (slot0_time collision_set)
    else st.1
  let m2 := (resolve_pass m1 collision_set).heap
  if collision_set.length = 0 then
    (advance_sprites m2 sprites (fsub dt st.2), dt)
  else (m2, fadd st.2 (slot0_time collision_set))

/-- The loop `while (processed_time < dt)` run for at most `fuel` iterations. -/
def process_loop (sprites : List Ptr) (dt : F32) : Nat → Heap × F32 → Heap × F32
  | 0, st => st
  | fuel + 1, st =>
    if flt st.2 dt then process_loop sprites dt fuel (sub_step sprites dt st) else st

/-- The function `process_sprites(dt)`: the heap when the loop has ended within `fuel`
iterations. -/
def process_sprites (fuel : Nat) (m : Heap) (sprites : List Ptr) (dt : F32) : Option Heap :=
  let st := process_loop sprites dt fuel (m, fin 0)
  if flt st.2 dt then none else some st.1

/-! ### Finite sprites -/

/-- The vector of finite `float`s with the given values. -/
def vec32 (v : SpriteCollider.Vec3) : Vec3 := ⟨fin v.x, fin v.y, fin v.z⟩

/-- The sprite whose fields are the finite `float`s with the given values. -/
def sprite32 (s : SpriteCollider.SPRITE) : SPRITE :=
  { pos := vec32 s.pos, vel := vec32 s.vel, size := vec32 s.size, is_static := s.is_static }

/-- The heap of the sprites of `m`, as finite `float`s. -/
def heap32 (m : SpriteCollider.Heap) : Heap := fun p => sprite32 (m p)

/-! ### When the arithmetic of a solver call is exact -/

/-- The `float` of a record time of the exact model: the sentinel is `FLT_MAX`. -/
def time32 (t : FTime) : F32 :=
  match (t : Option ℚ) with
  | none => FLT_MAX
  | some q => fin q

/-- The binary32 record with the fields of `c`. -/
def record32 (c : SpriteCollider.COLLISION_VALUES) : COLLISION_VALUES :=
  { mode_a := c.mode_a, mode_b := c.mode_b, time := time32 c.time, sprite := c.sprite,
    other_sprite := c.other_sprite }

/-- No operation of `is_colliding_x(A, B, t)` rounds: the three values computed for each
sprite are `float`s. -/
def exact_cross_x (A B : SpriteCollider.SPRITE) (t : ℚ) : Prop :=
  (is_f32 (A.vel.y * t) ∧ is_f32 (A.pos.y + A.vel.y * t) ∧
    is_f32 (A.pos.y + A.vel.y * t + A.size.y)) ∧
  (is_f32 (B.vel.y * t) ∧ is_f32 (B.pos.y + B.vel.y * t) ∧
    is_f32 (B.pos.y + B.vel.y * t + B.size.y))

/-- No operation of `is_colliding_y(A, B, t)` rounds. -/
def exact_cross_y (A B : SpriteCollider.SPRITE) (t : ℚ) : Prop :=
  (is_f32 (A.vel.x * t) ∧ is_f32 (A.pos.x + A.vel.x * t) ∧
    is_f32 (A.pos.x + A.vel.x * t + A.size.x)) ∧
  (is_f32 (B.vel.x * t) ∧ is_f32 (B.pos.x + B.vel.x * t) ∧
    is_f32 (B.pos.x + B.vel.x * t + B.size.x))

/-- No operation of a directed case rounds: when its guard holds, the gap and the
relative velocity are `float`s, and for a non-zero relative velocity so is their quotient,
which lies below `FLT_MAX`, and a non-negative quotient is a time at which the overlap test
does not round. -/
def exact_case (guard : Prop) (num den : ℚ) (cross_exact : ℚ → Prop) : Prop :=
  guard → is_f32 num ∧ is_f32 den ∧
    (den ≠ 0 → is_f32 (num / den) ∧ num / den < FLT_MAX_value ∧
      (0 ≤ num / den → cross_exact (num / den)))

/-- No operation of the call `intersection_time(a, b)` rounds: the four far edges
`pos + size` are `float`s and none of the four directed cases rounds. -/
def solver_exact (m : SpriteCollider.Heap) (a b : Ptr) : Prop :=
  (is_f32 ((m a).pos.x + (m a).size.x) ∧ is_f32 ((m b).pos.x + (m b).size.x) ∧
    is_f32 ((m a).pos.y + (m a).size.y) ∧ is_f32 ((m b).pos.y + (m b).size.y)) ∧
  exact_case ((m a).vel.x > 0 ∧ (m a).pos.x + (m a).size.x < (m b).pos.x)
    ((m b).pos.x - ((m a).pos.x + (m a).size.x)) ((m a).vel.x - (m b).vel.x)
    (exact_cross_x (m a) (m b)) ∧
  exact_case ((m a).vel.x < 0 ∧ (m a).pos.x > (m b).pos.x + (m b).size.x)
    ((m b).pos.x + (m b).size.x - (m a).pos.x) ((m a).vel.x - (m b).vel.x)
    (exact_cross_x (m a) (m b)) ∧
  exact_case ((m a).vel.y > 0 ∧ (m a).pos.y + (m a).size.y < (m b).pos.y)
    ((m b).pos.y - ((m a).pos.y + (m a).size.y)) ((m a).vel.y - (m b).vel.y)
    (exact_cross_y (m a) (m b)) ∧
  exact_case ((m a).vel.y < 0 ∧ (m a).pos.y > (m b).pos.y + (m b).size.y)
    ((m b).pos.y + (m b).size.y - (m a).pos.y) ((m a).vel.y - (m b).vel.y)
    (exact_cross_y (m a) (m b))

instance (A B : SpriteCollider.SPRITE) (t : ℚ) : Decidable (exact_cross_x A B t) := by
  unfold exact_cross_x; infer_instance

instance (A B : SpriteCollider.SPRITE) (t : ℚ) : Decidable (exact_cross_y A B t) := by
  unfold exact_cross_y; infer_instance

instance (guard : Prop) [Decidable guard] (num den : ℚ) (cross_exact : ℚ → Prop)
    [DecidablePred cross_exact] : Decidable (exact_case guard num den cross_exact) := by
  unfold exact_case; infer_instance

instance (m : SpriteCollider.Heap) (a b : Ptr) : Decidable (solver_exact m a b) := by
  unfold solver_exact; infer_instance

/-! ### Vocabulary of the statements on the binary32 solver -/

/-- The value is one a `float` can hold. -/
def valid : F32 → Prop
  | fin q => is_f32 q
  | _ => True

instance (x : F32) : Decidable (valid x) := by
  cases x <;> unfold valid <;> infer_instance

/-- The value of the `float` literal written `q`: the rational that `q` rounds to. -/
def float_lit (q : ℚ) : ℚ :=
  match fl q with
  | fin r => r
  | _ => 0

/-- The local `right_a` of `intersection_time`: `a->pos[0] + a->size[0]`, rounded. -/
def right_edge (s : SPRITE) : F32 := fadd s.pos.x s.size.x

/-- The local `top_a` of `intersection_time`: `a->pos[1] + a->size[1]`, rounded. -/
def top_edge (s : SPRITE) : F32 := fadd s.pos.y s.size.y

/-- The `time` of the first directed case of `intersection_time(A, B)`: the rounded
quotient of the rounded gap `left_b - right_a` by the rounded closing speed
`a_vel_x - b_vel_x`. -/
def closing_time (A B : SPRITE) : F32 :=
  fdiv (fsub B.pos.x (right_edge A)) (fsub A.vel.x B.vel.x)

/-- A at x = 2 - 2^-23, the largest `float` below 2, moving right with velocity 1, and B
static at x = 3: the gap between A's right edge and B's left edge is 2^-23. -/
def heap_edge : SpriteCollider.Heap :=
  heap2 (unit_box (2 - 1 / 8388608) 0 1 0 false) (unit_box 3 0 0 0 true)

/-- A at x = 1 - 2^-24, the largest `float` below 1, moving right with velocity 1, and B
at rest at x = 2; and the same pair along y. -/
def heap_edge_x : SpriteCollider.Heap :=
  heap2 (unit_box (1 - 1 / 16777216) 0 1 0 false) (unit_box 2 0 0 0 false)

/-- A at y = 1 - 2^-24 moving up with velocity 1, and B at rest at y = 2. -/
def heap_edge_y : SpriteCollider.Heap :=
  heap2 (unit_box 0 (1 - 1 / 16777216) 0 1 false) (unit_box 0 2 0 0 false)

/-- A with its right edge at 0 moving right with velocity 1, and B at x = 2^-149, the
smallest positive `float`, moving right with velocity 4: the pair separates. -/
def heap_tiny_gap : SpriteCollider.Heap :=
  heap2 (unit_box (-1) 0 1 0 false) (unit_box (pow2 (-149)) 0 4 0 false)

/-- A box with the decimal fields of the arguments, as the `float` literals they denote. -/
def lit_box (x y vx vy sx sy : ℚ) : SpriteCollider.SPRITE :=
  { pos := ⟨float_lit x, float_lit y, 0⟩, vel := ⟨float_lit vx, float_lit vy, 0⟩,
    size := ⟨float_lit sx, float_lit sy, 1⟩, is_static := false }

/-- A at (-4.9, -5.2) of size (3.1, 3.6) moving right with velocity 2.8, and B at
(8.7, 17.9) of size (4.7, 2.6) moving down with velocity 5.2: the corner of A meets
the corner of B. -/
def heap_corners : SpriteCollider.Heap :=
  heap2 (lit_box (-49 / 10) (-52 / 10) (28 / 10) 0 (31 / 10) (36 / 10))
    (lit_box (87 / 10) (179 / 10) 0 (-52 / 10) (47 / 10) (26 / 10))

/-! ### Vocabulary of the statements on the binary32 stepper -/

/-- What `processed_time` is between two iterations of the loop of `process_sprites(dt)`:
a `float` that is `>= 0` and `<= dt`. -/
def clock_inv (dt c : F32) : Prop := valid c ∧ fge c (fin 0) ∧ fle c dt

instance (dt c : F32) : Decidable (clock_inv dt c) := by
  unfold clock_inv; infer_instance

/-- A at x = -2^-29 with width 2^-30 moving right with velocity 1, and B static at the
origin: the gap between them is 2^-30 and closes at time 2^-30. -/
def heap_small_gap : SpriteCollider.Heap :=
  heap2
    { pos := ⟨-pow2 (-29), 0, 0⟩, vel := ⟨1, 0, 0⟩, size := ⟨pow2 (-30), 1, 1⟩,
      is_static := false }
    (unit_box 0 0 0 0 true)

/-- The pair of C11 that never meets in exact arithmetic: A at (1.3, 1.3) of size
(0.3, 2.7) with velocity (5.5, -0.7) and B at (2.7, 4) with the same y velocity: the top
of A is the bottom of B, 4, at every time. -/
def heap_touch : SpriteCollider.Heap :=
  heap2 (lit_box (13 / 10) (13 / 10) (55 / 10) (-7 / 10) (3 / 10) (27 / 10))
    (lit_box (27 / 10) 4 0 (-7 / 10) 1 1)

/-- The registered sprites all have the same x velocity and the same y velocity: every
pair has zero relative velocity along both axes. -/
def same_velocity (m : Heap) (sprites : List Ptr) : Prop :=
  ∀ a ∈ sprites, ∀ b ∈ sprites, (m a).vel.x = (m b).vel.x ∧ (m a).vel.y = (m b).vel.y

instance (m : Heap) (sprites : List Ptr) : Decidable (same_velocity m sprites) := by
  unfold same_velocity; infer_instance

/-! ### Vocabulary of the statements on the binary32 resolver -/

/-- The vector has a non-zero x or y component. -/
def moving (v : Vec3) : Prop :=
  fgt v.x (fin 0) ∨ flt v.x (fin 0) ∨ fgt v.y (fin 0) ∨ flt v.y (fin 0)

instance (v : Vec3) : Decidable (moving v) := by
  unfold moving; infer_instance

/-- The zero vector. -/
def zero_vec : Vec3 := ⟨fin 0, fin 0, fin 0⟩

/-- The vector of length `|x|` along the y axis (`along_y`) or the x axis. -/
def axis_vec (along_y : Bool) (x : ℚ) : Vec3 :=
  if along_y = true then ⟨fin 0, fin x, fin 0⟩ else ⟨fin x, fin 0, fin 0⟩

/-- The components of `v` are finite and its Euclidean norm is `s`. -/
def speed_eq (v : Vec3) (s : ℚ) : Prop :=
  0 ≤ s ∧ ∃ a b c : ℚ, v = ⟨fin a, fin b, fin c⟩ ∧ a * a + b * b + c * c = s * s

/-- The shape shared by the two branches of `resolve_record`: a participant `p` that is
neither static nor in `resolved[]` gets the velocity `v` and is marked. -/
def resolve_branch (st : RESOLVE_STATE) (p : Ptr) (v : Vec3) : RESOLVE_STATE :=
  if ¬ (st.heap p).is_static = true ∧ p ∉ st.resolved then
    { heap := set_vel st.heap p v, resolved := mark_resolved st.resolved p,
      assigned := st.assigned ++ [p] }
  else st

/-- The speed `(vel_a_momentum + vel_b_momentum) / factor` of `resolve_record` for two
non-static participants (`factor = 2.0f`), every operation rounded. -/
def shared_speed (v_a v_b : Vec3) : F32 :=
  fdiv (fadd (vec_3_length v_a) (vec_3_length v_b)) (fin 2)

/-- The velocity `resolve_record` stores in the `sprite` of `c`. -/
def new_vel_sprite (st : RESOLVE_STATE) (c : COLLISION_VALUES) : Vec3 :=
  vec_3_mul_scalar
    (vec_3_normalize (vec_3_normalize
      (vec_3_reflect (st.heap c.sprite).vel (normal_of c.mode_a))))
    (fdiv (fadd (vec_3_length (st.heap c.sprite).vel)
        (vec_3_length (st.heap c.other_sprite).vel))
      (if (st.heap c.other_sprite).is_static = true then fin 1 else fin 2))

/-- The vectors that `resolve_record st c` passes to `vec_3_normalize`, in order: in the
`sprite` branch the reflected velocity and then its normalized copy, in the
`other_sprite` branch the saved `orig_vel`. -/
def normalize_args (st : RESOLVE_STATE) (c : COLLISION_VALUES) : List Vec3 :=
  (if ¬ (st.heap c.sprite).is_static = true ∧ c.sprite ∉ st.resolved then
    [vec_3_reflect (st.heap c.sprite).vel (normal_of c.mode_a),
      vec_3_normalize (vec_3_reflect (st.heap c.sprite).vel (normal_of c.mode_a))]
  else []) ++
  (if ¬ ((resolve_branch st c.sprite (new_vel_sprite st c)).heap c.other_sprite).is_static
        = true ∧
      c.other_sprite ∉ (resolve_branch st c.sprite (new_vel_sprite st c)).resolved then
    [(st.heap c.sprite).vel]
  else [])

/-- The vectors passed to `vec_3_normalize` in a resolution pass over `cs` from state `st`. -/
def pass_normalize_args (st : RESOLVE_STATE) : List COLLISION_VALUES → List Vec3
  | [] => []
  | c :: cs => normalize_args st c ++ pass_normalize_args (resolve_record st c) cs

/-- A (address 0) with its right edge at 0 moving right with the smallest positive
velocity 2^-149, and B, C (addresses 1, 2) at rest at x = 2^-149, all non-static: A reaches
both at time 1. -/
def heap_underflow : SpriteCollider.Heap := fun p =>
  if p = 0 then unit_box (-1) 0 (pow2 (-149)) 0 false
  else if p = 1 then unit_box (pow2 (-149)) 0 0 0 false
  else unit_box (pow2 (-149)) (1 / 2) 0 0 false

/-- Two non-static unit boxes approaching head-on with velocities 1 and -2^-24. -/
def heap_uneven : SpriteCollider.Heap :=
  heap2 (unit_box 0 0 1 0 false) (unit_box 3 0 (-1 / 16777216) 0 false)

/-- A time that the exact solver accepts in a call whose operations do not round lies
below `FLT_MAX`. -/
def below_max (c : SpriteCollider.COLLISION_VALUES) : Prop :=
  ∀ t : ℚ, c.time = (t : FTime) → t < FLT_MAX_value

/-- The x and y velocity components of the registered sprites are values a `float` can
hold. -/
def float_velocities (m : Heap) (sprites : List Ptr) : Prop :=
  ∀ p ∈ sprites, valid (m p).vel.x ∧ valid (m p).vel.y

instance (m : Heap) (sprites : List Ptr) : Decidable (float_velocities m sprites) := by
  unfold float_velocities; infer_instance

/-- The state of a resolution pass over the heap `m` once the records `done` have been
processed. -/
def state_after (m : Heap) (done : List COLLISION_VALUES) : RESOLVE_STATE :=
  done.foldl resolve_record { heap := m, resolved := [], assigned := [] }

end Binary32

/-! ## Properties of the collider in exact arithmetic -/

theorem closing_pos (num den : ℚ) (hnum : 0 < num) (hden : den ≠ 0) (h0 : 0 ≤ num / den) :
    0 < den ∧ den * (num / den) = num ∧ ∀ u : ℚ, u < num / den → den * u < num := by
  have hpos : 0 < den := by
    rcases lt_or_gt_of_ne hden with h | h
    · exact absurd (div_neg_of_pos_of_neg hnum h) (not_lt.mpr h0)
    · exact h
  have hmul : den * (num / den) = num := mul_div_cancel₀ num hden
  refine ⟨hpos, hmul, fun u hu => ?_⟩
  calc den * u < den * (num / den) := mul_lt_mul_of_pos_left hu hpos
    _ = num := hmul

theorem closing_neg (num den : ℚ) (hnum : num < 0) (hden : den ≠ 0) (h0 : 0 ≤ num / den) :
    den < 0 ∧ den * (num / den) = num ∧ ∀ u : ℚ, u < num / den → num < den * u := by
  have hneg : den < 0 := by
    rcases lt_or_gt_of_ne hden with h | h
    · exact h
    · exact absurd (div_neg_of_neg_of_pos hnum h) (not_lt.mpr h0)
  have hmul : den * (num / den) = num := mul_div_cancel₀ num hden
  refine ⟨hneg, hmul, fun u hu => ?_⟩
  calc num = den * (num / den) := hmul.symm
    _ < den * u := mul_lt_mul_of_neg_left hu hneg

section solver

variable (c : COLLISION_VALUES) (guard : Prop) [Decidable guard] (num den : ℚ)
  (cross : ℚ → Prop) [DecidablePred cross] (mode_a mode_b : Nat)

theorem directed_case_eq :
    directed_case c guard num den cross mode_a mode_b =
      if guard ∧ den ≠ 0 ∧ 0 ≤ num / den ∧ ((num / den : ℚ) : FTime) < c.time ∧
          cross (num / den) then
        { c with time := ((num / den : ℚ) : FTime), mode_a := mode_a, mode_b := mode_b }
      else c := by
  unfold directed_case
  by_cases hg : guard
  · by_cases hd : den = 0
    · simp [hg, hd]
    · simp [hg, hd]
  · simp [hg]

theorem directed_case_time_le_self :
    (directed_case c guard num den cross mode_a mode_b).time ≤ c.time := by
  rw [directed_case_eq]
  split_ifs with h
  · exact le_of_lt h.2.2.2.1
  · exact le_refl _

theorem directed_case_time_le (hg : guard) (hden : den ≠ 0) (h0 : 0 ≤ num / den)
    (hc : cross (num / den)) :
    (directed_case c guard num den cross mode_a mode_b).time ≤ ((num / den : ℚ) : FTime) := by
  rw [directed_case_eq]
  split_ifs with h
  · exact le_refl _
  · exact not_lt.mp (fun hlt => h ⟨hg, hden, h0, hlt, hc⟩)

theorem directed_case_of_not_guard (hg : ¬ guard) :
    directed_case c guard num den cross mode_a mode_b = c := by
  rw [directed_case_eq, if_neg (fun h => hg h.1)]

theorem directed_case_accept (hg : guard) (hden : den ≠ 0) (h0 : 0 ≤ num / den)
    (hlt : ((num / den : ℚ) : FTime) < c.time) (hc : cross (num / den)) :
    directed_case c guard num den cross mode_a mode_b =
      { c with time := ((num / den : ℚ) : FTime), mode_a := mode_a, mode_b := mode_b } := by
  rw [directed_case_eq, if_pos ⟨hg, hden, h0, hlt, hc⟩]

/-- A property of records that holds of the incoming record and of every record a
directed case can write also holds of the outgoing record. -/
theorem directed_case_induct (P : COLLISION_VALUES → Prop) (hc : P c)
    (hnew : guard → den ≠ 0 → 0 ≤ num / den → ((num / den : ℚ) : FTime) < c.time →
      cross (num / den) →
      P { c with time := ((num / den : ℚ) : FTime), mode_a := mode_a, mode_b := mode_b }) :
    P (directed_case c guard num den cross mode_a mode_b) := by
  rw [directed_case_eq]
  split_ifs with h
  · exact hnew h.1 h.2.1 h.2.2.1 h.2.2.2.1 h.2.2.2.2
  · exact hc

end solver

/-! ### Every reported time is a first touch, in exact arithmetic -/

theorem first_touch_right (A B : SPRITE) (hg : A.vel.x > 0 ∧ A.pos.x + A.size.x < B.pos.x)
    (hden : A.vel.x - B.vel.x ≠ 0)
    (h0 : 0 ≤ (B.pos.x - (A.pos.x + A.size.x)) / (A.vel.x - B.vel.x))
    (hc : is_colliding_x A B ((B.pos.x - (A.pos.x + A.size.x)) / (A.vel.x - B.vel.x))) :
    first_touch A B RIGHT LEFT ((B.pos.x - (A.pos.x + A.size.x)) / (A.vel.x - B.vel.x)) := by
  obtain ⟨_, hmul, hbefore⟩ := closing_pos _ _ (by linarith [hg.2]) hden h0
  refine ⟨h0, Or.inl ⟨rfl, rfl, ?_, hc⟩, fun u _ hu hboth => ?_⟩
  · unfold right_at left_at
    linarith
  · have h1 := hbefore u hu
    have h2 := hboth.2.1.2
    simp only at h2
    linarith

theorem first_touch_left (A B : SPRITE) (hg : A.vel.x < 0 ∧ A.pos.x > B.pos.x + B.size.x)
    (hden : A.vel.x - B.vel.x ≠ 0)
    (h0 : 0 ≤ (B.pos.x + B.size.x - A.pos.x) / (A.vel.x - B.vel.x))
    (hc : is_colliding_x A B ((B.pos.x + B.size.x - A.pos.x) / (A.vel.x - B.vel.x))) :
    first_touch A B LEFT RIGHT ((B.pos.x + B.size.x - A.pos.x) / (A.vel.x - B.vel.x)) := by
  obtain ⟨_, hmul, hbefore⟩ := closing_neg _ _ (by linarith [hg.2]) hden h0
  refine ⟨h0, Or.inr (Or.inl ⟨rfl, rfl, ?_, hc⟩), fun u _ hu hboth => ?_⟩
  · unfold right_at left_at
    linarith
  · have h1 := hbefore u hu
    have h2 := hboth.2.1.1
    simp only at h2
    linarith

theorem first_touch_top (A B : SPRITE) (hg : A.vel.y > 0 ∧ A.pos.y + A.size.y < B.pos.y)
    (hden : A.vel.y - B.vel.y ≠ 0)
    (h0 : 0 ≤ (B.pos.y - (A.pos.y + A.size.y)) / (A.vel.y - B.vel.y))
    (hc : is_colliding_y A B ((B.pos.y - (A.pos.y + A.size.y)) / (A.vel.y - B.vel.y))) :
    first_touch A B TOP BOTTOM ((B.pos.y - (A.pos.y + A.size.y)) / (A.vel.y - B.vel.y)) := by
  obtain ⟨_, hmul, hbefore⟩ := closing_pos _ _ (by linarith [hg.2]) hden h0
  refine ⟨h0, Or.inr (Or.inr (Or.inl ⟨rfl, rfl, ?_, hc⟩)), fun u _ hu hboth => ?_⟩
  · unfold top_at bottom_at
    linarith
  · have h1 := hbefore u hu
    have h2 := hboth.1.1.1
    simp only at h2
    linarith

theorem first_touch_bottom (A B : SPRITE) (hg : A.vel.y < 0 ∧ A.pos.y > B.pos.y + B.size.y)
    (hden : A.vel.y - B.vel.y ≠ 0)
    (h0 : 0 ≤ (B.pos.y + B.size.y - A.pos.y) / (A.vel.y - B.vel.y))
    (hc : is_colliding_y A B ((B.pos.y + B.size.y - A.pos.y) / (A.vel.y - B.vel.y))) :
    first_touch A B BOTTOM TOP ((B.pos.y + B.size.y - A.pos.y) / (A.vel.y - B.vel.y)) := by
  obtain ⟨_, hmul, hbefore⟩ := closing_neg _ _ (by linarith [hg.2]) hden h0
  refine ⟨h0, Or.inr (Or.inr (Or.inr ⟨rfl, rfl, ?_, hc⟩)), fun u _ hu hboth => ?_⟩
  · unfold top_at bottom_at
    linarith
  · have h1 := hbefore u hu
    have h2 := hboth.1.1.2
    simp only at h2
    linarith

theorem touch_inv_new (A B : SPRITE) (c : COLLISION_VALUES) (mode_a mode_b : Nat) (q : ℚ)
    (h : first_touch A B mode_a mode_b q) :
    touch_inv A B { c with time := (q : FTime), mode_a := mode_a, mode_b := mode_b } := by
  intro t ht
  have hq : q = t := WithTop.coe_injective ht
  subst hq
  exact h

theorem intersection_time_touch_inv (m : Heap) (a b : Ptr) :
    touch_inv (m a) (m b) (intersection_time m a b) := by
  simp only [intersection_time]
  apply directed_case_induct
  · apply directed_case_induct
    · apply directed_case_induct
      · apply directed_case_induct
        · intro t ht
          exact absurd ht.symm (WithTop.coe_ne_top)
        · intro hg hden h0 _ hc
          exact touch_inv_new _ _ _ _ _ _ (first_touch_right _ _ hg hden h0 hc)
      · intro hg hden h0 _ hc
        exact touch_inv_new _ _ _ _ _ _ (first_touch_left _ _ hg hden h0 hc)
    · intro hg hden h0 _ hc
      exact touch_inv_new _ _ _ _ _ _ (first_touch_top _ _ hg hden h0 hc)
  · intro hg hden h0 _ hc
    exact touch_inv_new _ _ _ _ _ _ (first_touch_bottom _ _ hg hden h0 hc)

/-! ### Upper bounds on the reported time -/

theorem is_colliding_x_symm (A B : SPRITE) (t : ℚ) (h : is_colliding_x A B t) :
    is_colliding_x B A t := by
  unfold is_colliding_x at h ⊢
  exact ⟨⟨h.1.2, h.1.1⟩, h.2.2, h.2.1⟩

theorem is_colliding_y_symm (A B : SPRITE) (t : ℚ) (h : is_colliding_y A B t) :
    is_colliding_y B A t := by
  unfold is_colliding_y at h ⊢
  exact ⟨⟨h.1.2, h.1.1⟩, h.2.2, h.2.1⟩

theorem intersection_time_le_right (m : Heap) (a b : Ptr) (t : ℚ)
    (hg : (m a).vel.x > 0 ∧ (m a).pos.x + (m a).size.x < (m b).pos.x)
    (hden : (m a).vel.x - (m b).vel.x ≠ 0)
    (ht : ((m a).vel.x - (m b).vel.x) * t = (m b).pos.x - ((m a).pos.x + (m a).size.x))
    (h0 : 0 ≤ t) (hc : is_colliding_x (m a) (m b) t) :
    (intersection_time m a b).time ≤ (t : FTime) := by
  have hq : t = ((m b).pos.x - ((m a).pos.x + (m a).size.x)) / ((m a).vel.x - (m b).vel.x) :=
    eq_div_of_mul_eq hden (by rw [mul_comm]; exact ht)
  simp only [intersection_time]
  refine le_trans (directed_case_time_le_self _ _ _ _ _ _ _) ?_
  refine le_trans (directed_case_time_le_self _ _ _ _ _ _ _) ?_
  refine le_trans (directed_case_time_le_self _ _ _ _ _ _ _) ?_
  rw [hq] at h0 hc ⊢
  exact directed_case_time_le _ _ _ _ _ _ _ hg hden h0 hc

theorem intersection_time_le_left (m : Heap) (a b : Ptr) (t : ℚ)
    (hg : (m a).vel.x < 0 ∧ (m a).pos.x > (m b).pos.x + (m b).size.x)
    (hden : (m a).vel.x - (m b).vel.x ≠ 0)
    (ht : ((m a).vel.x - (m b).vel.x) * t = (m b).pos.x + (m b).size.x - (m a).pos.x)
    (h0 : 0 ≤ t) (hc : is_colliding_x (m a) (m b) t) :
    (intersection_time m a b).time ≤ (t : FTime) := by
  have hq : t = ((m b).pos.x + (m b).size.x - (m a).pos.x) / ((m a).vel.x - (m b).vel.x) :=
    eq_div_of_mul_eq hden (by rw [mul_comm]; exact ht)
  simp only [intersection_time]
  refine le_trans (directed_case_time_le_self _ _ _ _ _ _ _) ?_
  refine le_trans (directed_case_time_le_self _ _ _ _ _ _ _) ?_
  rw [hq] at h0 hc ⊢
  exact directed_case_time_le _ _ _ _ _ _ _ hg hden h0 hc

theorem intersection_time_le_top (m : Heap) (a b : Ptr) (t : ℚ)
    (hg : (m a).vel.y > 0 ∧ (m a).pos.y + (m a).size.y < (m b).pos.y)
    (hden : (m a).vel.y - (m b).vel.y ≠ 0)
    (ht : ((m a).vel.y - (m b).vel.y) * t = (m b).pos.y - ((m a).pos.y + (m a).size.y))
    (h0 : 0 ≤ t) (hc : is_colliding_y (m a) (m b) t) :
    (intersection_time m a b).time ≤ (t : FTime) := by
  have hq : t = ((m b).pos.y - ((m a).pos.y + (m a).size.y)) / ((m a).vel.y - (m b).vel.y) :=
    eq_div_of_mul_eq hden (by rw [mul_comm]; exact ht)
  simp only [intersection_time]
  refine le_trans (directed_case_time_le_self _ _ _ _ _ _ _) ?_
  rw [hq] at h0 hc ⊢
  exact directed_case_time_le _ _ _ _ _ _ _ hg hden h0 hc

theorem intersection_time_le_bottom (m : Heap) (a b : Ptr) (t : ℚ)
    (hg : (m a).vel.y < 0 ∧ (m a).pos.y > (m b).pos.y + (m b).size.y)
    (hden : (m a).vel.y - (m b).vel.y ≠ 0)
    (ht : ((m a).vel.y - (m b).vel.y) * t = (m b).pos.y + (m b).size.y - (m a).pos.y)
    (h0 : 0 ≤ t) (hc : is_colliding_y (m a) (m b) t) :
    (intersection_time m a b).time ≤ (t : FTime) := by
  have hq : t = ((m b).pos.y + (m b).size.y - (m a).pos.y) / ((m a).vel.y - (m b).vel.y) :=
    eq_div_of_mul_eq hden (by rw [mul_comm]; exact ht)
  simp only [intersection_time]
  rw [hq] at h0 hc ⊢
  exact directed_case_time_le _ _ _ _ _ _ _ hg hden h0 hc

/-- A linear function of time that is positive at every time of `(t0, T]` is
non-negative at `t0`. -/
theorem lin_nonneg (p v t0 T : ℚ) (h : t0 < T)
    (hall : ∀ t : ℚ, t0 < t → t ≤ T → 0 < p + v * t) : 0 ≤ p + v * t0 := by
  by_contra hneg
  have hneg : p + v * t0 < 0 := not_le.mp hneg
  have hT : 0 < p + v * T := hall T h (le_refl T)
  have hd : 0 < v * (T - t0) := by linarith
  have hTt : 0 < T - t0 := by linarith
  have hr0 : 0 < (-(p + v * t0)) / (v * (T - t0)) := div_pos (by linarith) hd
  have hr1 : (-(p + v * t0)) / (v * (T - t0)) < 1 := (div_lt_one hd).mpr (by linarith)
  have hrd : (-(p + v * t0)) / (v * (T - t0)) * (v * (T - t0)) = -(p + v * t0) :=
    div_mul_cancel₀ _ (ne_of_gt hd)
  have h1 := hall (t0 + (-(p + v * t0)) / (v * (T - t0)) * (T - t0))
    (by nlinarith) (by nlinarith)
  have h2 : p + v * (t0 + (-(p + v * t0)) / (v * (T - t0)) * (T - t0)) =
      p + v * t0 + (-(p + v * t0)) / (v * (T - t0)) * (v * (T - t0)) := by ring
  rw [h2, hrd] at h1
  linarith

/-! ### Completeness of detection, in exact arithmetic -/

/-- Contact of the right face of A with the left face of B at `t0 > 0`, closing, with the
y-intervals strictly overlapping at `t0`, is reported by one of the two directed calls. -/
theorem detect_x_axis (m : Heap) (a b : Ptr) (t0 T : ℚ) (h0 : 0 < t0) (hT : t0 < T)
    (hy : is_colliding_x (m a) (m b) t0)
    (htouch : right_at (m a) t0 = left_at (m b) t0)
    (hafter : left_at (m b) T < right_at (m a) T) :
    (intersection_time m a b).time ≤ (t0 : FTime) ∨
      (intersection_time m b a).time ≤ (t0 : FTime) := by
  unfold right_at left_at at htouch hafter
  have hs : 0 < ((m a).vel.x - (m b).vel.x) * (T - t0) := by linarith
  have hTt : 0 < T - t0 := by linarith
  have hs0 : 0 < (m a).vel.x - (m b).vel.x := by
    by_contra hle
    have : ((m a).vel.x - (m b).vel.x) * (T - t0) ≤ 0 :=
      mul_nonpos_of_nonpos_of_nonneg (not_lt.mp hle) (le_of_lt hTt)
    linarith
  have hgap : 0 < ((m a).vel.x - (m b).vel.x) * t0 := mul_pos hs0 h0
  by_cases hva : (m a).vel.x > 0
  · left
    exact intersection_time_le_right m a b t0 ⟨hva, by linarith⟩ (ne_of_gt hs0)
      (by linarith) (le_of_lt h0) hy
  · right
    exact intersection_time_le_left m b a t0 ⟨by linarith, by linarith⟩
      (by intro h; linarith) (by linarith) (le_of_lt h0) (is_colliding_x_symm _ _ _ hy)

/-- Contact of the top face of A with the bottom face of B at `t0 > 0`, closing, with the
x-intervals strictly overlapping at `t0`, is reported by one of the two directed calls. -/
theorem detect_y_axis (m : Heap) (a b : Ptr) (t0 T : ℚ) (h0 : 0 < t0) (hT : t0 < T)
    (hx : is_colliding_y (m a) (m b) t0)
    (htouch : top_at (m a) t0 = bottom_at (m b) t0)
    (hafter : bottom_at (m b) T < top_at (m a) T) :
    (intersection_time m a b).time ≤ (t0 : FTime) ∨
      (intersection_time m b a).time ≤ (t0 : FTime) := by
  unfold top_at bottom_at at htouch hafter
  have hs : 0 < ((m a).vel.y - (m b).vel.y) * (T - t0) := by linarith
  have hTt : 0 < T - t0 := by linarith
  have hs0 : 0 < (m a).vel.y - (m b).vel.y := by
    by_contra hle
    have : ((m a).vel.y - (m b).vel.y) * (T - t0) ≤ 0 :=
      mul_nonpos_of_nonpos_of_nonneg (not_lt.mp hle) (le_of_lt hTt)
    linarith
  have hgap : 0 < ((m a).vel.y - (m b).vel.y) * t0 := mul_pos hs0 h0
  by_cases hva : (m a).vel.y > 0
  · left
    exact intersection_time_le_top m a b t0 ⟨hva, by linarith⟩ (ne_of_gt hs0)
      (by linarith) (le_of_lt h0) hx
  · right
    exact intersection_time_le_bottom m b a t0 ⟨by linarith, by linarith⟩
      (by intro h; linarith) (by linarith) (le_of_lt h0) (is_colliding_y_symm _ _ _ hx)

/-- In exact arithmetic: let the boxes of A and B strictly overlap on both x and y at
every time of `(t0, T]` for some `0 < t0 < T`, not strictly overlap on both axes at `t0`, and
strictly overlap on at least one axis at `t0` (so the overlap begins at `t0`, after time
0 and not corner to corner). Then at least one of the two directed calls
`intersection_time(A, B)`, `intersection_time(B, A)` reports a collision (a non-sentinel
time) with time `≤ t0`, hence `≤ T`. -/
theorem detection_complete (m : Heap) (a b : Ptr) (t0 T : ℚ) (h0 : 0 < t0) (hT : t0 < T)
    (hnot : ¬ (is_colliding_x (m a) (m b) t0 ∧ is_colliding_y (m a) (m b) t0))
    (hall : ∀ t : ℚ, t0 < t → t ≤ T →
      is_colliding_x (m a) (m b) t ∧ is_colliding_y (m a) (m b) t)
    (hone : is_colliding_x (m a) (m b) t0 ∨ is_colliding_y (m a) (m b) t0) :
    ((intersection_time m a b).time ≠ FLT_MAX ∧
        (intersection_time m a b).time ≤ (t0 : FTime)) ∨
      ((intersection_time m b a).time ≠ FLT_MAX ∧
        (intersection_time m b a).time ≤ (t0 : FTime)) := by
  have key : (intersection_time m a b).time ≤ (t0 : FTime) ∨
      (intersection_time m b a).time ≤ (t0 : FTime) := by
    have hend := hall T hT (le_refl T)
    rcases hone with hy | hx
    · -- the y-intervals overlap at t0, so the x-intervals touch there
      have hx : ¬ is_colliding_y (m a) (m b) t0 := fun h => hnot ⟨hy, h⟩
      have f3 : 0 ≤ ((m b).pos.x + (m b).size.x - (m a).pos.x) +
          ((m b).vel.x - (m a).vel.x) * t0 := by
        apply lin_nonneg _ _ t0 T hT
        intro t h1 h2
        have := (hall t h1 h2).2.1.1
        simp only at this
        linarith
      have f4 : 0 ≤ ((m a).pos.x + (m a).size.x - (m b).pos.x) +
          ((m a).vel.x - (m b).vel.x) * t0 := by
        apply lin_nonneg _ _ t0 T hT
        intro t h1 h2
        have := (hall t h1 h2).2.1.2
        simp only at this
        linarith
      by_cases e4 : right_at (m a) t0 = left_at (m b) t0
      · exact detect_x_axis m a b t0 T h0 hT hy e4 hend.2.1.2
      · have e3 : right_at (m b) t0 = left_at (m a) t0 := by
          unfold right_at left_at at e4 ⊢
          by_contra e3
          apply hx
          unfold is_colliding_y
          have h3 : (m a).pos.x + (m a).vel.x * t0 <
              (m b).pos.x + (m b).vel.x * t0 + (m b).size.x := by
            rcases lt_or_eq_of_le f3 with h | h
            · linarith
            · exact absurd (by linarith) e3
          have h4 : (m b).pos.x + (m b).vel.x * t0 <
              (m a).pos.x + (m a).vel.x * t0 + (m a).size.x := by
            rcases lt_or_eq_of_le f4 with h | h
            · linarith
            · exact absurd (by linarith) e4
          exact ⟨⟨h3, h4⟩, h4, h3⟩
        exact (detect_x_axis m b a t0 T h0 hT (is_colliding_x_symm _ _ _ hy) e3
          hend.2.1.1).symm
    · -- the x-intervals overlap at t0, so the y-intervals touch there
      have hy : ¬ is_colliding_x (m a) (m b) t0 := fun h => hnot ⟨h, hx⟩
      have f1 : 0 ≤ ((m a).pos.y + (m a).size.y - (m b).pos.y) +
          ((m a).vel.y - (m b).vel.y) * t0 := by
        apply lin_nonneg _ _ t0 T hT
        intro t h1 h2
        have := (hall t h1 h2).1.1.1
        simp only at this
        linarith
      have f2 : 0 ≤ ((m b).pos.y + (m b).size.y - (m a).pos.y) +
          ((m b).vel.y - (m a).vel.y) * t0 := by
        apply lin_nonneg _ _ t0 T hT
        intro t h1 h2
        have := (hall t h1 h2).1.1.2
        simp only at this
        linarith
      by_cases e1 : top_at (m a) t0 = bottom_at (m b) t0
      · exact detect_y_axis m a b t0 T h0 hT hx e1 hend.1.1.1
      · have e2 : top_at (m b) t0 = bottom_at (m a) t0 := by
          unfold top_at bottom_at at e1 ⊢
          by_contra e2
          apply hy
          unfold is_colliding_x
          have h1 : (m b).pos.y + (m b).vel.y * t0 <
              (m a).pos.y + (m a).vel.y * t0 + (m a).size.y := by
            rcases lt_or_eq_of_le f1 with h | h
            · linarith
            · exact absurd (by linarith) e1
          have h2 : (m a).pos.y + (m a).vel.y * t0 <
              (m b).pos.y + (m b).vel.y * t0 + (m b).size.y := by
            rcases lt_or_eq_of_le f2 with h | h
            · linarith
            · exact absurd (by linarith) e2
          exact ⟨⟨h1, h2⟩, h2, h1⟩
        exact (detect_y_axis m b a t0 T h0 hT (is_colliding_y_symm _ _ _ hx) e2
          hend.1.1.2).symm
  rcases key with h | h
  · refine Or.inl ⟨fun e => ?_, h⟩
    rw [e] at h
    exact absurd h (not_le.mpr (WithTop.coe_lt_top t0))
  · refine Or.inr ⟨fun e => ?_, h⟩
    rw [e] at h
    exact absurd h (not_le.mpr (WithTop.coe_lt_top t0))

/-! ### The collector keeps the tied earliest records (C4) -/

section collector

variable (L : ℚ)

theorem is_earliest_time_eq {P : List COLLISION_VALUES} {c d : COLLISION_VALUES}
    (hc : is_earliest L P c) (hd : is_earliest L P d) (hcP : c ∈ P) (hdP : d ∈ P) :
    c.time = d.time :=
  le_antisymm (hc.2 d hdP hd.1) (hd.2 c hcP hc.1)

/-- A list with a qualifying record has an earliest one. -/
theorem exists_is_earliest (P : List COLLISION_VALUES) (h : ∃ d ∈ P, qualifies L d) :
    ∃ e ∈ P, is_earliest L P e := by
  induction P with
  | nil =>
    obtain ⟨d, hd, _⟩ := h
    exact absurd hd (List.not_mem_nil d)
  | cons x P ih =>
    by_cases hP : ∃ d ∈ P, qualifies L d
    · obtain ⟨e, heP, he⟩ := ih hP
      by_cases hx : qualifies L x ∧ x.time < e.time
      · refine ⟨x, List.mem_cons_self x P, hx.1, fun d hd hq => ?_⟩
        rcases List.mem_cons.mp hd with rfl | hd
        · exact le_refl _
        · exact le_trans (le_of_lt hx.2) (he.2 d hd hq)
      · refine ⟨e, List.mem_cons_of_mem x heP, he.1, fun d hd hq => ?_⟩
        rcases List.mem_cons.mp hd with rfl | hd
        · exact not_lt.mp (fun hlt => hx ⟨hq, hlt⟩)
        · exact he.2 d hd hq
    · obtain ⟨d, hd, hq⟩ := h
      rcases List.mem_cons.mp hd with rfl | hd
      · refine ⟨d, List.mem_cons_self d P, hq, fun d2 hd2 hq2 => ?_⟩
        rcases List.mem_cons.mp hd2 with rfl | hd2
        · exact le_refl _
        · exact absurd ⟨d2, hd2, hq2⟩ hP
      · exact absurd ⟨d, hd, hq⟩ hP

theorem tied_earliest_snoc (P : List COLLISION_VALUES) (c : COLLISION_VALUES) :
    tied_earliest L (P ++ [c]) =
      P.filter (fun x => decide (is_earliest L (P ++ [c]) x)) ++
        (if is_earliest L (P ++ [c]) c then [c] else []) := by
  unfold tied_earliest
  rw [List.filter_append]
  congr 1
  by_cases h : is_earliest L (P ++ [c]) c
  · simp [h]
  · simp [h]

theorem mem_tied_earliest {P : List COLLISION_VALUES} {x : COLLISION_VALUES} :
    x ∈ tied_earliest L P ↔ x ∈ P ∧ is_earliest L P x := by
  unfold tied_earliest
  simp [List.mem_filter]

theorem tied_snoc_not_qualifies (P : List COLLISION_VALUES) (c : COLLISION_VALUES)
    (hc : ¬ qualifies L c) : tied_earliest L (P ++ [c]) = tied_earliest L P := by
  rw [tied_earliest_snoc, if_neg (fun h => hc h.1), List.append_nil]
  unfold tied_earliest
  apply List.filter_congr
  intro x _
  congr 1
  apply propext
  constructor
  · intro h
    exact ⟨h.1, fun d hd hq => h.2 d (List.mem_append_left _ hd) hq⟩
  · intro h
    refine ⟨h.1, fun d hd hq => ?_⟩
    rcases List.mem_append.mp hd with hd | hd
    · exact h.2 d hd hq
    · rw [List.mem_singleton.mp hd] at hq
      exact absurd hq hc

theorem tied_snoc_first (P : List COLLISION_VALUES) (c : COLLISION_VALUES)
    (hc : qualifies L c) (hP : ∀ d ∈ P, ¬ qualifies L d) :
    tied_earliest L (P ++ [c]) = [c] := by
  have hce : is_earliest L (P ++ [c]) c := by
    refine ⟨hc, fun d hd hq => ?_⟩
    rcases List.mem_append.mp hd with hd | hd
    · exact absurd hq (hP d hd)
    · rw [List.mem_singleton.mp hd]
  rw [tied_earliest_snoc, if_pos hce]
  have : P.filter (fun x => decide (is_earliest L (P ++ [c]) x)) = [] := by
    apply List.filter_eq_nil_iff.mpr
    intro x hx h
    exact hP x hx (of_decide_eq_true h).1
  rw [this, List.nil_append]

theorem tied_snoc_tie (P : List COLLISION_VALUES) (c e : COLLISION_VALUES)
    (hc : qualifies L c) (heP : e ∈ P) (he : is_earliest L P e) (ht : c.time = e.time) :
    tied_earliest L (P ++ [c]) = tied_earliest L P ++ [c] := by
  have hce : is_earliest L (P ++ [c]) c := by
    refine ⟨hc, fun d hd hq => ?_⟩
    rcases List.mem_append.mp hd with hd | hd
    · rw [ht]
      exact he.2 d hd hq
    · rw [List.mem_singleton.mp hd]
  rw [tied_earliest_snoc, if_pos hce]
  congr 1
  unfold tied_earliest
  apply List.filter_congr
  intro x hx
  congr 1
  apply propext
  constructor
  · intro h
    exact ⟨h.1, fun d hd hq => h.2 d (List.mem_append_left _ hd) hq⟩
  · intro h
    refine ⟨h.1, fun d hd hq => ?_⟩
    rcases List.mem_append.mp hd with hd | hd
    · exact h.2 d hd hq
    · rw [List.mem_singleton.mp hd, ht]
      exact h.2 e heP he.1

theorem tied_snoc_earlier (P : List COLLISION_VALUES) (c e : COLLISION_VALUES)
    (hc : qualifies L c) (he : is_earliest L P e) (ht : c.time < e.time) :
    tied_earliest L (P ++ [c]) = [c] := by
  have hce : is_earliest L (P ++ [c]) c := by
    refine ⟨hc, fun d hd hq => ?_⟩
    rcases List.mem_append.mp hd with hd | hd
    · exact le_trans (le_of_lt ht) (he.2 d hd hq)
    · rw [List.mem_singleton.mp hd]
  rw [tied_earliest_snoc, if_pos hce]
  have : P.filter (fun x => decide (is_earliest L (P ++ [c]) x)) = [] := by
    apply List.filter_eq_nil_iff.mpr
    intro x hx h
    have hx2 := of_decide_eq_true h
    have h1 : x.time ≤ c.time := hx2.2 c (List.mem_append_right _ (List.mem_singleton_self c)) hc
    have h2 : e.time ≤ x.time := he.2 x hx hx2.1
    exact absurd (lt_of_le_of_lt (le_trans h2 h1) ht) (lt_irrefl _)
  rw [this, List.nil_append]

theorem tied_snoc_later (P : List COLLISION_VALUES) (c e : COLLISION_VALUES)
    (heP : e ∈ P) (he : is_earliest L P e) (ht : e.time < c.time) :
    tied_earliest L (P ++ [c]) = tied_earliest L P := by
  have hce : ¬ is_earliest L (P ++ [c]) c := fun h =>
    absurd (h.2 e (List.mem_append_left _ heP) he.1) (not_le.mpr ht)
  rw [tied_earliest_snoc, if_neg hce, List.append_nil]
  unfold tied_earliest
  apply List.filter_congr
  intro x hx
  congr 1
  apply propext
  constructor
  · intro h
    exact ⟨h.1, fun d hd hq => h.2 d (List.mem_append_left _ hd) hq⟩
  · intro h
    refine ⟨h.1, fun d hd hq => ?_⟩
    rcases List.mem_append.mp hd with hd | hd
    · exact h.2 d hd hq
    · rw [List.mem_singleton.mp hd]
      exact le_trans (h.2 e heP he.1) (le_of_lt ht)

theorem find_collision_step_tied (m : Heap) (max_collisions : Nat) (a : Ptr)
    (P : List COLLISION_VALUES) (s : Ptr) (hmax : 0 < max_collisions) (hs : s ≠ a) :
    find_collision_step m max_collisions a L ((tied_earliest L P).take max_collisions) s =
      (tied_earliest L (P ++ [intersection_time m a s])).take max_collisions := by
  have hone : ∀ x : COLLISION_VALUES, List.take max_collisions [x] = [x] := by
    intro x
    exact List.take_of_length_le (by simpa using hmax)
  unfold find_collision_step
  rw [if_neg hs]
  simp only []
  by_cases hq : qualifies L (intersection_time m a s)
  · have hq2 := hq
    unfold qualifies at hq2
    by_cases hex : ∃ d ∈ P, qualifies L d
    · obtain ⟨e, heP, he⟩ := exists_is_earliest L P hex
      have hmem : e ∈ tied_earliest L P := (mem_tied_earliest L).mpr ⟨heP, he⟩
      cases htied : tied_earliest L P with
      | nil => rw [htied] at hmem; exact absurd hmem (List.not_mem_nil e)
      | cons h tl =>
        have hh : h ∈ P ∧ is_earliest L P h :=
          (mem_tied_earliest L).mp (by rw [htied]; exact List.mem_cons_self h tl)
        obtain ⟨k, rfl⟩ : ∃ k, max_collisions = k + 1 := ⟨max_collisions - 1, by omega⟩
        have hlen : (List.take (k + 1) (h :: tl)).length ≠ 0 := by simp
        have hslot : slot0_time (List.take (k + 1) (h :: tl)) = h.time := by
          simp [List.take, slot0_time]
        rw [hslot]
        rcases lt_trichotomy (intersection_time m a s).time h.time with hlt | heq | hgt
        · rw [if_neg (fun hc => absurd hc.2.2.2.1 (ne_of_lt hlt)), if_pos hq2, if_neg hlen,
            if_pos hlt, tied_snoc_earlier L P _ h hq hh.2 hlt, hone]
        · rw [if_pos ⟨hlen, hq2.1, hq2.2.1, heq, hq2.2.2⟩,
            tied_snoc_tie L P _ h hq hh.1 hh.2 heq, htied]
          by_cases hfull : (List.take (k + 1) (h :: tl)).length ≥ k + 1
          · rw [if_pos hfull]
            have hl : k + 1 ≤ (h :: tl).length := by
              rw [List.length_take] at hfull
              omega
            rw [List.take_append_of_le_length hl]
          · rw [if_neg hfull]
            have hl : (h :: tl).length < k + 1 := by
              rw [List.length_take] at hfull
              omega
            rw [List.take_of_length_le (le_of_lt hl), List.take_of_length_le]
            rw [List.length_append, List.length_singleton]
            omega
        · rw [if_neg (fun hc => absurd hc.2.2.2.1 (ne_of_gt hgt)), if_pos hq2, if_neg hlen,
            if_neg (not_lt.mpr (le_of_lt hgt)), tied_snoc_later L P _ h hh.1 hh.2 hgt, htied]
    · have hP : ∀ d ∈ P, ¬ qualifies L d := fun d hd hqd => hex ⟨d, hd, hqd⟩
      have htied : tied_earliest L P = [] := by
        apply List.eq_nil_iff_forall_not_mem.mpr
        intro x hx
        have := (mem_tied_earliest L).mp hx
        exact hP x this.1 this.2.1
      rw [htied, tied_snoc_first L P _ hq hP, hone]
      simp only [List.take_nil, List.length_nil, ne_eq, not_true_eq_false, false_and,
        if_false, if_true]
      rw [if_pos hq2]
  · have hq2 : ¬ ((intersection_time m a s).time ≥ ((0 : ℚ) : FTime) ∧
        (intersection_time m a s).time ≠ FLT_MAX ∧
        (intersection_time m a s).time ≤ (L : FTime)) := hq
    rw [if_neg (fun hc => hq2 ⟨hc.2.1, hc.2.2.1, hc.2.2.2.2⟩), if_neg hq2,
      tied_snoc_not_qualifies L P _ hq]

theorem find_collision_fold (m : Heap) (max_collisions : Nat) (a : Ptr)
    (hmax : 0 < max_collisions) (S : List Ptr) :
    ∀ P : List COLLISION_VALUES,
      S.foldl (find_collision_step m max_collisions a L)
          ((tied_earliest L P).take max_collisions) =
        (tied_earliest L (P ++ solver_records m S a)).take max_collisions := by
  induction S with
  | nil =>
    intro P
    simp [solver_records]
  | cons s S ih =>
    intro P
    rw [List.foldl_cons]
    by_cases hs : s = a
    · have h1 : find_collision_step m max_collisions a L
          ((tied_earliest L P).take max_collisions) s =
          (tied_earliest L P).take max_collisions := by
        unfold find_collision_step
        rw [if_pos hs]
      have h2 : solver_records m (s :: S) a = solver_records m S a := by
        unfold solver_records
        rw [List.filter_cons_of_neg (by simp [hs])]
      rw [h1, h2]
      exact ih P
    · have h2 : solver_records m (s :: S) a =
          intersection_time m a s :: solver_records m S a := by
        unfold solver_records
        rw [List.filter_cons_of_pos (by simp [hs]), List.map_cons]
      rw [find_collision_step_tied L m max_collisions a P s hmax hs, h2, ih]
      rw [List.append_assoc, List.singleton_append]

end collector

/-- C4: started from an empty set, `find_collision_time` returns the solver records of
the registered `B != A`, in registry order, whose time is the minimum among the solver
times that are `>= 0`, not the sentinel and `<= L`, truncated to the first
`COLLISIONS_MAX = 20` of them; it returns no record when no `B` qualifies, and never more
than `COLLISIONS_MAX` records. -/
theorem find_collision_time_tied (m : Heap) (sprites : List Ptr) (a : Ptr) (L : ℚ) :
    find_collision_time m sprites [] COLLISIONS_MAX a L =
      (tied_earliest L (solver_records m sprites a)).take COLLISIONS_MAX ∧
    ((∀ c ∈ solver_records m sprites a, ¬ qualifies L c) →
      find_collision_time m sprites [] COLLISIONS_MAX a L = []) ∧
    (find_collision_time m sprites [] COLLISIONS_MAX a L).length ≤ COLLISIONS_MAX ∧
    COLLISIONS_MAX = 20 := by
  have h := find_collision_fold L m COLLISIONS_MAX a (by decide) sprites []
  have hnil : (tied_earliest L ([] : List COLLISION_VALUES)).take COLLISIONS_MAX = [] := by
    simp [tied_earliest]
  rw [hnil, List.nil_append] at h
  have heq : find_collision_time m sprites [] COLLISIONS_MAX a L =
      (tied_earliest L (solver_records m sprites a)).take COLLISIONS_MAX := h
  refine ⟨heq, fun hno => ?_, ?_, rfl⟩
  · rw [heq]
    have : tied_earliest L (solver_records m sprites a) = [] := by
      apply List.eq_nil_iff_forall_not_mem.mpr
      intro x hx
      have := (mem_tied_earliest L).mp hx
      exact hno x this.1 this.2.1
    rw [this, List.take_nil]
  · rw [heq, List.length_take]
    exact Nat.min_le_left _ _

/-- C4 on three sprites: A (address 0) reaches B and C (addresses 1, 2) at the same time
2, and the collector returns the two records in registry order. -/
theorem find_collision_time_tied_witness :
    find_collision_time heap3 [0, 1, 2] [] COLLISIONS_MAX 0 5 =
      [⟨RIGHT, LEFT, ((2 : ℚ) : FTime), 0, 1⟩, ⟨RIGHT, LEFT, ((2 : ℚ) : FTime), 0, 2⟩] :=
  (find_collision_time_tied heap3 [0, 1, 2] 0 5).1.trans (by decide!)

/-! ### Vector facts used by the resolver -/

theorem vec_3_length_nonneg (v : Vec3) : 0 ≤ vec_3_length v := Rat.sqrt_nonneg _

theorem vec_3_length_eq (v : Vec3) : vec_3_length v = Rat.sqrt (norm_sq v) := rfl

theorem norm_sq_pos (v : Vec3) (h : v.x ≠ 0 ∨ v.y ≠ 0) : 0 < norm_sq v := by
  unfold norm_sq
  rcases h with h | h
  · have := mul_self_pos.mpr h
    nlinarith [mul_self_nonneg v.y, mul_self_nonneg v.z]
  · have := mul_self_pos.mpr h
    nlinarith [mul_self_nonneg v.x, mul_self_nonneg v.z]

theorem vec_3_length_pos (v : Vec3) (h : v.x ≠ 0 ∨ v.y ≠ 0) (he : exact_norm v) :
    0 < vec_3_length v := by
  have hpos := norm_sq_pos v h
  rcases lt_or_eq_of_le (vec_3_length_nonneg v) with hl | hl
  · exact hl
  · unfold exact_norm at he
    rw [← hl] at he
    linarith

theorem norm_sq_normalize (v : Vec3) (h : v.x ≠ 0 ∨ v.y ≠ 0) (he : exact_norm v) :
    norm_sq (vec_3_normalize v) = 1 := by
  have hl : vec_3_length v ≠ 0 := ne_of_gt (vec_3_length_pos v h he)
  unfold exact_norm norm_sq at he
  unfold norm_sq vec_3_normalize
  simp only
  field_simp
  linarith

theorem rat_sqrt_one : Rat.sqrt 1 = 1 := by
  have h := Rat.sqrt_eq 1
  rw [mul_one, abs_one] at h
  exact h

theorem vec_3_length_normalize (v : Vec3) (h : v.x ≠ 0 ∨ v.y ≠ 0) (he : exact_norm v) :
    vec_3_length (vec_3_normalize v) = 1 := by
  rw [vec_3_length_eq, norm_sq_normalize v h he, rat_sqrt_one]

theorem vec_3_normalize_idem (v : Vec3) (h : v.x ≠ 0 ∨ v.y ≠ 0) (he : exact_norm v) :
    vec_3_normalize (vec_3_normalize v) = vec_3_normalize v := by
  have h1 := vec_3_length_normalize v h he
  have h2 : vec_3_normalize (vec_3_normalize v) =
      ⟨(vec_3_normalize v).x / vec_3_length (vec_3_normalize v),
       (vec_3_normalize v).y / vec_3_length (vec_3_normalize v),
       (vec_3_normalize v).z / vec_3_length (vec_3_normalize v)⟩ := rfl
  rw [h2, h1, div_one, div_one, div_one]

theorem vec_3_length_mul_scalar (u : Vec3) (s : ℚ) (hu : norm_sq u = 1) (hs : 0 ≤ s) :
    vec_3_length (vec_3_mul_scalar u s) = s := by
  have h : norm_sq (vec_3_mul_scalar u s) = s * s := by
    unfold norm_sq at hu
    unfold norm_sq vec_3_mul_scalar
    simp only
    calc u.x * s * (u.x * s) + u.y * s * (u.y * s) + u.z * s * (u.z * s)
        = (u.x * u.x + u.y * u.y + u.z * u.z) * (s * s) := by ring
      _ = s * s := by rw [hu, one_mul]
  rw [vec_3_length_eq, h, Rat.sqrt_eq, abs_of_nonneg hs]

theorem normal_of_faces :
    normal_of RIGHT = ⟨-1, 0, 0⟩ ∧ normal_of LEFT = ⟨1, 0, 0⟩ ∧
      normal_of TOP = ⟨0, -1, 0⟩ ∧ normal_of BOTTOM = ⟨0, 1, 0⟩ := by
  decide!

/-- Reflection about a face normal flips the sign of one of the first two components. -/
theorem vec_3_reflect_face (v : Vec3) (mode : Nat) (hm : is_face mode) :
    vec_3_reflect v (normal_of mode) = ⟨-v.x, v.y, v.z⟩ ∨
      vec_3_reflect v (normal_of mode) = ⟨v.x, -v.y, v.z⟩ := by
  obtain ⟨hR, hL, hT, hB⟩ := normal_of_faces
  rcases hm with h | h | h | h
  · left
    rw [h, hR]
    simp only [vec_3_reflect, Vec3.mk.injEq]
    refine ⟨by ring, by ring, by ring⟩
  · left
    rw [h, hL]
    simp only [vec_3_reflect, Vec3.mk.injEq]
    refine ⟨by ring, by ring, by ring⟩
  · right
    rw [h, hT]
    simp only [vec_3_reflect, Vec3.mk.injEq]
    refine ⟨by ring, by ring, by ring⟩
  · right
    rw [h, hB]
    simp only [vec_3_reflect, Vec3.mk.injEq]
    refine ⟨by ring, by ring, by ring⟩

theorem vec_3_reflect_face_facts (v : Vec3) (mode : Nat) (hm : is_face mode)
    (h : v.x ≠ 0 ∨ v.y ≠ 0) (he : exact_norm v) :
    ((vec_3_reflect v (normal_of mode)).x ≠ 0 ∨ (vec_3_reflect v (normal_of mode)).y ≠ 0) ∧
      exact_norm (vec_3_reflect v (normal_of mode)) := by
  have hns : ∀ w : Vec3, norm_sq w = norm_sq v → exact_norm w := by
    intro w hw
    unfold exact_norm
    rw [vec_3_length_eq, hw]
    exact he
  rcases vec_3_reflect_face v mode hm with hr | hr
  · rw [hr]
    refine ⟨?_, hns _ (by unfold norm_sq; simp only; ring)⟩
    rcases h with h | h
    · exact Or.inl (neg_ne_zero.mpr h)
    · exact Or.inr h
  · rw [hr]
    refine ⟨?_, hns _ (by unfold norm_sq; simp only; ring)⟩
    rcases h with h | h
    · exact Or.inl h
    · exact Or.inr (neg_ne_zero.mpr h)

/-! ### What one record does to its two participants -/

theorem not_mem_mark_resolved (resolved : List Ptr) (p q : Ptr) (hq : q ∉ resolved)
    (hne : p ≠ q) : q ∉ mark_resolved resolved p := by
  unfold mark_resolved
  split_ifs
  · intro h
    rcases List.mem_append.mp h with h | h
    · exact hq h
    · exact hne (List.mem_singleton.mp h).symm
  · exact hq

/-- The velocity a record writes to its `sprite`, when that one is neither static nor
already resolved. -/
theorem resolve_record_sprite_vel (st : RESOLVE_STATE) (c : COLLISION_VALUES)
    (hne : c.sprite ≠ c.other_sprite)
    (hs : ¬ (st.heap c.sprite).is_static = true) (hr : c.sprite ∉ st.resolved) :
    ((resolve_record st c).heap c.sprite).vel =
      vec_3_mul_scalar
        (vec_3_normalize (vec_3_normalize
          (vec_3_reflect (st.heap c.sprite).vel (normal_of c.mode_a))))
        ((vec_3_length (st.heap c.sprite).vel + vec_3_length (st.heap c.other_sprite).vel) /
          (if (st.heap c.other_sprite).is_static = true then 1 else 2)) := by
  unfold resolve_record
  simp only [if_pos (And.intro hs hr)]
  split_ifs <;> simp [set_vel, hne]

/-! ### Speed after a collision with a static sprite (C6) -/

/-- C6 at the failing input: in the first sub-step of `process_sprites(5)` on
`heap_static_first` the winning set is the single record (S, M), with the static S as
`sprite` and the non-static M as `other_sprite`; the speed of M afterwards is 1/2, not
`|v_moving| + |v_static| = 0 + 1`. -/
theorem resolve_static_sprite_speed :
    (scan_sprites heap_static_first [0, 1] 5).2 =
      [⟨RIGHT, LEFT, ((2 : ℚ) : FTime), 0, 1⟩] ∧
    (heap_static_first 0).is_static = true ∧ (heap_static_first 1).is_static = false ∧
    vec_3_length (heap_static_first 1).vel + vec_3_length (heap_static_first 0).vel = 1 ∧
    ((sub_step [0, 1] 5 (heap_static_first, 0)).1 1).vel = ⟨1 / 2, 0, 0⟩ ∧
    vec_3_length ((sub_step [0, 1] 5 (heap_static_first, 0)).1 1).vel = 1 / 2 := by
  decide!

/-- The other role of C6: a non-static `sprite` A that moves (rational norm), is not yet
resolved and hits a static `other_sprite` leaves with speed `|v_A| + |v_static|`. -/
theorem resolve_record_static_other_speed (st : RESOLVE_STATE) (c : COLLISION_VALUES)
    (hne : c.sprite ≠ c.other_sprite) (hm : is_face c.mode_a)
    (hv : (st.heap c.sprite).vel.x ≠ 0 ∨ (st.heap c.sprite).vel.y ≠ 0)
    (he : exact_norm (st.heap c.sprite).vel)
    (hsa : ¬ (st.heap c.sprite).is_static = true) (hra : c.sprite ∉ st.resolved)
    (hsb : (st.heap c.other_sprite).is_static = true) :
    vec_3_length ((resolve_record st c).heap c.sprite).vel =
      vec_3_length (st.heap c.sprite).vel + vec_3_length (st.heap c.other_sprite).vel := by
  have hla := vec_3_length_nonneg (st.heap c.sprite).vel
  have hlb := vec_3_length_nonneg (st.heap c.other_sprite).vel
  obtain ⟨hrv, hre⟩ := vec_3_reflect_face_facts _ c.mode_a hm hv he
  rw [resolve_record_sprite_vel st c hne hsa hra, vec_3_normalize_idem _ hrv hre, if_pos hsb,
    div_one]
  exact vec_3_length_mul_scalar _ _ (norm_sq_normalize _ hrv hre) (by linarith)

/-! ### Each velocity is written once per pass (C8) -/

/-- C8 at the failing input: the first sub-step of `process_sprites(5)` on the pile-up
adopts a winning set of 12 tied records; its first ten records fill the 20 slots of
`resolved[]`, so X (address 21), written by the record (20, 21), is not remembered and
is written again by the record (22, 21): the log of written addresses holds 21 twice, and
X ends with velocity (-3/4, 0, 0) instead of the (1/2, 0, 0) of its first resolution. -/
theorem resolve_pass_pileup :
    (scan_sprites heap_pileup (List.range 23) 5).2.length = 12 ∧
    (scan_sprites heap_pileup (List.range 23) 5).2.map (fun c => (c.sprite, c.other_sprite)) =
      [(0, 1), (2, 3), (4, 5), (6, 7), (8, 9), (10, 11), (12, 13), (14, 15), (16, 17),
        (18, 19), (20, 21), (22, 21)] ∧
    (∀ c ∈ (scan_sprites heap_pileup (List.range 23) 5).2, c.time = ((2 : ℚ) : FTime)) ∧
    (resolve_pass (advance_sprites heap_pileup (List.range 23) 2)
        (scan_sprites heap_pileup (List.range 23) 5).2).assigned =
      [0, 1, 2, 3, 4, 5, 6, 7, 8, 9, 10, 11, 12, 13, 14, 15, 16, 17, 18, 19, 20, 21, 22, 21] ∧
    ¬ (resolve_pass (advance_sprites heap_pileup (List.range 23) 2)
        (scan_sprites heap_pileup (List.range 23) 5).2).assigned.Nodup ∧
    ((resolve_record ⟨heap_pileup, [], []⟩ ⟨RIGHT, LEFT, ((2 : ℚ) : FTime), 20, 21⟩).heap
      21).vel = ⟨1 / 2, 0, 0⟩ ∧
    ((sub_step (List.range 23) 5 (heap_pileup, 0)).1 21).vel = ⟨-3 / 4, 0, 0⟩ := by
  decide!

theorem resolve_record_branches (st : RESOLVE_STATE) (c : COLLISION_VALUES) :
    ∃ v1 v2 : Vec3, resolve_record st c =
      resolve_branch (resolve_branch st c.sprite v1) c.other_sprite v2 :=
  ⟨_, _, rfl⟩

theorem keeps_static_resolve_branch (st : RESOLVE_STATE) (p : Ptr) (v : Vec3) :
    ∀ q : Ptr, ((resolve_branch st p v).heap q).is_static = (st.heap q).is_static := by
  intro q
  unfold resolve_branch
  split_ifs with h
  · simp only [set_vel]
    by_cases hq : q = p
    · rw [if_pos hq, hq]
    · rw [if_neg hq]
  · rfl

theorem resolve_branch_pass_inv (st : RESOLVE_STATE) (p : Ptr) (v : Vec3)
    (hinv : pass_inv st) (hcap : st.resolved.length < COLLISIONS_MAX) :
    pass_inv (resolve_branch st p v) ∧
    (resolve_branch st p v).resolved.length ≤ st.resolved.length + 1 ∧
    (∀ q ∈ st.assigned, q ∈ (resolve_branch st p v).assigned) ∧
    (¬ (st.heap p).is_static = true → p ∈ (resolve_branch st p v).assigned) := by
  obtain ⟨heq, hnd, hns⟩ := hinv
  have hflag := keeps_static_resolve_branch st p v
  unfold resolve_branch at hflag ⊢
  by_cases h : ¬ (st.heap p).is_static = true ∧ p ∉ st.resolved
  · rw [if_pos h] at hflag ⊢
    simp only [mark_resolved, if_pos hcap]
    refine ⟨⟨by rw [heq], ?_, ?_⟩, ?_, ?_, ?_⟩
    · rw [List.nodup_append]
      refine ⟨hnd, List.nodup_singleton p, ?_⟩
      intro a ha hb
      rw [List.mem_singleton.mp hb, ← heq] at ha
      exact h.2 ha
    · intro q hq
      rw [hflag q]
      rcases List.mem_append.mp hq with hq | hq
      · exact hns q hq
      · rw [List.mem_singleton.mp hq]
        exact h.1
    · rw [List.length_append, List.length_singleton]
    · intro q hq
      exact List.mem_append_left _ hq
    · intro _
      exact List.mem_append_right _ (List.mem_singleton_self p)
  · rw [if_neg h]
    refine ⟨⟨heq, hnd, hns⟩, Nat.le_succ _, fun q hq => hq, fun hp => ?_⟩
    rw [← heq]
    by_contra hmem
    exact h ⟨hp, hmem⟩

theorem resolve_record_pass_inv (st : RESOLVE_STATE) (c : COLLISION_VALUES)
    (hinv : pass_inv st) (hcap : st.resolved.length + 2 ≤ COLLISIONS_MAX) :
    pass_inv (resolve_record st c) ∧
    (resolve_record st c).resolved.length ≤ st.resolved.length + 2 ∧
    (∀ q ∈ st.assigned, q ∈ (resolve_record st c).assigned) ∧
    (¬ (st.heap c.sprite).is_static = true → c.sprite ∈ (resolve_record st c).assigned) ∧
    (¬ (st.heap c.other_sprite).is_static = true →
      c.other_sprite ∈ (resolve_record st c).assigned) ∧
    ∀ q : Ptr, ((resolve_record st c).heap q).is_static = (st.heap q).is_static := by
  obtain ⟨v1, v2, heq⟩ := resolve_record_branches st c
  rw [heq]
  obtain ⟨i1, l1, s1, m1⟩ := resolve_branch_pass_inv st c.sprite v1 hinv (by omega)
  obtain ⟨i2, l2, s2, m2⟩ := resolve_branch_pass_inv (resolve_branch st c.sprite v1)
    c.other_sprite v2 i1 (by omega)
  have f1 := keeps_static_resolve_branch st c.sprite v1
  have f2 := keeps_static_resolve_branch (resolve_branch st c.sprite v1) c.other_sprite v2
  refine ⟨i2, by omega, fun q hq => s2 q (s1 q hq), fun h => s2 _ (m1 h), fun h => ?_,
    fun q => (f2 q).trans (f1 q)⟩
  exact m2 (by rw [f1]; exact h)

theorem resolve_fold_pass_inv (cs : List COLLISION_VALUES) :
    ∀ st : RESOLVE_STATE, pass_inv st →
      st.resolved.length + 2 * cs.length ≤ COLLISIONS_MAX →
      pass_inv (cs.foldl resolve_record st) ∧
      (∀ q ∈ st.assigned, q ∈ (cs.foldl resolve_record st).assigned) ∧
      (∀ c ∈ cs,
        (¬ (st.heap c.sprite).is_static = true →
          c.sprite ∈ (cs.foldl resolve_record st).assigned) ∧
        (¬ (st.heap c.other_sprite).is_static = true →
          c.other_sprite ∈ (cs.foldl resolve_record st).assigned)) ∧
      ∀ q : Ptr, (((cs.foldl resolve_record st).heap) q).is_static = (st.heap q).is_static := by
  induction cs with
  | nil =>
    intro st hinv _
    exact ⟨hinv, fun q hq => hq, fun c hc => absurd hc (List.not_mem_nil c), fun _ => rfl⟩
  | cons c cs ih =>
    intro st hinv hcap
    rw [List.length_cons] at hcap
    obtain ⟨i1, l1, s1, ma, mb, f1⟩ := resolve_record_pass_inv st c hinv (by omega)
    obtain ⟨i2, s2, m2, f2⟩ := ih (resolve_record st c) i1 (by omega)
    rw [List.foldl_cons]
    refine ⟨i2, fun q hq => s2 q (s1 q hq), fun d hd => ?_, fun q => (f2 q).trans (f1 q)⟩
    rcases List.mem_cons.mp hd with rfl | hd
    · exact ⟨fun h => s2 _ (ma h), fun h => s2 _ (mb h)⟩
    · refine ⟨fun h => (m2 d hd).1 (by rw [f1]; exact h),
        fun h => (m2 d hd).2 (by rw [f1]; exact h)⟩

/-- The bookkeeping of `resolved[]` does what C8 asks as long as it cannot overflow: in a
pass over at most `COLLISIONS_MAX / 2 = 10` records every non-static participant has its
velocity written, no address is written twice, and no static sprite is written. -/
theorem resolve_pass_within_capacity (m : Heap) (cs : List COLLISION_VALUES)
    (hcap : 2 * cs.length ≤ COLLISIONS_MAX) :
    (resolve_pass m cs).assigned.Nodup ∧
    (∀ c ∈ cs,
      (¬ (m c.sprite).is_static = true → c.sprite ∈ (resolve_pass m cs).assigned) ∧
      (¬ (m c.other_sprite).is_static = true →
        c.other_sprite ∈ (resolve_pass m cs).assigned)) ∧
    ∀ p ∈ (resolve_pass m cs).assigned, ¬ (m p).is_static = true := by
  have hinv : pass_inv { heap := m, resolved := [], assigned := [] } :=
    ⟨rfl, List.nodup_nil, fun p hp => absurd hp (List.not_mem_nil p)⟩
  obtain ⟨i, _, hm, hf⟩ := resolve_fold_pass_inv cs _ hinv
    (by simp only [List.length_nil]; omega)
  refine ⟨i.2.1, hm, fun p hp => ?_⟩
  have := i.2.2 p hp
  rw [hf] at this
  exact this

/-- Within the capacity of `resolved[]` the bookkeeping works: with A-B and A-C tied at
time 2 (`heap3`), the pass writes the velocity of each of A, B, C once. -/
theorem resolve_pass_three_tied :
    (scan_sprites heap3 [0, 1, 2] 5).2.map (fun c => (c.sprite, c.other_sprite)) =
      [(0, 1), (0, 2)] ∧
    (resolve_pass (advance_sprites heap3 [0, 1, 2] 2)
      (scan_sprites heap3 [0, 1, 2] 5).2).assigned = [0, 1, 2] := by
  decide!

/-! ### Static sprites keep their velocity (C9) -/

theorem keeps_static_refl (m : Heap) : keeps_static m m := fun _ => ⟨rfl, fun _ => rfl⟩

theorem keeps_static_trans {m n k : Heap} (h1 : keeps_static m n) (h2 : keeps_static n k) :
    keeps_static m k := by
  intro p
  refine ⟨(h2 p).1.trans (h1 p).1, fun hp => ?_⟩
  rw [(h2 p).2 (by rw [(h1 p).1]; exact hp), (h1 p).2 hp]

theorem keeps_static_set_vel (m : Heap) (p : Ptr) (v : Vec3)
    (hp : ¬ (m p).is_static = true) : keeps_static m (set_vel m p v) := by
  intro q
  unfold set_vel
  by_cases hq : q = p
  · rw [if_pos hq, hq]
    exact ⟨rfl, fun h => absurd h hp⟩
  · rw [if_neg hq]
    exact ⟨rfl, fun _ => rfl⟩

theorem keeps_static_advance (sprites : List Ptr) (t : ℚ) :
    ∀ m : Heap, keeps_static m (advance_sprites m sprites t) := by
  unfold advance_sprites
  induction sprites with
  | nil => intro m; exact keeps_static_refl m
  | cons s sprites ih =>
    intro m
    rw [List.foldl_cons]
    refine keeps_static_trans ?_ (ih _)
    intro q
    by_cases hq : q = s <;> simp [hq]

theorem keeps_static_branch (st : RESOLVE_STATE) (p : Ptr) (v : Vec3) :
    keeps_static st.heap
      (if ¬ (st.heap p).is_static = true ∧ p ∉ st.resolved then
        ({ heap := set_vel st.heap p v, resolved := mark_resolved st.resolved p,
           assigned := st.assigned ++ [p] } : RESOLVE_STATE)
      else st).heap := by
  split_ifs with h
  · exact keeps_static_set_vel _ _ _ h.1
  · exact keeps_static_refl _

theorem keeps_static_resolve_record (st : RESOLVE_STATE) (c : COLLISION_VALUES) :
    keeps_static st.heap (resolve_record st c).heap := by
  unfold resolve_record
  exact keeps_static_trans (keeps_static_branch st c.sprite _)
    (keeps_static_branch _ c.other_sprite _)

theorem keeps_static_resolve_fold (cs : List COLLISION_VALUES) :
    ∀ st : RESOLVE_STATE, keeps_static st.heap (cs.foldl resolve_record st).heap := by
  induction cs with
  | nil => intro st; exact keeps_static_refl _
  | cons c cs ih =>
    intro st
    rw [List.foldl_cons]
    exact keeps_static_trans (keeps_static_resolve_record st c) (ih _)

theorem keeps_static_sub_step (sprites : List Ptr) (dt : ℚ) (st : Heap × ℚ) :
    keeps_static st.1 (sub_step sprites dt st).1 := by
  unfold sub_step
  simp only []
  have hadv : keeps_static st.1
      (if (scan_sprites st.1 sprites (dt - st.2)).2.length ≠ 0 then
        advance_sprites st.1 sprites
          (time_value (slot0_time (scan_sprites st.1 sprites (dt - st.2)).2))
      else st.1) := by
    split_ifs
    · exact keeps_static_advance _ _ _
    · exact keeps_static_refl _
  have hres := keeps_static_trans hadv
    (keeps_static_resolve_fold (scan_sprites st.1 sprites (dt - st.2)).2
      { heap := (if (scan_sprites st.1 sprites (dt - st.2)).2.length ≠ 0 then
          advance_sprites st.1 sprites
            (time_value (slot0_time (scan_sprites st.1 sprites (dt - st.2)).2))
        else st.1), resolved := [], assigned := [] })
  by_cases h0 : (scan_sprites st.1 sprites (dt - st.2)).2.length = 0
  · rw [if_pos h0]
    exact keeps_static_trans hres (keeps_static_advance _ _ _)
  · rw [if_neg h0]
    exact hres

theorem keeps_static_process_loop (sprites : List Ptr) (dt : ℚ) (fuel : Nat) :
    ∀ st : Heap × ℚ, keeps_static st.1 (process_loop sprites dt fuel st).1 := by
  induction fuel with
  | zero => intro st; exact keeps_static_refl _
  | succ fuel ih =>
    intro st
    unfold process_loop
    split_ifs
    · exact keeps_static_trans (keeps_static_sub_step sprites dt st) (ih _)
    · exact keeps_static_refl _

/-- C9: for every registry, heap and `dt`, after any number of iterations of the loop of
`process_sprites(dt)`, and so in the heap it returns, a sprite whose `is_static` flag
is set has the velocity it had before the call. -/
theorem process_sprites_static_vel (fuel : Nat) (m : Heap) (sprites : List Ptr) (dt : ℚ)
    (p : Ptr) (hp : (m p).is_static = true) :
    ((process_loop sprites dt fuel (m, 0)).1 p).vel = (m p).vel ∧
    ∀ n : Heap, process_sprites fuel m sprites dt = some n → (n p).vel = (m p).vel := by
  have h := (keeps_static_process_loop sprites dt fuel (m, 0) p).2 hp
  refine ⟨h, fun n hn => ?_⟩
  unfold process_sprites at hn
  simp only [] at hn
  split_ifs at hn
  rw [← Option.some.inj hn]
  exact h

/-- The scenario of the spec: the static B (address 1) keeps its zero velocity through
`process_sprites(5)`, which ends within two iterations. -/
theorem process_sprites_static_vel_witness :
    (process_sprites 2 heap_scenario [0, 1] 5).isSome = true ∧
    (((process_loop [0, 1] 5 2 (heap_scenario, 0)).1 1).vel = (heap_scenario 1).vel ∧
    ∀ n : Heap, process_sprites 2 heap_scenario [0, 1] 5 = some n →
      (n 1).vel = (heap_scenario 1).vel) :=
  ⟨by decide!, process_sprites_static_vel 2 heap_scenario [0, 1] 5 1 (by decide!)⟩

/-! ### The scenario of the spec (C10) -/

theorem process_loop_done (sprites : List Ptr) (dt : ℚ) (k : Nat) (st : Heap × ℚ)
    (h : ¬ st.2 < dt) : process_loop sprites dt k st = st := by
  cases k with
  | zero => rfl
  | succ k =>
    unfold process_loop
    rw [if_neg h]

theorem process_loop_succ (sprites : List Ptr) (dt : ℚ) (n : Nat) (st : Heap × ℚ) :
    process_loop sprites dt (n + 1) st =
      if st.2 < dt then process_loop sprites dt n (sub_step sprites dt st) else st := rfl

/-- Once the loop has ended, more fuel changes nothing. -/
theorem process_loop_stable (sprites : List Ptr) (dt : ℚ) (k n : Nat) :
    ∀ st : Heap × ℚ, ¬ (process_loop sprites dt n st).2 < dt →
      process_loop sprites dt (n + k) st = process_loop sprites dt n st := by
  induction n with
  | zero =>
    intro st h
    rw [Nat.zero_add]
    exact process_loop_done sprites dt k st h
  | succ n ih =>
    intro st h
    rw [Nat.add_right_comm, process_loop_succ, process_loop_succ]
    rw [process_loop_succ] at h
    by_cases hlt : st.2 < dt
    · rw [if_pos hlt] at h
      rw [if_pos hlt, if_pos hlt]
      exact ih _ h
    · rw [if_neg hlt, if_neg hlt]

/-- C10: with registry [A, B], A non-static at the origin with size (1,1,1) and velocity
(1,0,0), B static at (3,0,0) with size (1,1,1) at rest, the first scan of
`process_sprites(5)` adopts the single record at time 2 with the face RIGHT of A against
the face LEFT of B, and the call (which ends after two iterations, whatever the fuel
beyond that) returns with velocity (-1, 0, 0) for A and with B at (3,0,0) at rest. -/
theorem process_sprites_scenario (fuel : Nat) (hfuel : 2 ≤ fuel) :
    (scan_sprites heap_scenario [0, 1] 5).2 = [⟨RIGHT, LEFT, ((2 : ℚ) : FTime), 0, 1⟩] ∧
    (process_sprites fuel heap_scenario [0, 1] 5).map
        (fun n => ((n 0).vel, (n 1).pos, (n 1).vel, (n 1).is_static)) =
      some (⟨-1, 0, 0⟩, ⟨3, 0, 0⟩, ⟨0, 0, 0⟩, true) := by
  obtain ⟨k, rfl⟩ : ∃ k, fuel = 2 + k := ⟨fuel - 2, by omega⟩
  have hdone : ¬ (process_loop [0, 1] 5 2 (heap_scenario, 0)).2 < 5 := by decide!
  have h2 : (process_sprites 2 heap_scenario [0, 1] 5).map
      (fun n => ((n 0).vel, (n 1).pos, (n 1).vel, (n 1).is_static)) =
      some (⟨-1, 0, 0⟩, ⟨3, 0, 0⟩, ⟨0, 0, 0⟩, true) := by decide!
  refine ⟨by decide!, ?_⟩
  unfold process_sprites at h2 ⊢
  rw [process_loop_stable [0, 1] 5 k 2 (heap_scenario, 0) hdone]
  exact h2

/-- The scenario run with just enough fuel. -/
theorem process_sprites_scenario_witness :
    (scan_sprites heap_scenario [0, 1] 5).2 = [⟨RIGHT, LEFT, ((2 : ℚ) : FTime), 0, 1⟩] ∧
    (process_sprites 2 heap_scenario [0, 1] 5).map
        (fun n => ((n 0).vel, (n 1).pos, (n 1).vel, (n 1).is_static)) =
      some (⟨-1, 0, 0⟩, ⟨3, 0, 0⟩, ⟨0, 0, 0⟩, true) :=
  process_sprites_scenario 2 (by decide)

/-! ### The scan of a sub-step (C12) -/

theorem slot0_time_take (x : COLLISION_VALUES) (xs : List COLLISION_VALUES) :
    slot0_time ((x :: xs).take COLLISIONS_MAX) = x.time := rfl

theorem mem_scan_records (m : Heap) (sprites : List Ptr) (scanned : List Ptr)
    (c : COLLISION_VALUES) (hc : c ∈ scan_records m sprites scanned) :
    ∃ a ∈ scanned, ∃ s ∈ sprites, s ≠ a ∧ c = intersection_time m a s := by
  induction scanned with
  | nil => exact absurd hc (List.not_mem_nil c)
  | cons a scanned ih =>
    unfold scan_records at hc
    rcases List.mem_append.mp hc with h | h
    · unfold solver_records at h
      obtain ⟨s, hs, rfl⟩ := List.mem_map.mp h
      have hs2 := List.mem_filter.mp hs
      exact ⟨a, List.mem_cons_self a scanned, s, hs2.1, of_decide_eq_true hs2.2, rfl⟩
    · obtain ⟨a2, ha2, s, hs, hne, rfl⟩ := ih h
      exact ⟨a2, List.mem_cons_of_mem a ha2, s, hs, hne, rfl⟩

theorem adoptable_take_cons (L : ℚ) (x : COLLISION_VALUES) (xs : List COLLISION_VALUES) :
    adoptable L ((x :: xs).take COLLISIONS_MAX) ↔
      x.time ≥ ((0 : ℚ) : FTime) ∧ x.time < (L : FTime) := by
  unfold adoptable
  rw [slot0_time_take]
  constructor
  · exact fun h => h.2
  · exact fun h => ⟨by simp [COLLISIONS_MAX], h⟩

/-- The head of the tied earliest records, when there is one. -/
theorem tied_head_facts (L : ℚ) (P : List COLLISION_VALUES) (h : COLLISION_VALUES)
    (tl : List COLLISION_VALUES) (ht : tied_earliest L P = h :: tl) :
    h ∈ P ∧ is_earliest L P h :=
  (mem_tied_earliest L).mp (by rw [ht]; exact List.mem_cons_self h tl)

theorem adoptable_tied_iff (L : ℚ) (P : List COLLISION_VALUES) :
    adoptable L ((tied_earliest L P).take COLLISIONS_MAX) ↔
      ∃ e ∈ P, is_earliest L P e ∧ e.time < (L : FTime) := by
  constructor
  · intro h
    cases ht : tied_earliest L P with
    | nil =>
      rw [ht] at h
      exact absurd rfl h.1
    | cons x xs =>
      rw [ht, adoptable_take_cons] at h
      obtain ⟨hx, he⟩ := tied_head_facts L P x xs ht
      exact ⟨x, hx, he, h.2⟩
  · rintro ⟨e, heP, he, hlt⟩
    have hmem : e ∈ tied_earliest L P := (mem_tied_earliest L).mpr ⟨heP, he⟩
    cases ht : tied_earliest L P with
    | nil => rw [ht] at hmem; exact absurd hmem (List.not_mem_nil e)
    | cons x xs =>
      obtain ⟨hx, hxe⟩ := tied_head_facts L P x xs ht
      rw [adoptable_take_cons]
      refine ⟨hxe.1.1, ?_⟩
      rw [is_earliest_time_eq L hxe he hx heP]
      exact hlt

theorem adoptable_tied_mono (L : ℚ) (P R : List COLLISION_VALUES)
    (h : adoptable L ((tied_earliest L P).take COLLISIONS_MAX)) :
    adoptable L ((tied_earliest L (P ++ R)).take COLLISIONS_MAX) := by
  obtain ⟨e, heP, he, hlt⟩ := (adoptable_tied_iff L P).mp h
  obtain ⟨e2, he2, hearl⟩ := exists_is_earliest L (P ++ R)
    ⟨e, List.mem_append_left R heP, he.1⟩
  refine (adoptable_tied_iff L (P ++ R)).mpr ⟨e2, he2, hearl, ?_⟩
  exact lt_of_le_of_lt (hearl.2 e (List.mem_append_left R heP) he.1) hlt

/-- The first component of the scan is the collector run over the sprites in turn. -/
theorem scan_fold_candidate (m : Heap) (sprites : List Ptr) (L : ℚ) (scanned : List Ptr) :
    ∀ (P : List COLLISION_VALUES) (cset : List COLLISION_VALUES),
      cset = (if adoptable L ((tied_earliest L P).take COLLISIONS_MAX) then
        (tied_earliest L P).take COLLISIONS_MAX else []) →
      scanned.foldl
        (fun sets s =>
          if (find_collision_time m sprites sets.1 COLLISIONS_MAX s L).length ≠ 0 ∧
              slot0_time (find_collision_time m sprites sets.1 COLLISIONS_MAX s L) ≥
                ((0 : ℚ) : FTime) ∧
              slot0_time (find_collision_time m sprites sets.1 COLLISIONS_MAX s L) <
                (L : FTime) then
            (find_collision_time m sprites sets.1 COLLISIONS_MAX s L,
              find_collision_time m sprites sets.1 COLLISIONS_MAX s L)
          else (find_collision_time m sprites sets.1 COLLISIONS_MAX s L, sets.2))
        ((tied_earliest L P).take COLLISIONS_MAX, cset) =
      ((tied_earliest L (P ++ scan_records m sprites scanned)).take COLLISIONS_MAX,
        if adoptable L
            ((tied_earliest L (P ++ scan_records m sprites scanned)).take COLLISIONS_MAX) then
          (tied_earliest L (P ++ scan_records m sprites scanned)).take COLLISIONS_MAX
        else []) := by
  induction scanned with
  | nil =>
    intro P cset hc
    simp only [List.foldl_nil, scan_records, List.append_nil]
    rw [hc]
  | cons a scanned ih =>
    intro P cset hc
    rw [List.foldl_cons]
    have hf : find_collision_time m sprites ((tied_earliest L P).take COLLISIONS_MAX)
        COLLISIONS_MAX a L =
        (tied_earliest L (P ++ solver_records m sprites a)).take COLLISIONS_MAX :=
      find_collision_fold L m COLLISIONS_MAX a (by decide) sprites P
    simp only [hf]
    have hrec : P ++ scan_records m sprites (a :: scanned) =
        (P ++ solver_records m sprites a) ++ scan_records m sprites scanned := by
      simp only [scan_records, List.append_assoc]
    rw [hrec]
    by_cases had : adoptable L
        ((tied_earliest L (P ++ solver_records m sprites a)).take COLLISIONS_MAX)
    · have had2 := had
      unfold adoptable at had2
      rw [if_pos had2]
      exact ih _ _ (by rw [if_pos had])
    · have had2 := had
      unfold adoptable at had2
      rw [if_neg had2]
      apply ih
      rw [hc, if_neg had, if_neg]
      exact fun h => had (adoptable_tied_mono L P _ h)

/-- The scan of one sub-step merges the ties of all the scans: the candidate set is the
first `COLLISIONS_MAX` records, over the scans of all sprites in registry order, that
qualify with no smaller qualifying time; the winning set is that candidate set when its
time is below the look-ahead, and empty otherwise. -/
theorem scan_sprites_eq (m : Heap) (sprites : List Ptr) (L : ℚ) :
    scan_sprites m sprites L =
      ((tied_earliest L (scan_records m sprites sprites)).take COLLISIONS_MAX,
        if adoptable L ((tied_earliest L (scan_records m sprites sprites)).take COLLISIONS_MAX)
        then (tied_earliest L (scan_records m sprites sprites)).take COLLISIONS_MAX
        else []) := by
  have h := scan_fold_candidate m sprites L sprites [] []
    (by simp [tied_earliest, adoptable])
  simp only [List.nil_append] at h
  have h0 : (tied_earliest L ([] : List COLLISION_VALUES)).take COLLISIONS_MAX = [] := by
    simp [tied_earliest]
  rw [h0] at h
  exact h

/-- C12, as stated, fails: on `heap_head_on` with registry [A, B] and look-ahead 5 the scan
of A alone yields (A, B) at time 1 and the scan of B alone yields (B, A) at time 1; B is
the last sprite whose scan qualifies, but the winning set of the sub-step holds both
records, not only the one of the scan of B. -/
theorem scan_sprites_merges_counterexample :
    find_collision_time heap_head_on [0, 1] [] COLLISIONS_MAX 0 5 =
      [⟨RIGHT, LEFT, ((1 : ℚ) : FTime), 0, 1⟩] ∧
    find_collision_time heap_head_on [0, 1] [] COLLISIONS_MAX 1 5 =
      [⟨LEFT, RIGHT, ((1 : ℚ) : FTime), 1, 0⟩] ∧
    (scan_sprites heap_head_on [0, 1] 5).2 =
      [⟨RIGHT, LEFT, ((1 : ℚ) : FTime), 0, 1⟩, ⟨LEFT, RIGHT, ((1 : ℚ) : FTime), 1, 0⟩] ∧
    (scan_sprites heap_head_on [0, 1] 5).2 ≠
      find_collision_time heap_head_on [0, 1] [] COLLISIONS_MAX 1 5 := by
  decide!

/-- C12 (amended): in one sub-step the ties found while scanning different sprites are
merged, because the candidate set and its count are carried from one scan to the next:
the candidate set after the scans is the first `COLLISIONS_MAX` records, over the scans
of all registered sprites in registry order, whose time is the minimum qualifying time
(`>= 0`, not the sentinel, `<= ` the look-ahead), and the winning set adopted for the
sub-step is that whole set when its time is below the look-ahead, and empty otherwise. -/
theorem scan_sprites_merges (m : Heap) (sprites : List Ptr) (L : ℚ) :
    (scan_sprites m sprites L).1 =
      (tied_earliest L (scan_records m sprites sprites)).take COLLISIONS_MAX ∧
    (scan_sprites m sprites L).2 =
      (if (scan_sprites m sprites L).1.length ≠ 0 ∧
          slot0_time (scan_sprites m sprites L).1 ≥ ((0 : ℚ) : FTime) ∧
          slot0_time (scan_sprites m sprites L).1 < (L : FTime) then
        (scan_sprites m sprites L).1
      else []) := by
  rw [scan_sprites_eq]
  exact ⟨rfl, rfl⟩

/-! ### A frame without a winning set (C16) -/

theorem advance_sprites_cons (m : Heap) (s : Ptr) (sprites : List Ptr) (t : ℚ) :
    advance_sprites m (s :: sprites) t =
      advance_sprites (fun q => if q = s then advanced (m s) t else m q) sprites t := rfl

theorem advance_sprites_not_mem (sprites : List Ptr) (t : ℚ) (p : Ptr) :
    ∀ m : Heap, p ∉ sprites → advance_sprites m sprites t p = m p := by
  induction sprites with
  | nil => intro m _; rfl
  | cons s sprites ih =>
    intro m hp
    rw [advance_sprites_cons, ih _ (fun h => hp (List.mem_cons_of_mem s h))]
    have hne : ¬ p = s := fun h => hp (by rw [h]; exact List.mem_cons_self s sprites)
    rw [if_neg hne]

/-- In a registry without duplicates the position loop moves every registered sprite
once. -/
theorem advance_sprites_mem (sprites : List Ptr) (t : ℚ) (p : Ptr) :
    ∀ m : Heap, sprites.Nodup → p ∈ sprites → advance_sprites m sprites t p = advanced (m p) t := by
  induction sprites with
  | nil => intro m _ hp; exact absurd hp (List.not_mem_nil p)
  | cons s sprites ih =>
    intro m hnd hp
    rw [advance_sprites_cons]
    have hnd2 := List.nodup_cons.mp hnd
    by_cases hps : p = s
    · have hnot : p ∉ sprites := by rw [hps]; exact hnd2.1
      rw [advance_sprites_not_mem sprites t p _ hnot, if_pos hps, hps]
    · have hmem : p ∈ sprites := (List.mem_cons.mp hp).resolve_left hps
      rw [ih _ hnd2.2 hmem, if_neg hps]

theorem scan_sprites_no_winner (m : Heap) (sprites : List Ptr) (L : ℚ)
    (h : no_time_below m sprites L) : (scan_sprites m sprites L).2 = [] := by
  rw [scan_sprites_eq]
  simp only
  rw [if_neg]
  intro had
  obtain ⟨e, he, _, hlt⟩ := (adoptable_tied_iff L _).mp had
  obtain ⟨a, ha, s, hs, hne, rfl⟩ := mem_scan_records m sprites sprites e he
  exact h a ha s hs (fun hh => hne hh.symm) hlt

theorem sub_step_no_winner (sprites : List Ptr) (dt : ℚ) (st : Heap × ℚ)
    (h : (scan_sprites st.1 sprites (dt - st.2)).2 = []) :
    sub_step sprites dt st = (advance_sprites st.1 sprites (dt - st.2), dt) := by
  unfold sub_step
  simp only [h, List.length_nil, ne_eq, not_true_eq_false, if_false, if_true, resolve_pass,
    List.foldl_nil]

/-- One quiet frame: when no directed call reports a time below `dt`, the loop of
`process_sprites(dt)` runs once, through its no-collision branch. -/
theorem process_sprites_quiet (fuel : Nat) (m : Heap) (sprites : List Ptr) (dt : ℚ)
    (hdt : 0 < dt) (hfuel : 1 ≤ fuel) (h : no_time_below m sprites dt) :
    process_sprites fuel m sprites dt = some (advance_sprites m sprites dt) := by
  obtain ⟨k, rfl⟩ : ∃ k, fuel = 1 + k := ⟨fuel - 1, by omega⟩
  have hscan : (scan_sprites m sprites (dt - 0)).2 = [] := by
    rw [sub_zero]
    exact scan_sprites_no_winner m sprites dt h
  have h1 : process_loop sprites dt 1 (m, 0) = (advance_sprites m sprites dt, dt) := by
    rw [process_loop_succ, if_pos hdt, sub_step_no_winner sprites dt (m, 0) hscan, sub_zero]
    rfl
  unfold process_sprites
  simp only
  rw [process_loop_stable sprites dt k 1 (m, 0) (by rw [h1]; exact lt_irrefl dt), h1]
  simp

theorem directed_case_reject (c : COLLISION_VALUES) (guard : Prop) [Decidable guard]
    (num den : ℚ) (cross : ℚ → Prop) [DecidablePred cross] (mode_a mode_b : Nat)
    (h : guard → den ≠ 0 → 0 ≤ num / den → ((num / den : ℚ) : FTime) < c.time →
      cross (num / den) → False) :
    directed_case c guard num den cross mode_a mode_b = c := by
  rw [directed_case_eq, if_neg]
  exact fun hh => h hh.1 hh.2.1 hh.2.2.1 hh.2.2.2.1 hh.2.2.2.2

theorem wrap_int_of_range (x : Int) (hlo : -2147483648 ≤ x) (hhi : x ≤ 2147483647) :
    wrap_int x = x := by
  unfold wrap_int
  omega

/-- C13 as stated fails when the `int` sum `count + sprites_count` overflows: on the
registry holding one reference, `add_sprites(refs, INT_MAX)` has `count + n > 1000`, but
the sum wraps to `INT_MIN`, the capacity test passes, and the call returns true and
sets `sprites_count` to `INT_MIN`. -/
theorem add_sprites_over_capacity_counterexample :
    registry_one.sprites_count = 1 ∧ INT_MAX + registry_one.sprites_count > 1000 ∧
    (add_sprites none registry_one (array_of [20]) INT_MAX).1 = true ∧
    (add_sprites none registry_one (array_of [20]) INT_MAX).2.sprites_count = -2147483648 ∧
    add_sprites none registry_one (array_of [20]) INT_MAX ≠ (false, registry_one) := by
  refine ⟨by decide, by decide, by decide, by decide, fun h => ?_⟩
  have h1 : (add_sprites none registry_one (array_of [20]) INT_MAX).1 = false := by rw [h]
  revert h1
  decide

/-- C13, amended: for every registry of size `n` and every call `add_sprites(refs, count)`
with `count + n > 1000` whose `int` sum does not overflow (`count + n <= INT_MAX`), the
call returns false and leaves the registry, its size and its contents, as it was. -/
theorem add_sprites_over_capacity (malloc : Option (Int → Ptr)) (r : REGISTRY)
    (refs : Int → Ptr) (count : Int) (h : count + r.sprites_count > 1000)
    (hmax : count + r.sprites_count ≤ INT_MAX) :
    add_sprites malloc r refs count = (false, r) := by
  unfold add_sprites
  simp only
  unfold INT_MAX at hmax
  rw [wrap_int_of_range _ (by omega) hmax, if_pos]
  simpa [SPRITES_MAX] using h

/-- After a successful add of 1000 references a second add of one reference fails and
the registry stays at exactly 1000. -/
theorem add_sprites_over_capacity_witness :
    (add_sprites (some (fun _ => 0)) registry_empty (fun i => i.toNat) 1000).1 = true ∧
    registry_full.sprites_count = 1000 ∧
    add_sprites none registry_full (array_of [7]) 1 = (false, registry_full) :=
  ⟨by decide, by decide,
    add_sprites_over_capacity none registry_full (array_of [7]) 1 (by decide) (by decide)⟩

/-- What a successful call stores: slot `i` of the registry receives slot `i` of the
array of the caller, for `i` from the old to the new count. -/
theorem copy_refs_apply (refs : Int → Ptr) (start : Int) (n : Nat) (block : Int → Ptr)
    (j : Int) :
    copy_refs refs start n block j =
      if start ≤ j ∧ j < start + (n : Int) then refs j else block j := by
  unfold copy_refs
  induction n with
  | zero =>
    simp only [List.range_zero, List.foldl_nil]
    rw [if_neg]
    intro h
    have := h.1
    have := h.2
    omega
  | succ n ih =>
    rw [List.range_succ, List.foldl_append, List.foldl_cons, List.foldl_nil]
    by_cases hj : j = start + (n : Int)
    · rw [if_pos hj, if_pos, hj]
      rw [hj]
      push_cast
      omega
    · rw [if_neg hj, ih]
      by_cases h1 : start ≤ j ∧ j < start + (n : Int)
      · rw [if_pos h1, if_pos]
        push_cast
        omega
      · rw [if_neg h1, if_neg]
        push_cast
        omega

/-- What a successful call on a non-empty registry stores: the old slots are kept and
slot `j` of the registry, for `j` from the old count `n` to `n + count`, receives slot
`j` of the array of the caller (not slot `j - n`). -/
theorem add_sprites_copies (malloc : Option (Int → Ptr)) (r : REGISTRY) (refs : Int → Ptr)
    (count : Int) (block : Int → Ptr) (hcount : 0 ≤ count)
    (hcap : count + r.sprites_count ≤ 1000) (hn : 0 < r.sprites_count)
    (hblock : r.sprites = some block) :
    (add_sprites malloc r refs count).1 = true ∧
    (add_sprites malloc r refs count).2.sprites_count = count + r.sprites_count ∧
    ∃ stored : Int → Ptr, (add_sprites malloc r refs count).2.sprites = some stored ∧
      ∀ j : Int, stored j =
        if r.sprites_count ≤ j ∧ j < r.sprites_count + count then refs j else block j := by
  unfold add_sprites
  simp only
  rw [wrap_int_of_range _ (by omega) (by omega),
    if_neg (by simpa [SPRITES_MAX] using hcap), if_neg (fun h => hn.ne (h.1).symm),
    if_neg hn.ne.symm, hblock]
  refine ⟨rfl, rfl, _, rfl, fun j => ?_⟩
  rw [copy_refs_apply]
  have : ((count + r.sprites_count - r.sprites_count).toNat : Int) = count := by
    rw [add_sub_cancel_right]
    exact Int.toNat_of_nonneg hcount
  rw [this]

/-- C14 at the failing input: the registry holds the one reference 10 and the caller
adds one reference from the array {20, 30}: the call returns true and the size is 2, but
slot 1 of the registry receives slot 1 of the array of the caller, 30, and not its
slot 0, 20. -/
theorem add_sprites_second_call :
    registered registry_one = [10] ∧
    (add_sprites none registry_one (array_of [20, 30]) 1).1 = true ∧
    (add_sprites none registry_one (array_of [20, 30]) 1).2.sprites_count = 2 ∧
    registered (add_sprites none registry_one (array_of [20, 30]) 1).2 = [10, 30] ∧
    registered (add_sprites none registry_one (array_of [20, 30]) 1).2 ≠
      [10] ++ [array_of [20, 30] 0] := by
  decide

theorem remove_sprites_of_zero (r : REGISTRY) (h : r.sprites_count = 0) :
    remove_sprites r = r := by
  unfold remove_sprites
  rw [if_neg (not_not.mpr h)]

/-- C15: from every registry state one call of `remove_sprites` leaves the registry at
size 0, and a second call right after it is a no-op that leaves the same state. -/
theorem remove_sprites_idempotent (r : REGISTRY) :
    (remove_sprites r).sprites_count = 0 ∧
    remove_sprites (remove_sprites r) = remove_sprites r ∧
    (remove_sprites (remove_sprites r)).sprites_count = 0 := by
  have h0 : (remove_sprites r).sprites_count = 0 := by
    unfold remove_sprites
    split_ifs with h
    · rfl
    · exact not_not.mp h
  have h1 : remove_sprites (remove_sprites r) = remove_sprites r :=
    remove_sprites_of_zero _ h0
  exact ⟨h0, h1, by rw [h1]; exact h0⟩

/-! ### One of the two directed calls reports the contact, in exact arithmetic -/

theorem intersection_time_eq_after_x (m : Heap) (a b : Ptr) :
    intersection_time m a b =
      directed_case
        (directed_case (after_x_cases m a b)
          ((m a).vel.y > 0 ∧ (m a).pos.y + (m a).size.y < (m b).pos.y)
          ((m b).pos.y - ((m a).pos.y + (m a).size.y)) ((m a).vel.y - (m b).vel.y)
          (is_colliding_y (m a) (m b)) TOP BOTTOM)
        ((m a).vel.y < 0 ∧ (m a).pos.y > (m b).pos.y + (m b).size.y)
        ((m b).pos.y + (m b).size.y - (m a).pos.y) ((m a).vel.y - (m b).vel.y)
        (is_colliding_y (m a) (m b)) BOTTOM TOP := rfl

theorem after_x_cases_inv (m : Heap) (a b : Ptr) : x_case_inv m a b (after_x_cases m a b) := by
  have hnew : ∀ (c : COLLISION_VALUES) (mode_a mode_b : Nat) (q : ℚ), x_case_inv m a b c →
      is_colliding_x (m a) (m b) q →
      x_case_inv m a b { c with time := (q : FTime), mode_a := mode_a, mode_b := mode_b } := by
    intro c _ _ q hc hq
    refine ⟨hc.1, hc.2.1, fun u hu => ?_⟩
    have : q = u := WithTop.coe_injective hu
    rw [← this]
    exact hq
  unfold after_x_cases
  apply directed_case_induct
  · apply directed_case_induct
    · exact ⟨rfl, rfl, fun u hu => absurd hu.symm WithTop.coe_ne_top⟩
    · intro _ _ _ _ hc
      exact hnew _ _ _ _ ⟨rfl, rfl, fun u hu => absurd hu.symm WithTop.coe_ne_top⟩ hc
  · intro _ _ _ _ hc
    refine hnew _ _ _ _ ?_ hc
    apply directed_case_induct
    · exact ⟨rfl, rfl, fun u hu => absurd hu.symm WithTop.coe_ne_top⟩
    · intro _ _ _ _ hc2
      exact hnew _ _ _ _ ⟨rfl, rfl, fun u hu => absurd hu.symm WithTop.coe_ne_top⟩ hc2

/-- The call `intersection_time(a, b)` when `a` moves right towards `b`. -/
theorem intersection_time_right_exact (m : Heap) (a b : Ptr)
    (hgap : (m a).pos.x + (m a).size.x < (m b).pos.x)
    (hs : (m a).vel.x - (m b).vel.x > 0) (hva : (m a).vel.x > 0)
    (hy : is_colliding_x (m a) (m b)
      (((m b).pos.x - ((m a).pos.x + (m a).size.x)) / ((m a).vel.x - (m b).vel.x))) :
    intersection_time m a b =
      { mode_a := RIGHT, mode_b := LEFT,
        time := ((((m b).pos.x - ((m a).pos.x + (m a).size.x)) /
          ((m a).vel.x - (m b).vel.x) : ℚ) : FTime),
        sprite := a, other_sprite := b } := by
  have hg : 0 < (m b).pos.x - ((m a).pos.x + (m a).size.x) := by linarith
  have ht : 0 ≤ ((m b).pos.x - ((m a).pos.x + (m a).size.x)) /
      ((m a).vel.x - (m b).vel.x) := le_of_lt (div_pos hg hs)
  obtain ⟨_, hmul, hbefore⟩ := closing_pos _ _ hg (ne_of_gt hs) ht
  have hopen : ∀ q : ℚ, q < ((m b).pos.x - ((m a).pos.x + (m a).size.x)) /
      ((m a).vel.x - (m b).vel.x) → ¬ is_colliding_y (m a) (m b) q := by
    intro q hq hc
    have h1 := hbefore q hq
    have h2 := hc.1.2
    simp only at h2
    linarith
  have hx : after_x_cases m a b =
      { mode_a := RIGHT, mode_b := LEFT,
        time := ((((m b).pos.x - ((m a).pos.x + (m a).size.x)) /
          ((m a).vel.x - (m b).vel.x) : ℚ) : FTime),
        sprite := a, other_sprite := b } := by
    unfold after_x_cases
    rw [directed_case_of_not_guard _ _ _ _ _ _ _
      (fun h => absurd h.1 (not_lt.mpr (le_of_lt hva)))]
    rw [directed_case_accept _ _ _ _ _ _ _ ⟨hva, hgap⟩ (ne_of_gt hs) ht
      (WithTop.coe_lt_top _) hy]
  rw [intersection_time_eq_after_x, hx]
  rw [directed_case_reject, directed_case_reject]
  · intro _ _ _ hlt hc
    exact hopen _ (WithTop.coe_lt_coe.mp hlt) hc
  · intro _ _ _ hlt hc
    rw [directed_case_reject] at hlt
    · exact hopen _ (WithTop.coe_lt_coe.mp hlt) hc
    · intro _ _ _ hlt2 hc2
      exact hopen _ (WithTop.coe_lt_coe.mp hlt2) hc2

/-- The call `intersection_time(a, b)` when `a` moves left towards `b`. -/
theorem intersection_time_left_exact (m : Heap) (a b : Ptr)
    (hgap : (m a).pos.x > (m b).pos.x + (m b).size.x)
    (hs : (m a).vel.x - (m b).vel.x < 0) (hva : (m a).vel.x < 0)
    (hy : is_colliding_x (m a) (m b)
      (((m b).pos.x + (m b).size.x - (m a).pos.x) / ((m a).vel.x - (m b).vel.x))) :
    intersection_time m a b =
      { mode_a := LEFT, mode_b := RIGHT,
        time := ((((m b).pos.x + (m b).size.x - (m a).pos.x) /
          ((m a).vel.x - (m b).vel.x) : ℚ) : FTime),
        sprite := a, other_sprite := b } := by
  have hg : (m b).pos.x + (m b).size.x - (m a).pos.x < 0 := by linarith
  have ht : 0 ≤ ((m b).pos.x + (m b).size.x - (m a).pos.x) /
      ((m a).vel.x - (m b).vel.x) := le_of_lt (div_pos_of_neg_of_neg hg hs)
  obtain ⟨_, hmul, hbefore⟩ := closing_neg _ _ hg (ne_of_lt hs) ht
  have hopen : ∀ q : ℚ, q < ((m b).pos.x + (m b).size.x - (m a).pos.x) /
      ((m a).vel.x - (m b).vel.x) → ¬ is_colliding_y (m a) (m b) q := by
    intro q hq hc
    have h1 := hbefore q hq
    have h2 := hc.1.1
    simp only at h2
    linarith
  have hx : after_x_cases m a b =
      { mode_a := LEFT, mode_b := RIGHT,
        time := ((((m b).pos.x + (m b).size.x - (m a).pos.x) /
          ((m a).vel.x - (m b).vel.x) : ℚ) : FTime),
        sprite := a, other_sprite := b } := by
    unfold after_x_cases
    rw [directed_case_of_not_guard _ ((m a).vel.x > 0 ∧ _) _ _ _ _ _
      (fun h => absurd h.1 (not_lt.mpr (le_of_lt hva)))]
    rw [directed_case_accept _ _ _ _ _ _ _ ⟨hva, hgap⟩ (ne_of_lt hs) ht
      (WithTop.coe_lt_top _) hy]
  rw [intersection_time_eq_after_x, hx]
  rw [directed_case_reject, directed_case_reject]
  · intro _ _ _ hlt hc
    exact hopen _ (WithTop.coe_lt_coe.mp hlt) hc
  · intro _ _ _ hlt hc
    rw [directed_case_reject] at hlt
    · exact hopen _ (WithTop.coe_lt_coe.mp hlt) hc
    · intro _ _ _ hlt2 hc2
      exact hopen _ (WithTop.coe_lt_coe.mp hlt2) hc2

theorem lt_time_of_overlap (c : COLLISION_VALUES) (t : ℚ)
    (h : ∀ u : ℚ, c.time = (u : FTime) → t < u) : (t : FTime) < c.time := by
  by_cases htop : c.time = ⊤
  · rw [htop]
    exact WithTop.coe_lt_top t
  · obtain ⟨u, hu⟩ := WithTop.ne_top_iff_exists.mp htop
    rw [← hu]
    exact WithTop.coe_lt_coe.mpr (h u hu.symm)

/-- The call `intersection_time(a, b)` when `a` moves up towards `b`. -/
theorem intersection_time_top_exact (m : Heap) (a b : Ptr)
    (hgap : (m a).pos.y + (m a).size.y < (m b).pos.y)
    (hs : (m a).vel.y - (m b).vel.y > 0) (hva : (m a).vel.y > 0)
    (hx : is_colliding_y (m a) (m b)
      (((m b).pos.y - ((m a).pos.y + (m a).size.y)) / ((m a).vel.y - (m b).vel.y))) :
    intersection_time m a b =
      { mode_a := TOP, mode_b := BOTTOM,
        time := ((((m b).pos.y - ((m a).pos.y + (m a).size.y)) /
          ((m a).vel.y - (m b).vel.y) : ℚ) : FTime),
        sprite := a, other_sprite := b } := by
  have hg : 0 < (m b).pos.y - ((m a).pos.y + (m a).size.y) := by linarith
  have ht : 0 ≤ ((m b).pos.y - ((m a).pos.y + (m a).size.y)) /
      ((m a).vel.y - (m b).vel.y) := le_of_lt (div_pos hg hs)
  obtain ⟨_, hmul, _⟩ := closing_pos _ _ hg (ne_of_gt hs) ht
  obtain ⟨hsa, hsb, hinv⟩ := after_x_cases_inv m a b
  have hlt : ((((m b).pos.y - ((m a).pos.y + (m a).size.y)) /
      ((m a).vel.y - (m b).vel.y) : ℚ) : FTime) < (after_x_cases m a b).time := by
    apply lt_time_of_overlap
    intro u hu
    have h1 := (hinv u hu).1.1
    simp only at h1
    by_contra hle
    have h2 : ((m a).vel.y - (m b).vel.y) * u ≤ ((m a).vel.y - (m b).vel.y) *
        (((m b).pos.y - ((m a).pos.y + (m a).size.y)) / ((m a).vel.y - (m b).vel.y)) :=
      mul_le_mul_of_nonneg_left (not_lt.mp hle) (le_of_lt hs)
    linarith
  rw [intersection_time_eq_after_x]
  rw [directed_case_of_not_guard _ _ _ _ _ _ _
    (fun h => absurd h.1 (not_lt.mpr (le_of_lt hva)))]
  rw [directed_case_accept _ _ _ _ _ _ _ ⟨hva, hgap⟩ (ne_of_gt hs) ht hlt hx, hsa, hsb]

/-- The call `intersection_time(a, b)` when `a` moves down towards `b`. -/
theorem intersection_time_bottom_exact (m : Heap) (a b : Ptr)
    (hgap : (m a).pos.y > (m b).pos.y + (m b).size.y)
    (hs : (m a).vel.y - (m b).vel.y < 0) (hva : (m a).vel.y < 0)
    (hx : is_colliding_y (m a) (m b)
      (((m b).pos.y + (m b).size.y - (m a).pos.y) / ((m a).vel.y - (m b).vel.y))) :
    intersection_time m a b =
      { mode_a := BOTTOM, mode_b := TOP,
        time := ((((m b).pos.y + (m b).size.y - (m a).pos.y) /
          ((m a).vel.y - (m b).vel.y) : ℚ) : FTime),
        sprite := a, other_sprite := b } := by
  have hg : (m b).pos.y + (m b).size.y - (m a).pos.y < 0 := by linarith
  have ht : 0 ≤ ((m b).pos.y + (m b).size.y - (m a).pos.y) /
      ((m a).vel.y - (m b).vel.y) := le_of_lt (div_pos_of_neg_of_neg hg hs)
  obtain ⟨_, hmul, _⟩ := closing_neg _ _ hg (ne_of_lt hs) ht
  obtain ⟨hsa, hsb, hinv⟩ := after_x_cases_inv m a b
  have hlt : ((((m b).pos.y + (m b).size.y - (m a).pos.y) /
      ((m a).vel.y - (m b).vel.y) : ℚ) : FTime) < (after_x_cases m a b).time := by
    apply lt_time_of_overlap
    intro u hu
    have h1 := (hinv u hu).1.2
    simp only at h1
    by_contra hle
    have h2 : ((m a).vel.y - (m b).vel.y) *
        (((m b).pos.y + (m b).size.y - (m a).pos.y) / ((m a).vel.y - (m b).vel.y)) ≤
        ((m a).vel.y - (m b).vel.y) * u :=
      mul_le_mul_of_nonpos_left (not_lt.mp hle) (le_of_lt hs)
    linarith
  rw [intersection_time_eq_after_x]
  rw [directed_case_of_not_guard _ ((m a).vel.y > 0 ∧ _) _ _ _ _ _
    (fun h => absurd h.1 (not_lt.mpr (le_of_lt hva)))]
  rw [directed_case_accept _ _ _ _ _ _ _ ⟨hva, hgap⟩ (ne_of_lt hs) ht hlt hx, hsa, hsb]

/-- In exact arithmetic: let the right edge of A be left of the left edge of B by
`g > 0`, let the closing speed `s = A.vel.x - B.vel.x` be positive and let the y-intervals strictly overlap at
time `g / s`. Then `intersection_time(A, B)` returns time `g / s` with faces RIGHT, LEFT,
or `intersection_time(B, A)` returns time `g / s` with faces LEFT (of B), RIGHT (of A):
whichever of the two sprites moves towards the other reports the contact. The same holds
on the y axis with TOP of A and BOTTOM of B. It holds for all extents. -/
theorem intersection_time_either_call (m : Heap) (a b : Ptr) :
    ((m a).pos.x + (m a).size.x < (m b).pos.x → (m a).vel.x - (m b).vel.x > 0 →
      is_colliding_x (m a) (m b)
        (((m b).pos.x - ((m a).pos.x + (m a).size.x)) / ((m a).vel.x - (m b).vel.x)) →
      intersection_time m a b =
          { mode_a := RIGHT, mode_b := LEFT,
            time := ((((m b).pos.x - ((m a).pos.x + (m a).size.x)) /
              ((m a).vel.x - (m b).vel.x) : ℚ) : FTime),
            sprite := a, other_sprite := b } ∨
        intersection_time m b a =
          { mode_a := LEFT, mode_b := RIGHT,
            time := ((((m b).pos.x - ((m a).pos.x + (m a).size.x)) /
              ((m a).vel.x - (m b).vel.x) : ℚ) : FTime),
            sprite := b, other_sprite := a }) ∧
    ((m a).pos.y + (m a).size.y < (m b).pos.y → (m a).vel.y - (m b).vel.y > 0 →
      is_colliding_y (m a) (m b)
        (((m b).pos.y - ((m a).pos.y + (m a).size.y)) / ((m a).vel.y - (m b).vel.y)) →
      intersection_time m a b =
          { mode_a := TOP, mode_b := BOTTOM,
            time := ((((m b).pos.y - ((m a).pos.y + (m a).size.y)) /
              ((m a).vel.y - (m b).vel.y) : ℚ) : FTime),
            sprite := a, other_sprite := b } ∨
        intersection_time m b a =
          { mode_a := BOTTOM, mode_b := TOP,
            time := ((((m b).pos.y - ((m a).pos.y + (m a).size.y)) /
              ((m a).vel.y - (m b).vel.y) : ℚ) : FTime),
            sprite := b, other_sprite := a }) := by
  constructor
  · intro hgap hs hy
    by_cases hva : (m a).vel.x > 0
    · exact Or.inl (intersection_time_right_exact m a b hgap hs hva hy)
    · right
      have heq : ((m a).pos.x + (m a).size.x - (m b).pos.x) / ((m b).vel.x - (m a).vel.x) =
          ((m b).pos.x - ((m a).pos.x + (m a).size.x)) / ((m a).vel.x - (m b).vel.x) := by
        rw [← neg_sub (m b).pos.x, ← neg_sub (m a).vel.x, neg_div_neg_eq]
      have h := intersection_time_left_exact m b a (by linarith) (by linarith) (by linarith)
        (by rw [heq]; exact is_colliding_x_symm _ _ _ hy)
      rw [heq] at h
      exact h
  · intro hgap hs hx
    by_cases hva : (m a).vel.y > 0
    · exact Or.inl (intersection_time_top_exact m a b hgap hs hva hx)
    · right
      have heq : ((m a).pos.y + (m a).size.y - (m b).pos.y) / ((m b).vel.y - (m a).vel.y) =
          ((m b).pos.y - ((m a).pos.y + (m a).size.y)) / ((m a).vel.y - (m b).vel.y) := by
        rw [← neg_sub (m b).pos.y, ← neg_sub (m a).vel.y, neg_div_neg_eq]
      have h := intersection_time_bottom_exact m b a (by linarith) (by linarith)
        (by linarith) (by rw [heq]; exact is_colliding_y_symm _ _ _ hx)
      rw [heq] at h
      exact h

/-! ### The two directed calls agree, in exact arithmetic -/

theorem event_inv_new (A B : SPRITE) (c : COLLISION_VALUES) (mode_a mode_b : Nat) (q : ℚ)
    (h : contact_event A B mode_a mode_b q) :
    event_inv A B { c with time := (q : FTime), mode_a := mode_a, mode_b := mode_b } := by
  intro t ht
  have hq : q = t := WithTop.coe_injective ht
  subst hq
  exact h

theorem intersection_time_event_inv (m : Heap) (a b : Ptr) :
    event_inv (m a) (m b) (intersection_time m a b) := by
  simp only [intersection_time]
  apply directed_case_induct
  · apply directed_case_induct
    · apply directed_case_induct
      · apply directed_case_induct
        · intro t ht
          exact absurd ht.symm WithTop.coe_ne_top
        · intro hg hden h0 _ hc
          obtain ⟨hd, hmul, _⟩ := closing_pos _ _ (by linarith [hg.2]) hden h0
          exact event_inv_new _ _ _ _ _ _ (Or.inl ⟨rfl, rfl, hg.2, hd, hmul, hc⟩)
      · intro hg hden h0 _ hc
        obtain ⟨hd, hmul, _⟩ := closing_neg _ _ (by linarith [hg.2]) hden h0
        exact event_inv_new _ _ _ _ _ _ (Or.inr (Or.inl ⟨rfl, rfl, hg.2, hd, hmul, hc⟩))
    · intro hg hden h0 _ hc
      obtain ⟨hd, hmul, _⟩ := closing_pos _ _ (by linarith [hg.2]) hden h0
      exact event_inv_new _ _ _ _ _ _
        (Or.inr (Or.inr (Or.inl ⟨rfl, rfl, hg.2, hd, hmul, hc⟩)))
  · intro hg hden h0 _ hc
    obtain ⟨hd, hmul, _⟩ := closing_neg _ _ (by linarith [hg.2]) hden h0
    exact event_inv_new _ _ _ _ _ _
      (Or.inr (Or.inr (Or.inr ⟨rfl, rfl, hg.2, hd, hmul, hc⟩)))

theorem is_colliding_x_facts (A B : SPRITE) (t : ℚ) (h : is_colliding_x A B t) :
    B.pos.y + B.vel.y * t < A.pos.y + A.vel.y * t + A.size.y ∧
      A.pos.y + A.vel.y * t < B.pos.y + B.vel.y * t + B.size.y :=
  ⟨h.1.1, h.1.2⟩

theorem is_colliding_y_facts (A B : SPRITE) (t : ℚ) (h : is_colliding_y A B t) :
    A.pos.x + A.vel.x * t < B.pos.x + B.vel.x * t + B.size.x ∧
      B.pos.x + B.vel.x * t < A.pos.x + A.vel.x * t + A.size.x :=
  ⟨h.1.1, h.1.2⟩

/-- Two times cannot each be earlier than the other. -/
theorem order_clash (p q u v : ℚ) (hp : 0 < p) (hq : 0 < q) (h1 : p * v < p * u)
    (h2 : q * u < q * v) : False := by
  rcases le_or_lt u v with h | h
  · have := mul_le_mul_of_nonneg_left h (le_of_lt hp)
    linarith
  · have := mul_le_mul_of_nonneg_left (le_of_lt h) (le_of_lt hq)
    linarith

theorem same_event_time (p t1 t2 g : ℚ) (hp : p ≠ 0) (h1 : p * t1 = g) (h2 : p * t2 = g) :
    t1 = t2 :=
  mul_left_cancel₀ hp (h1.trans h2.symm)

/-- In exact arithmetic: for every pair A, B with non-negative extents, if both
`intersection_time(A, B)` and `intersection_time(B, A)` report a collision (a time that is not the sentinel), they
report the same time and mirrored faces: `mode_a` of each is `mode_b` of the other, and
both records lie on the same axis. -/
theorem intersection_time_consistent (m : Heap) (a b : Ptr)
    (hax : 0 ≤ (m a).size.x) (hay : 0 ≤ (m a).size.y)
    (hbx : 0 ≤ (m b).size.x) (hby : 0 ≤ (m b).size.y)
    (h1 : (intersection_time m a b).time ≠ FLT_MAX)
    (h2 : (intersection_time m b a).time ≠ FLT_MAX) :
    (intersection_time m a b).time = (intersection_time m b a).time ∧
    (intersection_time m a b).mode_a = (intersection_time m b a).mode_b ∧
    (intersection_time m a b).mode_b = (intersection_time m b a).mode_a ∧
    ((on_x_axis (intersection_time m a b).mode_a ∧
        on_x_axis (intersection_time m b a).mode_a) ∨
      (on_y_axis (intersection_time m a b).mode_a ∧
        on_y_axis (intersection_time m b a).mode_a)) := by
  obtain ⟨t1, ht1⟩ := WithTop.ne_top_iff_exists.mp h1
  obtain ⟨t2, ht2⟩ := WithTop.ne_top_iff_exists.mp h2
  have e1 := intersection_time_event_inv m a b t1 ht1.symm
  have e2 := intersection_time_event_inv m b a t2 ht2.symm
  rcases e1 with ⟨a1, b1, g1, d1, q1, c1⟩ | ⟨a1, b1, g1, d1, q1, c1⟩ |
    ⟨a1, b1, g1, d1, q1, c1⟩ | ⟨a1, b1, g1, d1, q1, c1⟩ <;>
  rcases e2 with ⟨a2, b2, g2, d2, q2, c2⟩ | ⟨a2, b2, g2, d2, q2, c2⟩ |
    ⟨a2, b2, g2, d2, q2, c2⟩ | ⟨a2, b2, g2, d2, q2, c2⟩
  · exfalso
    linarith [g1, g2, hax, hay, hbx, hby]
  · have ht : t1 = t2 := same_event_time ((m a).vel.x - (m b).vel.x) t1 t2 _
      (by intro h0; rw [h0] at d1; exact lt_irrefl 0 d1) q1 (by linarith [q2])
    exact ⟨by rw [← ht1, ← ht2, ht], by rw [a1, b2], by rw [b1, a2], Or.inl ⟨Or.inl a1, Or.inr a2⟩⟩
  · have y1 := is_colliding_x_facts _ _ _ c1
    have x2 := is_colliding_y_facts _ _ _ c2
    exact (order_clash ((m b).vel.y - (m a).vel.y) ((m a).vel.x - (m b).vel.x) t1 t2 d2 d1
      (by linarith [q1, q2, y1.1, y1.2, x2.1, x2.2]) (by linarith [q1, q2, y1.1, y1.2, x2.1, x2.2])).elim
  · have y1 := is_colliding_x_facts _ _ _ c1
    have x2 := is_colliding_y_facts _ _ _ c2
    exact (order_clash ((m a).vel.y - (m b).vel.y) ((m a).vel.x - (m b).vel.x) t1 t2 (by linarith [d2]) d1
      (by linarith [q1, q2, y1.1, y1.2, x2.1, x2.2]) (by linarith [q1, q2, y1.1, y1.2, x2.1, x2.2])).elim
  · have ht : t1 = t2 := same_event_time ((m a).vel.x - (m b).vel.x) t1 t2 _
      (by intro h0; rw [h0] at d1; exact lt_irrefl 0 d1) q1 (by linarith [q2])
    exact ⟨by rw [← ht1, ← ht2, ht], by rw [a1, b2], by rw [b1, a2], Or.inl ⟨Or.inr a1, Or.inl a2⟩⟩
  · exfalso
    linarith [g1, g2, hax, hay, hbx, hby]
  · have y1 := is_colliding_x_facts _ _ _ c1
    have x2 := is_colliding_y_facts _ _ _ c2
    exact (order_clash ((m b).vel.y - (m a).vel.y) ((m b).vel.x - (m a).vel.x) t1 t2 d2 (by linarith [d1])
      (by linarith [q1, q2, y1.1, y1.2, x2.1, x2.2]) (by linarith [q1, q2, y1.1, y1.2, x2.1, x2.2])).elim
  · have y1 := is_colliding_x_facts _ _ _ c1
    have x2 := is_colliding_y_facts _ _ _ c2
    exact (order_clash ((m a).vel.y - (m b).vel.y) ((m b).vel.x - (m a).vel.x) t1 t2 (by linarith [d2]) (by linarith [d1])
      (by linarith [q1, q2, y1.1, y1.2, x2.1, x2.2]) (by linarith [q1, q2, y1.1, y1.2, x2.1, x2.2])).elim
  · have x1 := is_colliding_y_facts _ _ _ c1
    have y2 := is_colliding_x_facts _ _ _ c2
    exact (order_clash ((m a).vel.y - (m b).vel.y) ((m b).vel.x - (m a).vel.x) t2 t1 d1 d2
      (by linarith [q1, q2, x1.1, x1.2, y2.1, y2.2]) (by linarith [q1, q2, x1.1, x1.2, y2.1, y2.2])).elim
  · have x1 := is_colliding_y_facts _ _ _ c1
    have y2 := is_colliding_x_facts _ _ _ c2
    exact (order_clash ((m a).vel.y - (m b).vel.y) ((m a).vel.x - (m b).vel.x) t2 t1 d1 (by linarith [d2])
      (by linarith [q1, q2, x1.1, x1.2, y2.1, y2.2]) (by linarith [q1, q2, x1.1, x1.2, y2.1, y2.2])).elim
  · exfalso
    linarith [g1, g2, hax, hay, hbx, hby]
  · have ht : t1 = t2 := same_event_time ((m a).vel.y - (m b).vel.y) t1 t2 _
      (by intro h0; rw [h0] at d1; exact lt_irrefl 0 d1) q1 (by linarith [q2])
    exact ⟨by rw [← ht1, ← ht2, ht], by rw [a1, b2], by rw [b1, a2], Or.inr ⟨Or.inl a1, Or.inr a2⟩⟩
  · have x1 := is_colliding_y_facts _ _ _ c1
    have y2 := is_colliding_x_facts _ _ _ c2
    exact (order_clash ((m b).vel.y - (m a).vel.y) ((m b).vel.x - (m a).vel.x) t2 t1 (by linarith [d1]) d2
      (by linarith [q1, q2, x1.1, x1.2, y2.1, y2.2]) (by linarith [q1, q2, x1.1, x1.2, y2.1, y2.2])).elim
  · have x1 := is_colliding_y_facts _ _ _ c1
    have y2 := is_colliding_x_facts _ _ _ c2
    exact (order_clash ((m b).vel.y - (m a).vel.y) ((m a).vel.x - (m b).vel.x) t2 t1 (by linarith [d1]) (by linarith [d2])
      (by linarith [q1, q2, x1.1, x1.2, y2.1, y2.2]) (by linarith [q1, q2, x1.1, x1.2, y2.1, y2.2])).elim
  · have ht : t1 = t2 := same_event_time ((m a).vel.y - (m b).vel.y) t1 t2 _
      (by intro h0; rw [h0] at d1; exact lt_irrefl 0 d1) q1 (by linarith [q2])
    exact ⟨by rw [← ht1, ← ht2, ht], by rw [a1, b2], by rw [b1, a2], Or.inr ⟨Or.inr a1, Or.inl a2⟩⟩
  · exfalso
    linarith [g1, g2, hax, hay, hbx, hby]

/-! ## Properties of the collider in binary32 -/

namespace Binary32

open F32

/-! ## Rounding to binary32 -/

theorem pow2_eq (e : Int) : pow2 e = (2 : ℚ) ^ e := by
  unfold pow2
  split_ifs with h
  · lift e to ℕ using h
    simp
  · push_neg at h
    have h2 : 0 ≤ -e := by omega
    have he : e = -((-e).toNat : Int) := by rw [Int.toNat_of_nonneg h2]; ring
    conv_rhs => rw [he]
    rw [zpow_neg, zpow_natCast]
    simp

theorem pow2_pos (e : Int) : 0 < pow2 e := by
  rw [pow2_eq]
  positivity

theorem pow2_add (e f : Int) : pow2 (e + f) = pow2 e * pow2 f := by
  rw [pow2_eq, pow2_eq, pow2_eq, zpow_add₀ (by norm_num : (2 : ℚ) ≠ 0)]

theorem pow2_succ (e : Int) : pow2 (e + 1) = 2 * pow2 e := by
  rw [pow2_add, mul_comm]
  congr 1

theorem pow2_mono {e f : Int} (h : e ≤ f) : pow2 e ≤ pow2 f := by
  rw [pow2_eq, pow2_eq]
  exact zpow_le_zpow_right₀ (by norm_num) h

/-! ### The nearest integer -/

theorem round_even_cases (x : ℚ) :
    round_even x = ⌊x⌋ ∧ x - ⌊x⌋ ≤ 1 / 2 ∨ round_even x = ⌊x⌋ + 1 ∧ 1 / 2 ≤ x - ⌊x⌋ := by
  unfold round_even
  split_ifs with h1 h2 h3
  · exact Or.inl ⟨rfl, le_of_lt h1⟩
  · exact Or.inr ⟨rfl, le_of_lt h2⟩
  · exact Or.inl ⟨rfl, not_lt.mp h2⟩
  · exact Or.inr ⟨rfl, not_lt.mp h1⟩

theorem round_even_int (n : Int) : round_even (n : ℚ) = n := by
  unfold round_even
  rw [Int.floor_intCast, sub_self, if_pos (by norm_num)]

theorem round_even_mono {x y : ℚ} (h : x ≤ y) : round_even x ≤ round_even y := by
  have hf : ⌊x⌋ ≤ ⌊y⌋ := Int.floor_le_floor h
  rcases lt_or_eq_of_le hf with hlt | heq
  · have hx : round_even x ≤ ⌊x⌋ + 1 := by
      rcases round_even_cases x with h1 | h1 <;> (have h2 := h1.1; omega)
    have hy : ⌊y⌋ ≤ round_even y := by
      rcases round_even_cases y with h1 | h1 <;> (have h2 := h1.1; omega)
    omega
  · unfold round_even
    rw [← heq]
    have hxy : x - ⌊x⌋ ≤ y - ⌊x⌋ := by linarith
    split_ifs <;> first | omega | linarith

theorem round_even_nonneg {x : ℚ} (h : 0 ≤ x) : 0 ≤ round_even x := by
  have := round_even_mono h
  rw [show ((0 : ℚ)) = ((0 : Int) : ℚ) from by norm_num, round_even_int] at this
  exact this

theorem round_even_le_of_le_int {x : ℚ} {n : Int} (h : x ≤ n) : round_even x ≤ n := by
  have := round_even_mono h
  rwa [round_even_int] at this

theorem round_even_ge_of_int_le {x : ℚ} {n : Int} (h : (n : ℚ) ≤ x) : n ≤ round_even x := by
  have := round_even_mono h
  rwa [round_even_int] at this

/-! ### The exponent -/

theorem bit_length_zero (fuel : Nat) : bit_length fuel 0 = 0 := by
  cases fuel <;> simp [bit_length]

theorem bit_length_spec : ∀ (fuel n : Nat), n ≤ fuel → n < 2 ^ bit_length fuel n := by
  intro fuel
  induction fuel with
  | zero =>
    intro n hn
    have : n = 0 := Nat.le_zero.mp hn
    rw [this]
    simp [bit_length]
  | succ fuel ih =>
    intro n hn
    unfold bit_length
    split_ifs with h0
    · rw [h0]; simp
    · have h1 := ih (n / 2) (by omega)
      rw [pow_succ]
      omega

theorem bit_length_lower : ∀ (fuel n : Nat), n ≤ fuel → 0 < n →
    2 ^ bit_length fuel n ≤ 2 * n := by
  intro fuel
  induction fuel with
  | zero =>
    intro n hn h0
    omega
  | succ fuel ih =>
    intro n hn h0
    unfold bit_length
    rw [if_neg (by omega), pow_succ]
    by_cases h2 : n / 2 = 0
    · rw [h2, bit_length_zero]
      omega
    · have h1 := ih (n / 2) (by omega) (Nat.pos_of_ne_zero h2)
      omega

theorem pow2_nat (k : Nat) : pow2 (k : Int) = (2 : ℚ) ^ k := by
  rw [pow2_eq, zpow_natCast]

/-- A positive rational lies within a factor 2 of the power of two given by the bit
lengths of its numerator and its denominator. -/
theorem bit_length_bounds {a : ℚ} (h : 0 < a) :
    pow2 ((bit_length a.num.natAbs a.num.natAbs : Int) - (bit_length a.den a.den : Int) - 1) < a ∧
    a < pow2 ((bit_length a.num.natAbs a.num.natAbs : Int) - (bit_length a.den a.den : Int) + 1) := by
  have hnum : 0 < a.num := Rat.num_pos.mpr h
  have hn0 : 0 < a.num.natAbs := Int.natAbs_pos.mpr (ne_of_gt hnum)
  have hd0 : 0 < a.den := a.den_pos
  have n1 := bit_length_spec _ _ (le_refl a.num.natAbs)
  have n2 := bit_length_lower _ _ (le_refl a.num.natAbs) hn0
  have d1 := bit_length_spec _ _ (le_refl a.den)
  have d2 := bit_length_lower _ _ (le_refl a.den) hd0
  generalize bit_length a.num.natAbs a.num.natAbs = bn at n1 n2
  generalize bit_length a.den a.den = bd at d1 d2
  have hnq : (a.num.natAbs : ℚ) = a.num := by
    rw [Nat.cast_natAbs, abs_of_pos hnum]
  have ha : a = (a.num.natAbs : ℚ) / (a.den : ℚ) := by
    rw [hnq]
    exact (Rat.num_div_den a).symm
  have hdq : (0 : ℚ) < (a.den : ℚ) := by exact_mod_cast hd0
  have N1 : (a.num.natAbs : ℚ) < 2 ^ bn := by exact_mod_cast n1
  have N2 : (2 : ℚ) ^ bn ≤ 2 * (a.num.natAbs : ℚ) := by exact_mod_cast n2
  have D1 : (a.den : ℚ) < 2 ^ bd := by exact_mod_cast d1
  have D2 : (2 : ℚ) ^ bd ≤ 2 * (a.den : ℚ) := by exact_mod_cast d2
  have e1 : pow2 ((bn : Int) - bd - 1) * 2 ^ bd * 2 = 2 ^ bn := by
    rw [← pow2_nat bd, ← pow2_nat bn, ← pow2_add, mul_comm, ← pow2_succ]
    congr 1
    ring
  have e2 : pow2 ((bn : Int) - bd + 1) * 2 ^ bd = 2 * 2 ^ bn := by
    rw [← pow2_nat bd, ← pow2_nat bn, ← pow2_add, ← pow2_succ]
    congr 1
    ring
  have p1 := pow2_pos ((bn : Int) - bd - 1)
  have p2 := pow2_pos ((bn : Int) - bd + 1)
  constructor
  · rw [ha, lt_div_iff₀ hdq]
    have : pow2 ((bn : Int) - bd - 1) * (a.den : ℚ) < pow2 ((bn : Int) - bd - 1) * 2 ^ bd :=
      mul_lt_mul_of_pos_left D1 p1
    linarith
  · rw [ha, div_lt_iff₀ hdq]
    have : pow2 ((bn : Int) - bd + 1) * 2 ^ bd ≤ pow2 ((bn : Int) - bd + 1) * (2 * (a.den : ℚ)) :=
      mul_le_mul_of_nonneg_left D2 (le_of_lt p2)
    linarith

theorem exponent_spec (a : ℚ) :
    -126 ≤ exponent a ∧ exponent a ≤ 127 ∧
    (exponent a = -126 ∨ pow2 (exponent a) ≤ a) ∧
    (a < pow2 (exponent a + 1) ∨ exponent a = 127) := by
  unfold exponent
  by_cases h0 : a ≤ 0
  · rw [if_pos h0]
    refine ⟨le_refl _, by norm_num, Or.inl rfl, Or.inl ?_⟩
    exact lt_of_le_of_lt h0 (pow2_pos _)
  · rw [if_neg h0]
    simp only
    obtain ⟨b1, b2⟩ := bit_length_bounds (not_le.mp h0)
    generalize (bit_length a.num.natAbs a.num.natAbs : Int) - (bit_length a.den a.den : Int) = d
      at b1 b2
    have hlow : pow2 (if a < pow2 d then d - 1 else d) ≤ a := by
      split_ifs with h
      · exact le_of_lt b1
      · exact not_lt.mp h
    have hup : a < pow2 ((if a < pow2 d then d - 1 else d) + 1) := by
      split_ifs with h
      · rw [sub_add_cancel]
        exact h
      · exact b2
    generalize (if a < pow2 d then d - 1 else d) = e at hlow hup
    refine ⟨le_max_left _ _, max_le (by norm_num) (min_le_left _ _), ?_, ?_⟩
    · by_cases h1 : e < -126
      · left
        rw [max_eq_left (le_trans (min_le_right _ _) (le_of_lt h1))]
      · right
        have h2 : max (-126) (min 127 e) ≤ e := max_le (not_lt.mp h1) (min_le_right _ _)
        exact le_trans (pow2_mono h2) hlow
    · by_cases h1 : 127 < e
      · right
        rw [min_eq_left (le_of_lt h1)]
        rfl
      · left
        have h2 : e ≤ max (-126) (min 127 e) := by
          rw [min_eq_right (not_lt.mp h1)]
          exact le_max_right _ _
        exact lt_of_lt_of_le hup (pow2_mono (by omega))

/-- The exponent is determined by its specification. -/
theorem exponent_unique (a : ℚ) (e : Int) (h1 : -126 ≤ e) (h2 : e ≤ 127)
    (h3 : e = -126 ∨ pow2 e ≤ a) (h4 : a < pow2 (e + 1) ∨ e = 127) : exponent a = e := by
  obtain ⟨g1, g2, g3, g4⟩ := exponent_spec a
  by_contra hne
  rcases lt_or_gt_of_ne hne with hlt | hgt
  · -- exponent a < e
    have ha : pow2 e ≤ a := by
      rcases h3 with h3 | h3
      · omega
      · exact h3
    have hb : a < pow2 (exponent a + 1) := by
      rcases g4 with g4 | g4
      · exact g4
      · omega
    have : pow2 (exponent a + 1) ≤ pow2 e := pow2_mono (by omega)
    linarith
  · have ha : pow2 (exponent a) ≤ a := by
      rcases g3 with g3 | g3
      · omega
      · exact g3
    have hb : a < pow2 (e + 1) := by
      rcases h4 with h4 | h4
      · exact h4
      · omega
    have : pow2 (e + 1) ≤ pow2 (exponent a) := pow2_mono (by omega)
    linarith

theorem exponent_mono {a b : ℚ} (h : a ≤ b) : exponent a ≤ exponent b := by
  obtain ⟨g1, g2, g3, g4⟩ := exponent_spec a
  obtain ⟨k1, k2, k3, k4⟩ := exponent_spec b
  by_contra hne
  push_neg at hne
  have ha : pow2 (exponent a) ≤ a := by
    rcases g3 with g3 | g3
    · omega
    · exact g3
  have hb : b < pow2 (exponent b + 1) := by
    rcases k4 with k4 | k4
    · exact k4
    · omega
  have : pow2 (exponent b + 1) ≤ pow2 (exponent a) := pow2_mono (by omega)
  linarith

theorem ulp_pos (a : ℚ) : 0 < ulp a := pow2_pos _

theorem round_abs_nonneg {a : ℚ} (h : 0 ≤ a) : 0 ≤ round_abs a := by
  unfold round_abs
  have h1 : 0 ≤ a / ulp a := div_nonneg h (le_of_lt (ulp_pos a))
  have h2 := round_even_nonneg h1
  have h3 : (0 : ℚ) ≤ (round_even (a / ulp a) : ℚ) := by exact_mod_cast h2
  exact mul_nonneg h3 (le_of_lt (ulp_pos a))

theorem pow2_23 : pow2 23 = 8388608 := by
  unfold pow2
  rw [if_pos (by norm_num), show (23 : Int).toNat = 23 from rfl]
  norm_num

theorem pow2_split (e : Int) : pow2 e = 8388608 * pow2 (e - 23) := by
  have h : e = 23 + (e - 23) := by ring
  conv_lhs => rw [h, pow2_add, pow2_23]

theorem pow2_split_succ (e : Int) : pow2 (e + 1) = 16777216 * pow2 (e - 23) := by
  rw [pow2_succ, pow2_split e]
  ring

theorem round_abs_le_of_le (a : ℚ) (n : Int) (h : a ≤ n * ulp a) : round_abs a ≤ n * ulp a := by
  unfold round_abs
  have h1 : a / ulp a ≤ n := (div_le_iff₀ (ulp_pos a)).mpr h
  have h2 : ((round_even (a / ulp a) : Int) : ℚ) ≤ (n : ℚ) := by
    exact_mod_cast round_even_le_of_le_int h1
  exact mul_le_mul_of_nonneg_right h2 (le_of_lt (ulp_pos a))

theorem round_abs_ge_of_ge (a : ℚ) (n : Int) (h : n * ulp a ≤ a) : n * ulp a ≤ round_abs a := by
  unfold round_abs
  have h1 : (n : ℚ) ≤ a / ulp a := (le_div_iff₀ (ulp_pos a)).mpr h
  have h2 : (n : ℚ) ≤ ((round_even (a / ulp a) : Int) : ℚ) := by
    exact_mod_cast round_even_ge_of_int_le h1
  exact mul_le_mul_of_nonneg_right h2 (le_of_lt (ulp_pos a))

/-- A magnitude at or above the bottom of its binade rounds to a value of the binade. -/
theorem round_abs_ge_pow2 (a : ℚ) (h : pow2 (exponent a) ≤ a) :
    pow2 (exponent a) ≤ round_abs a := by
  have h1 := round_abs_ge_of_ge a 8388608 (by
    unfold ulp
    have := pow2_split (exponent a)
    push_cast
    linarith)
  unfold ulp at h1
  have := pow2_split (exponent a)
  push_cast at h1
  linarith

theorem round_abs_le_pow2_succ (a : ℚ) (h : a < pow2 (exponent a + 1)) :
    round_abs a ≤ pow2 (exponent a + 1) := by
  have h1 := round_abs_le_of_le a 16777216 (by
    unfold ulp
    have := pow2_split_succ (exponent a)
    push_cast
    linarith)
  unfold ulp at h1
  have := pow2_split_succ (exponent a)
  push_cast at h1
  linarith

/-- Rounding a magnitude is monotone. -/
theorem round_abs_mono {a b : ℚ} (h : a ≤ b) : round_abs a ≤ round_abs b := by
  have he := exponent_mono h
  obtain ⟨g1, g2, g3, g4⟩ := exponent_spec a
  obtain ⟨k1, k2, k3, k4⟩ := exponent_spec b
  rcases lt_or_eq_of_le he with hlt | heq
  · have ha : a < pow2 (exponent a + 1) := by
      rcases g4 with g4 | g4
      · exact g4
      · omega
    have hb : pow2 (exponent b) ≤ b := by
      rcases k3 with k3 | k3
      · omega
      · exact k3
    have h1 := round_abs_le_pow2_succ a ha
    have h2 := round_abs_ge_pow2 b hb
    have h3 : pow2 (exponent a + 1) ≤ pow2 (exponent b) := pow2_mono (by omega)
    linarith
  · unfold round_abs ulp
    rw [heq]
    have hu := pow2_pos (exponent b - 23)
    have h1 : a / pow2 (exponent b - 23) ≤ b / pow2 (exponent b - 23) :=
      div_le_div_of_nonneg_right h (le_of_lt hu)
    have h2 : ((round_even (a / pow2 (exponent b - 23)) : Int) : ℚ) ≤
        ((round_even (b / pow2 (exponent b - 23)) : Int) : ℚ) := by
      exact_mod_cast round_even_mono h1
    exact mul_le_mul_of_nonneg_right h2 (le_of_lt hu)

/-- An integer multiple of the unit of a binade, within the binade, rounds to itself. -/
theorem round_abs_grid (n e : Int) (h1 : -126 ≤ e) (h2 : e ≤ 127)
    (h3 : e = -126 ∨ 8388608 ≤ n) (h4 : n < 16777216 ∨ e = 127) :
    round_abs (n * pow2 (e - 23)) = n * pow2 (e - 23) := by
  have hu := pow2_pos (e - 23)
  have he : exponent (n * pow2 (e - 23)) = e := by
    apply exponent_unique _ _ h1 h2
    · rcases h3 with h3 | h3
      · exact Or.inl h3
      · right
        rw [pow2_split e]
        have : (8388608 : ℚ) ≤ n := by exact_mod_cast h3
        exact mul_le_mul_of_nonneg_right this (le_of_lt hu)
    · rcases h4 with h4 | h4
      · left
        rw [pow2_split_succ e]
        have : (n : ℚ) < 16777216 := by exact_mod_cast h4
        exact mul_lt_mul_of_pos_right this hu
      · exact Or.inr h4
  unfold round_abs ulp
  rw [he, mul_div_assoc, div_self (ne_of_gt hu), mul_one, round_even_int]

/-- Rounding a magnitude twice is rounding it once. -/
theorem round_abs_idem {a : ℚ} (h : 0 ≤ a) : round_abs (round_abs a) = round_abs a := by
  obtain ⟨g1, g2, g3, g4⟩ := exponent_spec a
  have hu := pow2_pos (exponent a - 23)
  have hn0 : 0 ≤ round_even (a / ulp a) := round_even_nonneg (div_nonneg h (le_of_lt (ulp_pos a)))
  have hlow : exponent a = -126 ∨ 8388608 ≤ round_even (a / ulp a) := by
    rcases g3 with g3 | g3
    · exact Or.inl g3
    · right
      apply round_even_ge_of_int_le
      rw [le_div_iff₀ (ulp_pos a)]
      unfold ulp
      have := pow2_split (exponent a)
      push_cast
      linarith
  by_cases hbig : round_even (a / ulp a) < 16777216 ∨ exponent a = 127
  · exact round_abs_grid _ _ g1 g2 hlow hbig
  · push_neg at hbig
    have ha : a < pow2 (exponent a + 1) := by
      rcases g4 with g4 | g4
      · exact g4
      · exact absurd g4 hbig.2
    have hle : round_even (a / ulp a) ≤ 16777216 := by
      apply round_even_le_of_le_int
      rw [div_le_iff₀ (ulp_pos a)]
      unfold ulp
      have := pow2_split_succ (exponent a)
      push_cast
      linarith
    have hn : round_even (a / ulp a) = 16777216 := le_antisymm hle hbig.1
    have hr : round_abs a = (8388608 : Int) * pow2 (exponent a + 1 - 23) := by
      unfold round_abs
      rw [hn]
      unfold ulp
      have h1 := pow2_split_succ (exponent a)
      have h2 := pow2_split (exponent a + 1)
      push_cast
      linarith
    rw [hr]
    have h127 : exponent a < 127 := lt_of_le_of_ne g2 hbig.2
    exact round_abs_grid _ _ (by omega) (by omega) (Or.inr (le_refl _)) (Or.inl (by norm_num))

/-! ### Rounding -/

theorem fl_cases (q : ℚ) :
    (pow2 128 ≤ round_abs |q| ∧ fl q = inf (decide (q < 0))) ∨
    (round_abs |q| < pow2 128 ∧ q < 0 ∧ fl q = fin (-round_abs |q|)) ∨
    (round_abs |q| < pow2 128 ∧ 0 ≤ q ∧ fl q = fin (round_abs |q|)) := by
  unfold fl
  by_cases h : pow2 128 ≤ round_abs |q|
  · rw [if_pos h]
    exact Or.inl ⟨h, rfl⟩
  · rw [if_neg h]
    by_cases hq : q < 0
    · rw [if_pos hq]
      exact Or.inr (Or.inl ⟨not_le.mp h, hq, rfl⟩)
    · rw [if_neg hq]
      exact Or.inr (Or.inr ⟨not_le.mp h, not_lt.mp hq, rfl⟩)

/-- A non-negative exact result rounds to a non-negative `float` or to `+inf`. -/
theorem fl_nonneg {q : ℚ} (h : 0 ≤ q) : fl q = inf false ∨ ∃ r : ℚ, 0 ≤ r ∧ fl q = fin r := by
  rcases fl_cases q with h1 | h1 | h1
  · left
    rw [h1.2, decide_eq_false (not_lt.mpr h)]
  · exact absurd h1.2.1 (not_lt.mpr h)
  · exact Or.inr ⟨_, round_abs_nonneg (abs_nonneg q), h1.2.2⟩

theorem fl_zero : fl 0 = fin 0 := by
  rcases fl_cases 0 with h1 | h1 | h1
  · have h2 : round_abs |(0 : ℚ)| = 0 := by
      rw [abs_zero]
      have := round_abs_grid 0 (-126) (by norm_num) (by norm_num) (Or.inl rfl)
        (Or.inl (by norm_num))
      simpa using this
    have h3 := h1.1
    rw [h2] at h3
    exact absurd (pow2_pos 128) (not_lt.mpr h3)
  · exact absurd h1.2.1 (lt_irrefl 0)
  · rw [h1.2.2, abs_zero]
    have := round_abs_grid 0 (-126) (by norm_num) (by norm_num) (Or.inl rfl)
      (Or.inl (by norm_num))
    have h2 : round_abs 0 = 0 := by simpa using this
    rw [h2]

/-- Rounding is monotone. -/
theorem fl_mono {p q : ℚ} (h : p ≤ q) : fle (fl p) (fl q) := by
  rcases fl_cases p with hp | hp | hp <;> rcases fl_cases q with hq | hq | hq
  · rw [hp.2, hq.2]
    unfold fle
    by_cases h0 : q < 0
    · left
      exact decide_eq_true (lt_of_le_of_lt h h0)
    · right
      exact decide_eq_false h0
  · rw [hp.2, hq.2.2, decide_eq_true (lt_of_le_of_lt h hq.2.1)]
    rfl
  · rw [hp.2, hq.2.2]
    unfold fle
    by_contra hne
    have hp0 : ¬ p < 0 := fun hh => hne (decide_eq_true hh)
    have h1 : round_abs |p| ≤ round_abs |q| := by
      apply round_abs_mono
      rw [abs_of_nonneg (not_lt.mp hp0), abs_of_nonneg hq.2.1]
      exact h
    linarith [hp.1, hq.1]
  · rw [hp.2.2, hq.2]
    unfold fle
    by_contra hne
    have hq0 : q < 0 := by
      by_contra hh
      exact hne (decide_eq_false hh)
    have h1 : round_abs |q| ≤ round_abs |p| := by
      apply round_abs_mono
      rw [abs_of_neg hq0, abs_of_neg hp.2.1]
      linarith
    linarith [hp.1, hq.1]
  · rw [hp.2.2, hq.2.2]
    have h1 : round_abs |q| ≤ round_abs |p| := by
      apply round_abs_mono
      rw [abs_of_neg hq.2.1, abs_of_neg hp.2.1]
      linarith
    show -round_abs |p| ≤ -round_abs |q|
    linarith
  · rw [hp.2.2, hq.2.2]
    show -round_abs |p| ≤ round_abs |q|
    linarith [round_abs_nonneg (abs_nonneg p), round_abs_nonneg (abs_nonneg q)]
  · rw [hp.2.2, hq.2, decide_eq_false (not_lt.mpr (le_trans hp.2.1 h))]
    rfl
  · exact absurd (lt_of_le_of_lt (le_trans hp.2.1 h) hq.2.1) (lt_irrefl 0)
  · rw [hp.2.2, hq.2.2]
    have h1 : round_abs |p| ≤ round_abs |q| := by
      apply round_abs_mono
      rw [abs_of_nonneg hp.2.1, abs_of_nonneg (le_trans hp.2.1 h)]
      exact h
    exact h1

/-- The result of a rounding is a `float`. -/
theorem fl_idem {q r : ℚ} (h : fl q = fin r) : is_f32 r := by
  unfold is_f32
  rcases fl_cases q with h1 | h1 | h1
  · rw [h1.2] at h
    exact F32.noConfusion h
  · rw [h1.2.2] at h
    have hr : r = -round_abs |q| := (F32.fin.inj h).symm
    have hpos := round_abs_nonneg (abs_nonneg q)
    have habs : |r| = round_abs |q| := by
      rw [hr, abs_neg, abs_of_nonneg hpos]
    unfold fl
    rw [habs, round_abs_idem (abs_nonneg q), if_neg (not_le.mpr h1.1)]
    by_cases hr0 : r < 0
    · rw [if_pos hr0, hr]
    · rw [if_neg hr0]
      have : round_abs |q| = 0 := by linarith [not_lt.mp hr0]
      rw [hr, this]
      norm_num
  · rw [h1.2.2] at h
    have hr : r = round_abs |q| := (F32.fin.inj h).symm
    have hpos := round_abs_nonneg (abs_nonneg q)
    have habs : |r| = round_abs |q| := by
      rw [hr, abs_of_nonneg hpos]
    unfold fl
    rw [habs, round_abs_idem (abs_nonneg q), if_neg (not_le.mpr h1.1),
      if_neg (not_lt.mpr (by rw [hr]; exact hpos)), hr]

/-! ## Exact operations -/

theorem fadd_exact (a b : ℚ) (h : is_f32 (a + b)) : fadd (fin a) (fin b) = fin (a + b) := h

theorem fsub_exact (a b : ℚ) (h : is_f32 (a - b)) : fsub (fin a) (fin b) = fin (a - b) := by
  unfold fsub fneg
  show fl (a + -b) = fin (a - b)
  rw [← sub_eq_add_neg]
  exact h

theorem fmul_exact (a b : ℚ) (h : is_f32 (a * b)) : fmul (fin a) (fin b) = fin (a * b) := h

theorem fdiv_exact (a b : ℚ) (hb : b ≠ 0) (h : is_f32 (a / b)) :
    fdiv (fin a) (fin b) = fin (a / b) := by
  unfold fdiv
  simp only [if_neg hb]
  exact h

theorem is_colliding_x_exact (A B : SpriteCollider.SPRITE) (t : ℚ) (h : exact_cross_x A B t) :
    is_colliding_x (sprite32 A) (sprite32 B) (fin t) ↔ SpriteCollider.is_colliding_x A B t := by
  obtain ⟨⟨a1, a2, a3⟩, b1, b2, b3⟩ := h
  unfold is_colliding_x SpriteCollider.is_colliding_x
  simp only [sprite32, vec32]
  rw [fmul_exact _ _ a1, fadd_exact _ _ a2, fadd_exact _ _ a3, fmul_exact _ _ b1,
    fadd_exact _ _ b2, fadd_exact _ _ b3]
  exact Iff.rfl

theorem is_colliding_y_exact (A B : SpriteCollider.SPRITE) (t : ℚ) (h : exact_cross_y A B t) :
    is_colliding_y (sprite32 A) (sprite32 B) (fin t) ↔ SpriteCollider.is_colliding_y A B t := by
  obtain ⟨⟨a1, a2, a3⟩, b1, b2, b3⟩ := h
  unfold is_colliding_y SpriteCollider.is_colliding_y
  simp only [sprite32, vec32]
  rw [fmul_exact _ _ a1, fadd_exact _ _ a2, fadd_exact _ _ a3, fmul_exact _ _ b1,
    fadd_exact _ _ b2, fadd_exact _ _ b3]
  exact Iff.rfl

theorem time32_coe (q : ℚ) : time32 (q : FTime) = fin q := rfl

theorem time32_top : time32 (⊤ : FTime) = FLT_MAX := rfl

theorem flt_time32 (q : ℚ) (hq : q < FLT_MAX_value) (t : FTime) :
    flt (fin q) (time32 t) ↔ (q : FTime) < t := by
  cases t using WithTop.recTopCoe with
  | top =>
    rw [time32_top]
    exact ⟨fun _ => WithTop.coe_lt_top q, fun _ => hq⟩
  | coe s =>
    rw [time32_coe]
    exact (WithTop.coe_lt_coe).symm

theorem time32_fin (t : FTime) : ∃ s : ℚ, time32 t = fin s := by
  cases t using WithTop.recTopCoe with
  | top => exact ⟨_, rfl⟩
  | coe s => exact ⟨s, rfl⟩

theorem not_accept_inf (n : Bool) (t : FTime) (P : Prop) :
    ¬ (fge (inf n) (fin 0) ∧ flt (inf n) (time32 t) ∧ P) := by
  obtain ⟨s, hs⟩ := time32_fin t
  rw [hs]
  intro h
  have h1 : n = false := h.1
  have h2 : n = true := h.2.1
  rw [h1] at h2
  exact Bool.noConfusion h2

theorem not_accept_nan (x : F32) (P : Prop) : ¬ (fge nan (fin 0) ∧ flt nan x ∧ P) :=
  fun h => h.1

/-- A directed case whose operations do not round takes the branch of exact arithmetic. -/
theorem directed_case_exact (c : SpriteCollider.COLLISION_VALUES)
    (guard : Prop) [Decidable guard] (guard32 : Prop) [Decidable guard32]
    (num den : ℚ) (num32 den32 : F32) (cross : ℚ → Prop) [DecidablePred cross]
    (cross32 : F32 → Prop) [DecidablePred cross32] (cross_exact : ℚ → Prop)
    (mode_a mode_b : Nat)
    (hguard : guard32 ↔ guard)
    (hnum : is_f32 num → num32 = fin num) (hden : is_f32 den → den32 = fin den)
    (hcross : ∀ t : ℚ, cross_exact t → (cross32 (fin t) ↔ cross t))
    (h : exact_case guard num den cross_exact) :
    directed_case (record32 c) guard32 num32 den32 cross32 mode_a mode_b =
      record32 (SpriteCollider.directed_case c guard num den cross mode_a mode_b) := by
  rw [SpriteCollider.directed_case_eq]
  unfold directed_case
  by_cases hg : guard
  · obtain ⟨h1, h2, h3⟩ := h hg
    rw [if_pos (hguard.mpr hg), hnum h1, hden h2]
    by_cases hd : den = 0
    · have hR : ¬ (guard ∧ den ≠ 0 ∧ 0 ≤ num / den ∧ ((num / den : ℚ) : FTime) < c.time ∧
          cross (num / den)) := fun hh => hh.2.1 hd
      have hL : ¬ (fge (fdiv (fin num) (fin den)) (fin 0) ∧
          flt (fdiv (fin num) (fin den)) (record32 c).time ∧
          cross32 (fdiv (fin num) (fin den))) := by
        rw [hd]
        unfold fdiv
        simp only [if_true]
        by_cases hn : num = 0
        · rw [if_pos hn]
          exact not_accept_nan _ _
        · rw [if_neg hn]
          exact not_accept_inf _ _ _
      rw [if_neg hL, if_neg hR]
    · obtain ⟨q1, q2, q3⟩ := h3 hd
      rw [fdiv_exact _ _ hd q1]
      by_cases hacc : 0 ≤ num / den ∧ ((num / den : ℚ) : FTime) < c.time ∧ cross (num / den)
      · have hR : guard ∧ den ≠ 0 ∧ 0 ≤ num / den ∧ ((num / den : ℚ) : FTime) < c.time ∧
            cross (num / den) := ⟨hg, hd, hacc⟩
        have hL : fge (fin (num / den)) (fin 0) ∧ flt (fin (num / den)) (record32 c).time ∧
            cross32 (fin (num / den)) :=
          ⟨hacc.1, (flt_time32 _ q2 _).mpr hacc.2.1, (hcross _ (q3 hacc.1)).mpr hacc.2.2⟩
        rw [if_pos hL, if_pos hR]
        rfl
      · have hR : ¬ (guard ∧ den ≠ 0 ∧ 0 ≤ num / den ∧ ((num / den : ℚ) : FTime) < c.time ∧
            cross (num / den)) := fun hh => hacc hh.2.2
        have hL : ¬ (fge (fin (num / den)) (fin 0) ∧
            flt (fin (num / den)) (record32 c).time ∧ cross32 (fin (num / den))) := by
          intro hh
          have h0 : 0 ≤ num / den := hh.1
          exact hacc ⟨h0, (flt_time32 _ q2 _).mp hh.2.1, (hcross _ (q3 h0)).mp hh.2.2⟩
        rw [if_neg hL, if_neg hR]
  · have hR : ¬ (guard ∧ den ≠ 0 ∧ 0 ≤ num / den ∧ ((num / den : ℚ) : FTime) < c.time ∧
        cross (num / den)) := fun hh => hg hh.1
    rw [if_neg (fun hh => hg (hguard.mp hh)), if_neg hR]

theorem is_colliding_x_heap32 (m : SpriteCollider.Heap) (a b : Ptr) (t : ℚ)
    (h : exact_cross_x (m a) (m b) t) :
    is_colliding_x (heap32 m a) (heap32 m b) (fin t) ↔
      SpriteCollider.is_colliding_x (m a) (m b) t :=
  is_colliding_x_exact (m a) (m b) t h

theorem is_colliding_y_heap32 (m : SpriteCollider.Heap) (a b : Ptr) (t : ℚ)
    (h : exact_cross_y (m a) (m b) t) :
    is_colliding_y (heap32 m a) (heap32 m b) (fin t) ↔
      SpriteCollider.is_colliding_y (m a) (m b) t :=
  is_colliding_y_exact (m a) (m b) t h

/-- When no operation of the call rounds, the binary32 solver returns the record of exact
arithmetic. -/
theorem intersection_time_exact (m : SpriteCollider.Heap) (a b : Ptr)
    (h : solver_exact m a b) :
    intersection_time (heap32 m) a b = record32 (SpriteCollider.intersection_time m a b) := by
  obtain ⟨⟨e1, e2, e3, e4⟩, c1, c2, c3, c4⟩ := h
  have f1 : fadd (heap32 m a).pos.x (heap32 m a).size.x = fin ((m a).pos.x + (m a).size.x) :=
    fadd_exact _ _ e1
  have f2 : fadd (heap32 m b).pos.x (heap32 m b).size.x = fin ((m b).pos.x + (m b).size.x) :=
    fadd_exact _ _ e2
  have f3 : fadd (heap32 m a).pos.y (heap32 m a).size.y = fin ((m a).pos.y + (m a).size.y) :=
    fadd_exact _ _ e3
  have f4 : fadd (heap32 m b).pos.y (heap32 m b).size.y = fin ((m b).pos.y + (m b).size.y) :=
    fadd_exact _ _ e4
  simp only [intersection_time, SpriteCollider.intersection_time]
  have h0 : (⟨NONE, NONE, FLT_MAX, a, b⟩ : COLLISION_VALUES) =
    record32 ⟨NONE, NONE, ⊤, a, b⟩ := rfl
  rw [h0]
  rw [directed_case_exact _ ((m a).vel.x > 0 ∧ (m a).pos.x + (m a).size.x < (m b).pos.x) _
    ((m b).pos.x - ((m a).pos.x + (m a).size.x)) ((m a).vel.x - (m b).vel.x) _ _
    (SpriteCollider.is_colliding_x (m a) (m b)) _ (exact_cross_x (m a) (m b)) RIGHT LEFT
    ?g1 ?n1 ?d1 (is_colliding_x_heap32 m a b) c1]
  rw [directed_case_exact _ ((m a).vel.x < 0 ∧ (m a).pos.x > (m b).pos.x + (m b).size.x) _
    ((m b).pos.x + (m b).size.x - (m a).pos.x) ((m a).vel.x - (m b).vel.x) _ _
    (SpriteCollider.is_colliding_x (m a) (m b)) _ (exact_cross_x (m a) (m b)) LEFT RIGHT
    ?g2 ?n2 ?d2 (is_colliding_x_heap32 m a b) c2]
  rw [directed_case_exact _ ((m a).vel.y > 0 ∧ (m a).pos.y + (m a).size.y < (m b).pos.y) _
    ((m b).pos.y - ((m a).pos.y + (m a).size.y)) ((m a).vel.y - (m b).vel.y) _ _
    (SpriteCollider.is_colliding_y (m a) (m b)) _ (exact_cross_y (m a) (m b)) TOP BOTTOM
    ?g3 ?n3 ?d3 (is_colliding_y_heap32 m a b) c3]
  rw [directed_case_exact _ ((m a).vel.y < 0 ∧ (m a).pos.y > (m b).pos.y + (m b).size.y) _
    ((m b).pos.y + (m b).size.y - (m a).pos.y) ((m a).vel.y - (m b).vel.y) _ _
    (SpriteCollider.is_colliding_y (m a) (m b)) _ (exact_cross_y (m a) (m b)) BOTTOM TOP
    ?g4 ?n4 ?d4 (is_colliding_y_heap32 m a b) c4]
  case g1 => rw [f1]; exact Iff.rfl
  case g2 => rw [f2]; exact Iff.rfl
  case g3 => rw [f3]; exact Iff.rfl
  case g4 => rw [f4]; exact Iff.rfl
  case n1 => rw [f1]; exact fsub_exact _ _
  case n2 => rw [f2]; exact fsub_exact _ _
  case n3 => rw [f3]; exact fsub_exact _ _
  case n4 => rw [f4]; exact fsub_exact _ _
  case d1 => exact fsub_exact _ _
  case d2 => exact fsub_exact _ _
  case d3 => exact fsub_exact _ _
  case d4 => exact fsub_exact _ _

/-! ## The binary32 solver -/

theorem flt_asymm {x y : F32} (h : flt x y) : ¬ flt y x := by
  cases x <;> cases y <;> simp only [flt] at h ⊢
  · exact not_lt.mpr (le_of_lt h)
  · rw [h]; exact Bool.noConfusion
  · rw [h]; exact Bool.noConfusion
  · intro h2; rw [h.1] at h2; exact Bool.noConfusion h2.2

/-- The difference `x - y` of `float`s with `y < x` is non-negative (or `+inf`). -/
theorem fsub_nonneg {x y : F32} (h : flt y x) : fge (fsub x y) (fin 0) := by
  cases x <;> cases y <;> simp only [flt] at h
  · rename_i a b
    show fle (fin 0) (fl (a + -b))
    rcases fl_nonneg (show 0 ≤ a + -b by linarith) with h1 | ⟨r, hr, h1⟩ <;> rw [h1]
    · rfl
    · exact hr
  · rw [h]; rfl
  · rw [h]; rfl
  · rw [h.1, h.2]; rfl

/-- The quotient of two non-negative `float`s is non-negative, `+inf` or NaN. -/
theorem fdiv_nonneg {x y : F32} (hx : fge x (fin 0)) (hy : fge y (fin 0)) :
    fdiv x y = nan ∨ fge (fdiv x y) (fin 0) := by
  cases x <;> cases y <;> simp only [fge, fle] at hx hy
  · rename_i a b
    unfold fdiv
    by_cases hb : b = 0
    · simp only [if_pos hb]
      by_cases ha : a = 0
      · rw [if_pos ha]; exact Or.inl rfl
      · rw [if_neg ha, decide_eq_false (not_lt.mpr hx)]
        exact Or.inr rfl
    · simp only [if_neg hb]
      right
      rcases fl_nonneg (div_nonneg hx hy) with h1 | ⟨r, hr, h1⟩ <;> rw [h1]
      · rfl
      · exact hr
  · right
    exact le_refl (0 : ℚ)
  · rename_i n b
    right
    rw [hx]
    show fge (inf (xor false (decide (b < 0)))) (fin 0)
    rw [decide_eq_false (not_lt.mpr hy)]
    rfl
  · exact Or.inl rfl

theorem fadd_zero_valid {x : F32} (h : valid x) : fadd x (fin 0) = x := by
  cases x with
  | fin a =>
    show fl (a + 0) = fin a
    rw [add_zero]
    exact h
  | inf n => rfl
  | nan => rfl

theorem fmul_zero_fin (t : ℚ) : fmul (fin 0) (fin t) = fin 0 := by
  show fl (0 * t) = fin 0
  rw [zero_mul, fl_zero]

theorem fin_of_bounds {t : F32} (h0 : fge t (fin 0)) (h1 : flt t FLT_MAX) :
    ∃ q : ℚ, t = fin q := by
  cases t with
  | fin q => exact ⟨q, rfl⟩
  | inf n =>
    have h2 : n = false := h0
    have h3 : n = true := h1
    rw [h2] at h3
    exact Bool.noConfusion h3
  | nan => exact h0.elim

section solver32

variable (c : COLLISION_VALUES) (guard : Prop) [Decidable guard] (num den : F32)
  (cross : F32 → Prop) [DecidablePred cross] (mode_a mode_b : Nat)

theorem directed_case_skip (hg : ¬ guard) :
    directed_case c guard num den cross mode_a mode_b = c := by
  unfold directed_case
  rw [if_neg hg]

theorem directed_case_take (hg : guard) (h0 : fge (fdiv num den) (fin 0))
    (h1 : flt (fdiv num den) c.time) (hc : cross (fdiv num den)) :
    directed_case c guard num den cross mode_a mode_b =
      { c with time := fdiv num den, mode_a := mode_a, mode_b := mode_b } := by
  unfold directed_case
  rw [if_pos hg, if_pos ⟨h0, h1, hc⟩]

theorem directed_case_ind (P : COLLISION_VALUES → Prop) (hc : P c)
    (hnew : guard → fge (fdiv num den) (fin 0) → flt (fdiv num den) c.time →
      cross (fdiv num den) →
      P { c with time := fdiv num den, mode_a := mode_a, mode_b := mode_b }) :
    P (directed_case c guard num den cross mode_a mode_b) := by
  unfold directed_case
  split_ifs with h1 h2
  · exact hnew h1 h2.1 h2.2.1 h2.2.2
  · exact hc
  · exact hc

end solver32

/-! ### Single-axis approach (C1) -/

/-- C1, as stated, fails in binary32. On `heap_edge` both velocities lie along x, the
y-intervals strictly overlap, A is left of B by the gap 2^-23 and the closing speed is 1,
yet `intersection_time(A, B)` returns the sentinel: the sum `right_a = pos + size`
rounds up to 3, the left edge of B, so the guard `right_a < left_b` fails. On
`heap_b_moves` the gap is 2 and the closing speed 1, and the call returns the sentinel
because A itself does not move to the right. -/
theorem solver_single_axis_counterexample :
    (((heap_edge 0).vel.y = 0 ∧ (heap_edge 1).vel.y = 0) ∧
      ((heap_edge 0).pos.y < (heap_edge 1).pos.y + (heap_edge 1).size.y ∧
        (heap_edge 1).pos.y < (heap_edge 0).pos.y + (heap_edge 0).size.y) ∧
      (heap_edge 1).pos.x - ((heap_edge 0).pos.x + (heap_edge 0).size.x) = 1 / 8388608 ∧
      (heap_edge 0).vel.x - (heap_edge 1).vel.x = 1 ∧
      right_edge (heap32 heap_edge 0) = fin 3 ∧
      intersection_time (heap32 heap_edge) 0 1 = ⟨NONE, NONE, FLT_MAX, 0, 1⟩) ∧
    (((heap_b_moves 0).vel.y = 0 ∧ (heap_b_moves 1).vel.y = 0) ∧
      ((heap_b_moves 0).pos.y < (heap_b_moves 1).pos.y + (heap_b_moves 1).size.y ∧
        (heap_b_moves 1).pos.y < (heap_b_moves 0).pos.y + (heap_b_moves 0).size.y) ∧
      (heap_b_moves 1).pos.x - ((heap_b_moves 0).pos.x + (heap_b_moves 0).size.x) = 2 ∧
      (heap_b_moves 0).vel.x - (heap_b_moves 1).vel.x = 1 ∧
      intersection_time (heap32 heap_b_moves) 0 1 = ⟨NONE, NONE, FLT_MAX, 0, 1⟩) := by
  decide!

/-- C1 (amended), for every pair of `float` sprites: when both velocities have no y
component, A itself moves to the right (`a_vel_x > 0`) and faster than B, the rounded
right edge of A is left of the left edge of B, the y-intervals with their rounded tops
strictly overlap, and the rounded quotient `t = (left_b - right_a) / (a_vel_x - b_vel_x)`
of the rounded gap by the rounded closing speed is below `FLT_MAX`, then
`intersection_time(A, B)` returns the time `t` with face RIGHT for A and LEFT for B. -/
theorem solver_single_axis (m : Heap) (a b : Ptr)
    (hay : (m a).vel.y = fin 0) (hby : (m b).vel.y = fin 0)
    (hpa : valid (m a).pos.y) (hpb : valid (m b).pos.y)
    (hy : flt (m a).pos.y (top_edge (m b)) ∧ flt (m b).pos.y (top_edge (m a)))
    (hgap : flt (right_edge (m a)) (m b).pos.x)
    (hs : flt (m b).vel.x (m a).vel.x) (hva : fgt (m a).vel.x (fin 0))
    (ht : flt (closing_time (m a) (m b)) FLT_MAX) :
    intersection_time m a b = ⟨RIGHT, LEFT, closing_time (m a) (m b), a, b⟩ := by
  have h0 : fge (closing_time (m a) (m b)) (fin 0) := by
    rcases fdiv_nonneg (fsub_nonneg hgap) (fsub_nonneg hs) with h | h
    · unfold closing_time at ht
      rw [h] at ht
      exact ht.elim
    · exact h
  obtain ⟨q, hq⟩ := fin_of_bounds h0 ht
  have hc : is_colliding_x (m a) (m b) (closing_time (m a) (m b)) := by
    unfold is_colliding_x
    simp only [hay, hby, hq, fmul_zero_fin, fadd_zero_valid hpa, fadd_zero_valid hpb]
    exact ⟨⟨hy.2, hy.1⟩, hy.1, hy.2⟩
  simp only [closing_time, right_edge] at ht h0 hc hgap ⊢
  simp only [intersection_time]
  rw [directed_case_skip _ _ _ _ _ _ _ (fun h => by
    have h1 := h.1
    rw [hay] at h1
    exact lt_irrefl (0 : ℚ) h1)]
  rw [directed_case_skip _ _ _ _ _ _ _ (fun h => by
    have h1 := h.1
    rw [hay] at h1
    exact lt_irrefl (0 : ℚ) h1)]
  rw [directed_case_skip _ _ _ _ _ _ _ (fun h => flt_asymm hva h.1)]
  rw [directed_case_take _ _ _ _ _ _ _ ⟨hva, hgap⟩ h0 ht hc]

/-- Witness of C1, the scenario of the claim: A at x = 0, size 1, velocity 1 and B at
x = 3 at rest give time 2 = g / s with faces RIGHT and LEFT. -/
theorem solver_single_axis_witness :
    closing_time (heap32 heap_scenario 0) (heap32 heap_scenario 1) =
      fin ((3 - (0 + 1)) / (1 - 0)) ∧
    intersection_time (heap32 heap_scenario) 0 1 =
      ⟨RIGHT, LEFT, closing_time (heap32 heap_scenario 0) (heap32 heap_scenario 1), 0, 1⟩ :=
  ⟨by decide!,
    solver_single_axis (heap32 heap_scenario) 0 1 (by decide!) (by decide!) (by decide!)
      (by decide!) (by decide!) (by decide!) (by decide!) (by decide!) (by decide!)⟩

/-! ### The solver when no operation rounds (C2, C3, C18, C19) -/

theorem below_max_new (c : SpriteCollider.COLLISION_VALUES) (mode_a mode_b : Nat) (q : ℚ)
    (h : q < FLT_MAX_value) :
    below_max { c with time := (q : FTime), mode_a := mode_a, mode_b := mode_b } := by
  intro t ht
  have : q = t := WithTop.coe_injective ht
  rw [← this]
  exact h

theorem intersection_time_below_max (m : SpriteCollider.Heap) (a b : Ptr)
    (h : solver_exact m a b) : below_max (SpriteCollider.intersection_time m a b) := by
  obtain ⟨_, c1, c2, c3, c4⟩ := h
  simp only [SpriteCollider.intersection_time]
  apply SpriteCollider.directed_case_induct
  · apply SpriteCollider.directed_case_induct
    · apply SpriteCollider.directed_case_induct
      · apply SpriteCollider.directed_case_induct
        · intro t ht
          exact absurd ht (WithTop.top_ne_coe)
        · intro hg hden _ _ _
          exact below_max_new _ _ _ _ ((c1 hg).2.2 hden).2.1
      · intro hg hden _ _ _
        exact below_max_new _ _ _ _ ((c2 hg).2.2 hden).2.1
    · intro hg hden _ _ _
      exact below_max_new _ _ _ _ ((c3 hg).2.2 hden).2.1
  · intro hg hden _ _ _
    exact below_max_new _ _ _ _ ((c4 hg).2.2 hden).2.1

/-- In a call whose operations do not round, a binary32 time other than the sentinel is
the time of the exact solver. -/
theorem time_of_exact (m : SpriteCollider.Heap) (a b : Ptr) (h : solver_exact m a b)
    (hne : (intersection_time (heap32 m) a b).time ≠ FLT_MAX) :
    ∃ t : ℚ, (SpriteCollider.intersection_time m a b).time = (t : FTime) ∧
      (intersection_time (heap32 m) a b).time = fin t := by
  rw [intersection_time_exact m a b h] at hne ⊢
  cases ht : (SpriteCollider.intersection_time m a b).time using WithTop.recTopCoe with
  | top =>
    exfalso
    apply hne
    show time32 (SpriteCollider.intersection_time m a b).time = FLT_MAX
    rw [ht]
    rfl
  | coe t =>
    refine ⟨t, rfl, ?_⟩
    show time32 (SpriteCollider.intersection_time m a b).time = fin t
    rw [ht]
    rfl

/-- In a call whose operations do not round, a time that the exact solver reports is
reported in binary32, and it is not the sentinel. -/
theorem time_to_exact (m : SpriteCollider.Heap) (a b : Ptr) (h : solver_exact m a b) (t : ℚ)
    (ht : (SpriteCollider.intersection_time m a b).time = (t : FTime)) :
    (intersection_time (heap32 m) a b).time = fin t ∧
      (intersection_time (heap32 m) a b).time ≠ FLT_MAX := by
  have h1 : (intersection_time (heap32 m) a b).time = fin t := by
    rw [intersection_time_exact m a b h]
    show time32 (SpriteCollider.intersection_time m a b).time = fin t
    rw [ht]
    rfl
  refine ⟨h1, ?_⟩
  rw [h1]
  intro heq
  have h2 : t = FLT_MAX_value := F32.fin.inj heq
  exact absurd h2 (ne_of_lt (intersection_time_below_max m a b h t ht))

/-- C2, as stated, fails in binary32. On `heap_tiny_gap` the extents are non-negative and
the pair separates (B is faster than A), yet `intersection_time(A, B)` reports the time 0
with faces RIGHT and LEFT: the negative quotient of the gap 2^-149 by the relative
velocity -3 rounds to zero, which passes `time >= 0`. At time 0 the two faces do not
coincide: they are 2^-149 apart. -/
theorem solver_first_touch_counterexample :
    (0 ≤ (heap_tiny_gap 0).size.x ∧ 0 ≤ (heap_tiny_gap 0).size.y ∧
      0 ≤ (heap_tiny_gap 1).size.x ∧ 0 ≤ (heap_tiny_gap 1).size.y) ∧
    (heap_tiny_gap 0).vel.x - (heap_tiny_gap 1).vel.x = -3 ∧
    intersection_time (heap32 heap_tiny_gap) 0 1 = ⟨RIGHT, LEFT, fin 0, 0, 1⟩ ∧
    fin 0 ≠ FLT_MAX ∧
    right_at (heap_tiny_gap 0) 0 ≠ left_at (heap_tiny_gap 1) 0 ∧
    ¬ faces_touch (heap_tiny_gap 0) (heap_tiny_gap 1) RIGHT LEFT 0 := by
  refine ⟨by decide!, by decide!, by decide!, by decide!, by decide!, ?_⟩
  unfold faces_touch
  decide!

/-- C2 (amended): when no operation of the call `intersection_time(A, B)` rounds, a
time `t` other than the sentinel that the call returns is a first-touch time: `0 ≤ t`,
the two reported faces coincide on the hit axis at `t`, the boxes strictly overlap on the
orthogonal axis at `t`, and at no earlier time in `[0, t)` do the two translated boxes
strictly overlap on both x and y. -/
theorem solver_first_touch (m : SpriteCollider.Heap) (a b : Ptr) (t : ℚ)
    (hexact : solver_exact m a b)
    (ht : (intersection_time (heap32 m) a b).time = fin t)
    (hne : (intersection_time (heap32 m) a b).time ≠ FLT_MAX) :
    0 ≤ t ∧
    faces_touch (m a) (m b) (intersection_time (heap32 m) a b).mode_a
      (intersection_time (heap32 m) a b).mode_b t ∧
    ∀ u : ℚ, 0 ≤ u → u < t →
      ¬ (SpriteCollider.is_colliding_x (m a) (m b) u ∧
        SpriteCollider.is_colliding_y (m a) (m b) u) := by
  obtain ⟨s, hs, hs32⟩ := time_of_exact m a b hexact hne
  have hst : s = t := F32.fin.inj (hs32.symm.trans ht)
  rw [hst] at hs
  have h := intersection_time_touch_inv m a b t hs
  rw [intersection_time_exact m a b hexact]
  exact h

/-- Witness of C2, the scenario of the spec: no operation of the call rounds and the
reported time 2 is a first touch. -/
theorem solver_first_touch_witness :
    solver_exact heap_scenario 0 1 ∧
    (intersection_time (heap32 heap_scenario) 0 1).time = fin 2 ∧
    (0 ≤ (2 : ℚ) ∧
    faces_touch (heap_scenario 0) (heap_scenario 1)
      (intersection_time (heap32 heap_scenario) 0 1).mode_a
      (intersection_time (heap32 heap_scenario) 0 1).mode_b 2 ∧
    ∀ u : ℚ, 0 ≤ u → u < 2 →
      ¬ (SpriteCollider.is_colliding_x (heap_scenario 0) (heap_scenario 1) u ∧
        SpriteCollider.is_colliding_y (heap_scenario 0) (heap_scenario 1) u)) :=
  ⟨by decide!, by decide!,
    solver_first_touch heap_scenario 0 1 2 (by decide!) (by decide!) (by decide!)⟩

/-- C18, as stated, fails in binary32. On `heap_edge_x` the extents are non-negative, A
is left of B by the gap g = 2^-24, the closing speed is s = 1 and the y-intervals strictly
overlap at g / s, yet both directed calls return the sentinel: the rounded right edge of
A is the left edge of B, so the guard of the call (A, B) fails, and B does not move. The
same happens on the y axis on `heap_edge_y`. -/
theorem solver_either_call_counterexample :
    ((heap_edge_x 1).pos.x - ((heap_edge_x 0).pos.x + (heap_edge_x 0).size.x) = 1 / 16777216 ∧
      (heap_edge_x 0).vel.x - (heap_edge_x 1).vel.x = 1 ∧
      SpriteCollider.is_colliding_x (heap_edge_x 0) (heap_edge_x 1) (1 / 16777216 / 1) ∧
      intersection_time (heap32 heap_edge_x) 0 1 = ⟨NONE, NONE, FLT_MAX, 0, 1⟩ ∧
      intersection_time (heap32 heap_edge_x) 1 0 = ⟨NONE, NONE, FLT_MAX, 1, 0⟩) ∧
    ((heap_edge_y 1).pos.y - ((heap_edge_y 0).pos.y + (heap_edge_y 0).size.y) = 1 / 16777216 ∧
      (heap_edge_y 0).vel.y - (heap_edge_y 1).vel.y = 1 ∧
      SpriteCollider.is_colliding_y (heap_edge_y 0) (heap_edge_y 1) (1 / 16777216 / 1) ∧
      intersection_time (heap32 heap_edge_y) 0 1 = ⟨NONE, NONE, FLT_MAX, 0, 1⟩ ∧
      intersection_time (heap32 heap_edge_y) 1 0 = ⟨NONE, NONE, FLT_MAX, 1, 0⟩) := by
  decide!

/-- C18 (amended): let no operation of the two directed calls round, let A's right edge be
left of B's left edge by `g > 0`, let the closing speed `s = A.vel.x - B.vel.x` be
positive and let the y-intervals strictly overlap at time `g / s`. Then
`intersection_time(A, B)` returns time `g / s` with faces RIGHT, LEFT, or
`intersection_time(B, A)` returns time `g / s` with faces LEFT (of B), RIGHT (of A):
whichever of the two sprites moves towards the other reports the contact. The same holds
on the y axis with TOP of A and BOTTOM of B. It holds for all extents. -/
theorem solver_either_call (m : SpriteCollider.Heap) (a b : Ptr)
    (hab : solver_exact m a b) (hba : solver_exact m b a) :
    ((m a).pos.x + (m a).size.x < (m b).pos.x → (m a).vel.x - (m b).vel.x > 0 →
      SpriteCollider.is_colliding_x (m a) (m b)
        (((m b).pos.x - ((m a).pos.x + (m a).size.x)) / ((m a).vel.x - (m b).vel.x)) →
      intersection_time (heap32 m) a b =
          ⟨RIGHT, LEFT, fin (((m b).pos.x - ((m a).pos.x + (m a).size.x)) /
            ((m a).vel.x - (m b).vel.x)), a, b⟩ ∨
        intersection_time (heap32 m) b a =
          ⟨LEFT, RIGHT, fin (((m b).pos.x - ((m a).pos.x + (m a).size.x)) /
            ((m a).vel.x - (m b).vel.x)), b, a⟩) ∧
    ((m a).pos.y + (m a).size.y < (m b).pos.y → (m a).vel.y - (m b).vel.y > 0 →
      SpriteCollider.is_colliding_y (m a) (m b)
        (((m b).pos.y - ((m a).pos.y + (m a).size.y)) / ((m a).vel.y - (m b).vel.y)) →
      intersection_time (heap32 m) a b =
          ⟨TOP, BOTTOM, fin (((m b).pos.y - ((m a).pos.y + (m a).size.y)) /
            ((m a).vel.y - (m b).vel.y)), a, b⟩ ∨
        intersection_time (heap32 m) b a =
          ⟨BOTTOM, TOP, fin (((m b).pos.y - ((m a).pos.y + (m a).size.y)) /
            ((m a).vel.y - (m b).vel.y)), b, a⟩) := by
  rw [intersection_time_exact m a b hab, intersection_time_exact m b a hba]
  constructor
  · intro hgap hs hy
    rcases (intersection_time_either_call m a b).1 hgap hs hy with h | h
    · left
      rw [h]
      rfl
    · right
      rw [h]
      rfl
  · intro hgap hs hx
    rcases (intersection_time_either_call m a b).2 hgap hs hx with h | h
    · left
      rw [h]
      rfl
    · right
      rw [h]
      rfl

/-- Witness of C18: on `heap_b_moves` only B moves (towards A, along x): no operation of
the two calls rounds, and a directed call reports the contact at time 2. -/
theorem solver_either_call_witness :
    (solver_exact heap_b_moves 0 1 ∧ solver_exact heap_b_moves 1 0) ∧
    (intersection_time (heap32 heap_b_moves) 0 1 =
        ⟨RIGHT, LEFT, fin (((heap_b_moves 1).pos.x -
          ((heap_b_moves 0).pos.x + (heap_b_moves 0).size.x)) /
          ((heap_b_moves 0).vel.x - (heap_b_moves 1).vel.x)), 0, 1⟩ ∨
      intersection_time (heap32 heap_b_moves) 1 0 =
        ⟨LEFT, RIGHT, fin (((heap_b_moves 1).pos.x -
          ((heap_b_moves 0).pos.x + (heap_b_moves 0).size.x)) /
          ((heap_b_moves 0).vel.x - (heap_b_moves 1).vel.x)), 1, 0⟩) :=
  ⟨⟨by decide!, by decide!⟩,
    (solver_either_call heap_b_moves 0 1 (by decide!) (by decide!)).1 (by decide!) (by decide!)
      (by decide!)⟩

/-! ### The two directed calls agree (C19) -/

/-- C19, as stated, fails in binary32. On `heap_corners` the extents are non-negative
and both directed calls report a collision, but `intersection_time(A, B)` reports the
faces RIGHT, LEFT at time 3.75 and `intersection_time(B, A)` reports the faces BOTTOM,
TOP at the next `float` above 3.75: neither the times nor the axes agree. The rounding
of the overlap tests lets both cases pass where the boxes meet corner to corner. -/
theorem solver_consistent_counterexample :
    (0 ≤ (heap_corners 0).size.x ∧ 0 ≤ (heap_corners 0).size.y ∧
      0 ≤ (heap_corners 1).size.x ∧ 0 ≤ (heap_corners 1).size.y) ∧
    intersection_time (heap32 heap_corners) 0 1 = ⟨RIGHT, LEFT, fin (15 / 4), 0, 1⟩ ∧
    intersection_time (heap32 heap_corners) 1 0 =
      ⟨BOTTOM, TOP, fin (15 / 4 + 1 / 4194304), 1, 0⟩ ∧
    (intersection_time (heap32 heap_corners) 0 1).time ≠ FLT_MAX ∧
    (intersection_time (heap32 heap_corners) 1 0).time ≠ FLT_MAX ∧
    (intersection_time (heap32 heap_corners) 0 1).time ≠
      (intersection_time (heap32 heap_corners) 1 0).time ∧
    (intersection_time (heap32 heap_corners) 0 1).mode_a ≠
      (intersection_time (heap32 heap_corners) 1 0).mode_b := by
  decide!

/-- C19 (amended): for every pair A, B with non-negative extents for which no operation
of the two directed calls rounds, if both `intersection_time(A, B)` and
`intersection_time(B, A)` report a collision (a time that is not the sentinel), they
report the same time and mirrored faces: `mode_a` of each is `mode_b` of the other, and
both records lie on the same axis. -/
theorem solver_consistent (m : SpriteCollider.Heap) (a b : Ptr)
    (hab : solver_exact m a b) (hba : solver_exact m b a)
    (hax : 0 ≤ (m a).size.x) (hay : 0 ≤ (m a).size.y)
    (hbx : 0 ≤ (m b).size.x) (hby : 0 ≤ (m b).size.y)
    (h1 : (intersection_time (heap32 m) a b).time ≠ FLT_MAX)
    (h2 : (intersection_time (heap32 m) b a).time ≠ FLT_MAX) :
    (intersection_time (heap32 m) a b).time = (intersection_time (heap32 m) b a).time ∧
    (intersection_time (heap32 m) a b).mode_a = (intersection_time (heap32 m) b a).mode_b ∧
    (intersection_time (heap32 m) a b).mode_b = (intersection_time (heap32 m) b a).mode_a ∧
    ((on_x_axis (intersection_time (heap32 m) a b).mode_a ∧
        on_x_axis (intersection_time (heap32 m) b a).mode_a) ∨
      (on_y_axis (intersection_time (heap32 m) a b).mode_a ∧
        on_y_axis (intersection_time (heap32 m) b a).mode_a)) := by
  obtain ⟨t1, e1, f1⟩ := time_of_exact m a b hab h1
  obtain ⟨t2, e2, f2⟩ := time_of_exact m b a hba h2
  have h := intersection_time_consistent m a b hax hay hbx hby
    (by rw [e1]; exact WithTop.coe_ne_top) (by rw [e2]; exact WithTop.coe_ne_top)
  have ht : t1 = t2 := by
    have := h.1
    rw [e1, e2] at this
    exact WithTop.coe_injective this
  rw [f1, f2, ht]
  rw [intersection_time_exact m a b hab, intersection_time_exact m b a hba]
  exact ⟨rfl, h.2.1, h.2.2.1, h.2.2.2⟩

/-- Witness of C19: the head-on pair of `heap_head_on`: no operation of the two calls
rounds, and both report time 1, with faces RIGHT, LEFT and LEFT, RIGHT. -/
theorem solver_consistent_witness :
    (solver_exact heap_head_on 0 1 ∧ solver_exact heap_head_on 1 0) ∧
    (intersection_time (heap32 heap_head_on) 0 1).time = fin 1 ∧
    ((intersection_time (heap32 heap_head_on) 0 1).time =
      (intersection_time (heap32 heap_head_on) 1 0).time ∧
    (intersection_time (heap32 heap_head_on) 0 1).mode_a =
      (intersection_time (heap32 heap_head_on) 1 0).mode_b ∧
    (intersection_time (heap32 heap_head_on) 0 1).mode_b =
      (intersection_time (heap32 heap_head_on) 1 0).mode_a ∧
    ((on_x_axis (intersection_time (heap32 heap_head_on) 0 1).mode_a ∧
        on_x_axis (intersection_time (heap32 heap_head_on) 1 0).mode_a) ∨
      (on_y_axis (intersection_time (heap32 heap_head_on) 0 1).mode_a ∧
        on_y_axis (intersection_time (heap32 heap_head_on) 1 0).mode_a))) :=
  ⟨⟨by decide!, by decide!⟩, by decide!,
    solver_consistent heap_head_on 0 1 (by decide!) (by decide!) (by decide!) (by decide!)
      (by decide!) (by decide!) (by decide!) (by decide!)⟩

/-! ## The binary32 stepper -/

theorem valid_fl (q : ℚ) : valid (fl q) := by
  cases h : fl q with
  | fin r => exact fl_idem h
  | inf n => trivial
  | nan => trivial

theorem valid_zero : valid (fin 0) := fl_zero

theorem valid_fadd (x y : F32) : valid (fadd x y) := by
  cases x with
  | fin a =>
    cases y with
    | fin b => exact valid_fl _
    | inf n => exact True.intro
    | nan => exact True.intro
  | inf n =>
    cases y with
    | fin b => exact True.intro
    | inf n2 =>
      show valid (if n = n2 then inf n else nan)
      split_ifs <;> exact True.intro
    | nan => exact True.intro
  | nan => cases y <;> exact True.intro

theorem valid_fdiv (x y : F32) : valid (fdiv x y) := by
  cases x with
  | fin a =>
    cases y with
    | fin b =>
      show valid (if b = 0 then (if a = 0 then nan else inf (decide (a < 0))) else fl (a / b))
      split_ifs
      · exact True.intro
      · exact True.intro
      · exact valid_fl _
    | inf n => exact valid_zero
    | nan => exact True.intro
  | inf n => cases y <;> exact True.intro
  | nan => cases y <;> exact True.intro

theorem flt_irrefl (x : F32) : ¬ flt x x := fun h => flt_asymm h h

theorem fle_of_flt {x y : F32} (h : flt x y) : fle x y := by
  cases x <;> cases y <;> simp only [flt, fle] at h ⊢
  · exact le_of_lt h
  · exact h
  · exact h
  · exact Or.inl h.1

theorem fle_trans {x y z : F32} (h1 : fle x y) (h2 : fle y z) : fle x z := by
  cases x <;> cases y <;> cases z <;> simp only [fle] at h1 h2 ⊢ <;>
    first
    | exact le_trans h1 h2
    | exact h1.elim
    | exact h2.elim
    | (subst_vars; simp_all)
    | (rename_i n1 n2 n3
       revert h1 h2
       cases n1 <;> cases n2 <;> cases n3 <;> simp)

theorem not_fle_of_flt {x y : F32} (h : flt x y) : ¬ fle y x := by
  cases x <;> cases y <;> simp only [flt, fle] at h ⊢
  · exact not_le.mpr h
  · rw [h]; exact Bool.noConfusion
  · rw [h]; exact Bool.noConfusion
  · rw [h.1, h.2]
    simp

theorem eq_of_fle_not_flt {x y : F32} (h1 : fle x y) (h2 : ¬ flt x y) : x = y := by
  cases x <;> cases y <;> simp only [flt, fle] at h1 h2
  · rw [le_antisymm h1 (not_lt.mp h2)]
  · exact absurd h1 h2
  · exact absurd h1 h2
  · rename_i n1 n2
    cases n1 <;> cases n2 <;> simp at h1 h2 ⊢

theorem fle_refl_of_flt {x y : F32} (h : flt x y) : fle y y := by
  cases x <;> cases y <;> simp only [flt, fle] at h ⊢
  · exact le_refl _
  · exact Or.inr h
  · exact le_refl _
  · exact Or.inr h.2

theorem fsub_zero_valid {x : F32} (h : valid x) : fsub x (fin 0) = x := by
  show fadd x (fin (-0)) = x
  rw [neg_zero]
  exact fadd_zero_valid h

/-- The record time of every solver call is a `float`. -/
theorem intersection_time_valid (m : Heap) (a b : Ptr) :
    valid (intersection_time m a b).time := by
  simp only [intersection_time]
  apply directed_case_ind _ _ _ _ _ _ _ (fun c => valid c.time)
  · apply directed_case_ind _ _ _ _ _ _ _ (fun c => valid c.time)
    · apply directed_case_ind _ _ _ _ _ _ _ (fun c => valid c.time)
      · apply directed_case_ind _ _ _ _ _ _ _ (fun c => valid c.time)
        · show is_f32 FLT_MAX_value
          decide!
        · intros; exact valid_fdiv _ _
      · intros; exact valid_fdiv _ _
    · intros; exact valid_fdiv _ _
  · intros; exact valid_fdiv _ _

theorem foldl_invariant {α β : Type} (P : β → Prop) (f : β → α → β) (l : List α) :
    ∀ init : β, P init → (∀ s x, x ∈ l → P s → P (f s x)) → P (l.foldl f init) := by
  induction l with
  | nil => intro init h _; exact h
  | cons x xs ih =>
    intro init h hstep
    rw [List.foldl_cons]
    exact ih _ (hstep init x (List.mem_cons_self x xs) h)
      (fun s y hy hs => hstep s y (List.mem_cons_of_mem x hy) hs)

/-- A property of every solver record holds for every record the collector keeps. -/
theorem find_collision_step_forall (Q : COLLISION_VALUES → Prop) (m : Heap)
    (max_collisions : Nat) (a : Ptr) (time : F32) (collisions : List COLLISION_VALUES)
    (s : Ptr) (hQ : Q (intersection_time m a s)) (h : ∀ c ∈ collisions, Q c) :
    ∀ c ∈ find_collision_step m max_collisions a time collisions s, Q c := by
  unfold find_collision_step
  simp only
  split_ifs
  all_goals first
    | exact h
    | (intro c hc
       rcases List.mem_append.mp hc with hc | hc
       · exact h c hc
       · rw [List.mem_singleton.mp hc]; exact hQ)
    | (intro c hc
       rw [List.mem_singleton.mp hc]; exact hQ)

theorem find_collision_time_forall (Q : COLLISION_VALUES → Prop) (m : Heap)
    (sprites : List Ptr) (max_collisions : Nat) (a : Ptr) (time : F32)
    (collisions : List COLLISION_VALUES) (hQ : ∀ s ∈ sprites, s ≠ a → Q (intersection_time m a s))
    (h : ∀ c ∈ collisions, Q c) :
    ∀ c ∈ find_collision_time m sprites collisions max_collisions a time, Q c := by
  unfold find_collision_time
  apply foldl_invariant (fun l => ∀ c ∈ l, Q c) _ _ _ h
  intro l s hs hl
  by_cases hsa : s = a
  · unfold find_collision_step
    rw [if_pos hsa]
    exact hl
  · exact find_collision_step_forall Q m max_collisions a time l s (hQ s hs hsa) hl

/-- A property of every solver record between two different registered sprites holds for
every record of the candidate set and of the winning set of a scan. -/
theorem scan_sprites_forall (Q : COLLISION_VALUES → Prop) (m : Heap) (sprites : List Ptr)
    (remaining : F32)
    (hQ : ∀ a ∈ sprites, ∀ s ∈ sprites, s ≠ a → Q (intersection_time m a s)) :
    (∀ c ∈ (scan_sprites m sprites remaining).1, Q c) ∧
      ∀ c ∈ (scan_sprites m sprites remaining).2, Q c := by
  unfold scan_sprites
  apply foldl_invariant
    (fun sets : List COLLISION_VALUES × List COLLISION_VALUES =>
      (∀ c ∈ sets.1, Q c) ∧ ∀ c ∈ sets.2, Q c)
  · exact ⟨fun c hc => absurd hc (List.not_mem_nil c), fun c hc => absurd hc (List.not_mem_nil c)⟩
  · intro sets a ha hsets
    have hc := find_collision_time_forall Q m sprites COLLISIONS_MAX a remaining sets.1
      (hQ a ha) hsets.1
    simp only
    split_ifs
    · exact ⟨hc, hc⟩
    · exact ⟨hc, hsets.2⟩

/-- A winning set passed the adoption test. -/
theorem scan_sprites_adopted (m : Heap) (sprites : List Ptr) (remaining : F32)
    (h : (scan_sprites m sprites remaining).2 ≠ []) :
    fge (slot0_time (scan_sprites m sprites remaining).2) (fin 0) ∧
      flt (slot0_time (scan_sprites m sprites remaining).2) remaining := by
  revert h
  unfold scan_sprites
  apply foldl_invariant
    (fun sets : List COLLISION_VALUES × List COLLISION_VALUES =>
      sets.2 ≠ [] → fge (slot0_time sets.2) (fin 0) ∧ flt (slot0_time sets.2) remaining)
  · intro h
    exact absurd rfl h
  · intro sets a _ hsets
    simp only
    split_ifs with hc
    · intro _
      exact hc.2
    · exact hsets

theorem slot0_time_mem (l : List COLLISION_VALUES) (h : l ≠ []) :
    ∃ c ∈ l, slot0_time l = c.time := by
  cases l with
  | nil => exact absurd rfl h
  | cons c cs => exact ⟨c, List.mem_cons_self c cs, rfl⟩

/-- The time of a winning set is a `float`. -/
theorem winning_time_valid (m : Heap) (sprites : List Ptr) (remaining : F32)
    (h : (scan_sprites m sprites remaining).2 ≠ []) :
    valid (slot0_time (scan_sprites m sprites remaining).2) := by
  obtain ⟨c, hc, he⟩ := slot0_time_mem _ h
  rw [he]
  exact (scan_sprites_forall (fun c => valid c.time) m sprites remaining
    (fun a _ s _ _ => intersection_time_valid m a s)).2 c hc

/-- Adding a time below the rounded remaining time keeps the clock between its old value
and `dt`. -/
theorem clock_step {p t : ℚ} {dt : F32} (hp : is_f32 p) (hp0 : 0 ≤ p) (ht : is_f32 t)
    (ht0 : 0 ≤ t) (hdt : valid dt) (hlt : flt (fin t) (fsub dt (fin p))) :
    fle (fin p) (fadd (fin p) (fin t)) ∧ fle (fadd (fin p) (fin t)) dt := by
  constructor
  · have h := fl_mono (show p ≤ p + t by linarith)
    rw [show fl p = fin p from hp] at h
    exact h
  · cases dt with
    | fin d =>
      have hd : fl d = fin d := hdt
      have hlt2 : flt (fin t) (fl (d + -p)) := hlt
      have hsum : p + t ≤ d := by
        by_contra hne
        push_neg at hne
        have h := fl_mono (show d + -p ≤ t by linarith)
        rw [show fl t = fin t from ht] at h
        exact not_fle_of_flt hlt2 h
      have h := fl_mono hsum
      rw [hd] at h
      exact h
    | inf n =>
      cases n with
      | false =>
        show fle (fl (p + t)) (inf false)
        rcases fl_nonneg (show 0 ≤ p + t by linarith) with h | ⟨r, _, h⟩ <;> rw [h]
        · exact Or.inr rfl
        · rfl
      | true => exact Bool.noConfusion (show true = false from hlt)
    | nan => exact (show False from hlt).elim

theorem sub_step_clock32 (sprites : List Ptr) (dt : F32) (st : Heap × F32) :
    (sub_step sprites dt st).2 =
      if (scan_sprites st.1 sprites (fsub dt st.2)).2.length = 0 then dt
      else fadd st.2 (slot0_time (scan_sprites st.1 sprites (fsub dt st.2)).2) := by
  unfold sub_step
  simp only
  split_ifs <;> rfl

theorem sub_step_clock_inv (sprites : List Ptr) (dt : F32) (hdt : valid dt)
    (hpos : flt (fin 0) dt) (st : Heap × F32) (hinv : clock_inv dt st.2)
    (hlt : flt st.2 dt) :
    fle st.2 (sub_step sprites dt st).2 ∧ clock_inv dt (sub_step sprites dt st).2 := by
  rw [sub_step_clock32]
  split_ifs with h0
  · exact ⟨fle_of_flt hlt, hdt, fle_of_flt hpos, fle_refl_of_flt hpos⟩
  · have hne : (scan_sprites st.1 sprites (fsub dt st.2)).2 ≠ [] :=
      fun he => h0 (by rw [he]; rfl)
    obtain ⟨a0, a1⟩ := scan_sprites_adopted st.1 sprites (fsub dt st.2) hne
    have hv := winning_time_valid st.1 sprites (fsub dt st.2) hne
    obtain ⟨hcv, hc0, _⟩ := hinv
    obtain ⟨t, ht⟩ : ∃ t : ℚ, slot0_time (scan_sprites st.1 sprites (fsub dt st.2)).2 = fin t := by
      generalize slot0_time (scan_sprites st.1 sprites (fsub dt st.2)).2 = w at a0 a1
      generalize fsub dt st.2 = d at a1
      cases w with
      | fin t => exact ⟨t, rfl⟩
      | inf n =>
        exfalso
        have h1 : n = false := a0
        rw [h1] at a1
        cases d <;> simp only [flt] at a1
        · exact Bool.noConfusion a1
        · exact Bool.noConfusion a1.1
      | nan => exact a0.elim
    obtain ⟨p, hp⟩ : ∃ p : ℚ, st.2 = fin p := by
      generalize st.2 = c at hc0 hlt
      cases c with
      | fin p => exact ⟨p, rfl⟩
      | inf n =>
        exfalso
        have h1 : n = false := hc0
        rw [h1] at hlt
        cases dt <;> simp only [flt] at hlt
        · exact Bool.noConfusion hlt
        · exact Bool.noConfusion hlt.1
      | nan => exact hc0.elim
    rw [ht] at hv a0 a1 ⊢
    rw [hp] at hcv hc0 a1 ⊢
    obtain ⟨k1, k2⟩ := clock_step hcv hc0 hv a0 hdt a1
    exact ⟨k1, valid_fadd _ _, fle_trans (show fle (fin 0) (fin p) from hc0) k1, k2⟩

theorem process_loop_step (sprites : List Ptr) (dt : F32) (n : Nat) (st : Heap × F32) :
    process_loop sprites dt (n + 1) st =
      if flt st.2 dt then process_loop sprites dt n (sub_step sprites dt st) else st := rfl

theorem process_loop_clock_inv (sprites : List Ptr) (dt : F32) (hdt : valid dt)
    (hpos : flt (fin 0) dt) (fuel : Nat) :
    ∀ st : Heap × F32, clock_inv dt st.2 → clock_inv dt (process_loop sprites dt fuel st).2 := by
  induction fuel with
  | zero => intro st h; exact h
  | succ fuel ih =>
    intro st h
    rw [process_loop_step]
    split_ifs with hlt
    · exact ih _ (sub_step_clock_inv sprites dt hdt hpos st h hlt).2
    · exact h

/-! ### The frame clock (C17) -/

theorem fsub_self_cases (v : F32) : fsub v v = fin 0 ∨ fsub v v = nan := by
  cases v with
  | fin q =>
    left
    show fl (q + -q) = fin 0
    rw [add_neg_cancel, fl_zero]
  | inf n =>
    right
    show (if n = !n then inf n else nan) = nan
    rw [if_neg (by cases n <;> simp)]
  | nan => exact Or.inr rfl

theorem fdiv_zero_cases (x d : F32) (h : d = fin 0 ∨ d = nan) :
    fdiv x d = nan ∨ ∃ n : Bool, fdiv x d = inf n := by
  rcases h with h | h <;> rw [h]
  · cases x with
    | fin a =>
      show (if (0 : ℚ) = 0 then (if a = 0 then nan else inf (decide (a < 0))) else fl (a / 0)) = nan ∨
        ∃ n : Bool, (if (0 : ℚ) = 0 then (if a = 0 then nan else inf (decide (a < 0)))
          else fl (a / 0)) = inf n
      rw [if_pos rfl]
      split_ifs
      · exact Or.inl rfl
      · exact Or.inr ⟨_, rfl⟩
    | inf n => exact Or.inr ⟨_, rfl⟩
    | nan => exact Or.inl rfl
  · cases x <;> exact Or.inl rfl

/-- A directed case whose quotient is an infinity or NaN keeps the record. -/
theorem directed_case_reject32 (c : COLLISION_VALUES) (guard : Prop) [Decidable guard]
    (num den : F32) (cross : F32 → Prop) [DecidablePred cross] (mode_a mode_b : Nat)
    (hc : ∃ s : ℚ, c.time = fin s)
    (h : fdiv num den = nan ∨ ∃ n : Bool, fdiv num den = inf n) :
    directed_case c guard num den cross mode_a mode_b = c := by
  unfold directed_case
  obtain ⟨s, hs⟩ := hc
  split_ifs with h1 h2
  · exfalso
    rcases h with h | ⟨n, h⟩
    · rw [h] at h2
      exact h2.1
    · rw [h, hs] at h2
      have k1 : n = false := h2.1
      have k2 : n = true := h2.2.1
      rw [k1] at k2
      exact Bool.noConfusion k2
  · rfl
  · rfl

/-- Two sprites with the same x velocity and the same y velocity get the sentinel record:
each relative velocity is zero (or NaN), so each quotient is an infinity or NaN. -/
theorem intersection_time_same_velocity (m : Heap) (a b : Ptr)
    (hx : (m a).vel.x = (m b).vel.x) (hy : (m a).vel.y = (m b).vel.y) :
    intersection_time m a b = ⟨NONE, NONE, FLT_MAX, a, b⟩ := by
  simp only [intersection_time]
  rw [← hx, ← hy]
  rw [directed_case_reject32 ⟨NONE, NONE, FLT_MAX, a, b⟩ _ _ _ _ _ _ ⟨_, rfl⟩
    (fdiv_zero_cases _ _ (fsub_self_cases _))]
  rw [directed_case_reject32 ⟨NONE, NONE, FLT_MAX, a, b⟩ _ _ _ _ _ _ ⟨_, rfl⟩
    (fdiv_zero_cases _ _ (fsub_self_cases _))]
  rw [directed_case_reject32 ⟨NONE, NONE, FLT_MAX, a, b⟩ _ _ _ _ _ _ ⟨_, rfl⟩
    (fdiv_zero_cases _ _ (fsub_self_cases _))]
  rw [directed_case_reject32 ⟨NONE, NONE, FLT_MAX, a, b⟩ _ _ _ _ _ _ ⟨_, rfl⟩
    (fdiv_zero_cases _ _ (fsub_self_cases _))]

theorem find_collision_step_sentinel (m : Heap) (max_collisions : Nat) (a : Ptr) (time : F32)
    (collisions : List COLLISION_VALUES) (s : Ptr)
    (h : s ≠ a → (intersection_time m a s).time = FLT_MAX) :
    find_collision_step m max_collisions a time collisions s = collisions := by
  unfold find_collision_step
  by_cases hs : s = a
  · rw [if_pos hs]
  · rw [if_neg hs]
    have hq : feq (intersection_time m a s).time FLT_MAX := by
      rw [h hs]
      exact (rfl : FLT_MAX_value = FLT_MAX_value)
    simp only
    rw [if_neg (fun hh => hh.2.2.1 hq), if_neg (fun hh => hh.2.1 hq)]

theorem find_collision_time_sentinel (m : Heap) (sprites : List Ptr) (max_collisions : Nat)
    (a : Ptr) (time : F32) (collisions : List COLLISION_VALUES)
    (h : ∀ s ∈ sprites, s ≠ a → (intersection_time m a s).time = FLT_MAX) :
    find_collision_time m sprites collisions max_collisions a time = collisions := by
  unfold find_collision_time
  apply foldl_invariant (fun l => l = collisions) _ _ _ rfl
  intro l s hs hl
  rw [hl]
  exact find_collision_step_sentinel m max_collisions a time collisions s (h s hs)

/-- When every directed call between registered sprites returns the sentinel, the scan
leaves both sets empty. -/
theorem scan_sprites_sentinel (m : Heap) (sprites : List Ptr) (remaining : F32)
    (h : ∀ a ∈ sprites, ∀ s ∈ sprites, s ≠ a → (intersection_time m a s).time = FLT_MAX) :
    scan_sprites m sprites remaining = ([], []) := by
  unfold scan_sprites
  apply foldl_invariant
    (fun sets : List COLLISION_VALUES × List COLLISION_VALUES => sets = ([], [])) _ _ _ rfl
  intro sets a ha hsets
  rw [hsets]
  simp only
  rw [find_collision_time_sentinel m sprites COLLISIONS_MAX a remaining [] (h a ha)]
  rw [if_neg (fun hh => hh.1 rfl)]

theorem sub_step_no_winner32 (sprites : List Ptr) (dt : F32) (st : Heap × F32)
    (h : (scan_sprites st.1 sprites (fsub dt st.2)).2 = []) :
    sub_step sprites dt st = (advance_sprites st.1 sprites (fsub dt st.2), dt) := by
  unfold sub_step
  simp only [h, List.length_nil, ne_eq, not_true_eq_false, if_false, if_true, resolve_pass,
    List.foldl_nil]

theorem process_loop_done32 (sprites : List Ptr) (dt : F32) (k : Nat) (st : Heap × F32)
    (h : ¬ flt st.2 dt) : process_loop sprites dt k st = st := by
  cases k with
  | zero => rfl
  | succ k => rw [process_loop_step, if_neg h]

theorem advance_sprites_cons32 (m : Heap) (s : Ptr) (sprites : List Ptr) (t : F32) :
    advance_sprites m (s :: sprites) t =
      advance_sprites (fun q => if q = s then advanced (m s) t else m q) sprites t := rfl

theorem advance_sprites_not_mem32 (sprites : List Ptr) (t : F32) (p : Ptr) :
    ∀ m : Heap, p ∉ sprites → advance_sprites m sprites t p = m p := by
  induction sprites with
  | nil => intro m _; rfl
  | cons s sprites ih =>
    intro m hp
    rw [advance_sprites_cons32, ih _ (fun h => hp (List.mem_cons_of_mem s h))]
    have hne : ¬ p = s := fun h => hp (by rw [h]; exact List.mem_cons_self s sprites)
    simp only [if_neg hne]

theorem advance_sprites_mem32 (sprites : List Ptr) (t : F32) (p : Ptr) :
    ∀ m : Heap, sprites.Nodup → p ∈ sprites →
      advance_sprites m sprites t p = advanced (m p) t := by
  induction sprites with
  | nil => intro m _ hp; exact absurd hp (List.not_mem_nil p)
  | cons s sprites ih =>
    intro m hnd hp
    rw [advance_sprites_cons32]
    have hnd2 := List.nodup_cons.mp hnd
    by_cases hps : p = s
    · have hnot : p ∉ sprites := by rw [hps]; exact hnd2.1
      rw [advance_sprites_not_mem32 sprites t p _ hnot, hps]
      simp only [if_true]
    · have hmem : p ∈ sprites := (List.mem_cons.mp hp).resolve_left hps
      rw [ih _ hnd2.2 hmem]
      simp only [if_neg hps]

theorem advance_sprites_vel32 (sprites : List Ptr) (t : F32) (p : Ptr) :
    ∀ m : Heap, (advance_sprites m sprites t p).vel = (m p).vel := by
  induction sprites with
  | nil => intro m; rfl
  | cons s sprites ih =>
    intro m
    rw [advance_sprites_cons32, ih]
    by_cases hps : p = s
    · rw [hps]
      simp only [if_true]
      rfl
    · simp only [if_neg hps]

theorem isqrt_from_spec (n : Nat) : ∀ (k r : Nat), r * r ≤ n → n < (r + 2 ^ k) * (r + 2 ^ k) →
    isqrt_from k n r * isqrt_from k n r ≤ n ∧
      n < (isqrt_from k n r + 1) * (isqrt_from k n r + 1) := by
  intro k
  induction k with
  | zero =>
    intro r h1 h2
    simp only [isqrt_from]
    simpa using And.intro h1 h2
  | succ k ih =>
    intro r h1 h2
    simp only [isqrt_from]
    split_ifs with hc
    · apply ih _ hc
      have : r + 2 ^ k + 2 ^ k = r + 2 ^ (k + 1) := by rw [pow_succ]; ring
      rw [this]
      exact h2
    · exact ih _ h1 (not_le.mp hc)

theorem isqrt_spec (n : Nat) : isqrt n * isqrt n ≤ n ∧ n < (isqrt n + 1) * (isqrt n + 1) := by
  unfold isqrt
  apply isqrt_from_spec n _ 0 (Nat.zero_le _)
  have h := bit_length_spec n n (le_refl n)
  have h1 : 1 ≤ 2 ^ bit_length n n := Nat.one_le_two_pow
  calc n < 2 ^ bit_length n n := h
    _ = 2 ^ bit_length n n * 1 := (Nat.mul_one _).symm
    _ ≤ 2 ^ bit_length n n * 2 ^ bit_length n n := Nat.mul_le_mul_left _ h1
    _ = (0 + 2 ^ bit_length n n) * (0 + 2 ^ bit_length n n) := by rw [Nat.zero_add]

theorem isqrt_sq (s : Nat) : isqrt (s * s) = s := by
  obtain ⟨h1, h2⟩ := isqrt_spec (s * s)
  have a : isqrt (s * s) ≤ s := Nat.mul_self_le_mul_self_iff.mp h1
  have b : s < isqrt (s * s) + 1 := Nat.mul_self_lt_mul_self_iff.mp h2
  omega

theorem rat_root_sq (x : ℚ) : rat_root (x * x) = |x| := by
  unfold rat_root
  rw [Rat.mul_self_num, Rat.mul_self_den, Int.natAbs_mul, isqrt_sq, isqrt_sq]
  rw [Rat.abs_def, Rat.divInt_eq_div]
  simp [Nat.cast_natAbs, Int.cast_abs]

theorem fl_neg (q : ℚ) : fl (-q) = fneg (fl q) := by
  unfold fl
  rw [abs_neg]
  by_cases h : pow2 128 ≤ round_abs |q|
  · rw [if_pos h, if_pos h]
    show inf (decide (-q < 0)) = inf (!decide (q < 0))
    rcases lt_trichotomy q 0 with hq | hq | hq
    · rw [decide_eq_true hq, decide_eq_false (show ¬ -q < 0 by linarith)]
      rfl
    · exfalso
      rw [hq, abs_zero] at h
      have h2 : round_abs 0 = 0 := by
        have := round_abs_grid 0 (-126) (by norm_num) (by norm_num) (Or.inl rfl)
          (Or.inl (by norm_num))
        simpa using this
      rw [h2] at h
      exact absurd (pow2_pos 128) (not_lt.mpr h)
    · rw [decide_eq_false (show ¬ q < 0 by linarith), decide_eq_true (show -q < 0 by linarith)]
      rfl
  · rw [if_neg h, if_neg h]
    show fin (if -q < 0 then -round_abs |q| else round_abs |q|) =
      fin (-(if q < 0 then -round_abs |q| else round_abs |q|))
    rcases lt_trichotomy q 0 with hq | hq | hq
    · rw [if_neg (by linarith), if_pos hq, neg_neg]
    · have h2 : round_abs |q| = 0 := by
        rw [hq, abs_zero]
        have := round_abs_grid 0 (-126) (by norm_num) (by norm_num) (Or.inl rfl)
          (Or.inl (by norm_num))
        simpa using this
      rw [h2]
      simp
    · rw [if_pos (by linarith), if_neg (by linarith)]

theorem is_f32_neg {q : ℚ} (h : is_f32 q) : is_f32 (-q) := by
  unfold is_f32 at h ⊢
  rw [fl_neg, h]
  rfl

theorem is_f32_abs {q : ℚ} (h : is_f32 q) : is_f32 |q| := by
  rcases abs_choice q with h1 | h1 <;> rw [h1]
  · exact h
  · exact is_f32_neg h

theorem is_f32_one : is_f32 1 := by decide!

/-- The rounded norm of a vector along an axis is the magnitude of its component. -/
theorem fl_sqrt_sq {x : ℚ} (h : is_f32 x) : fl_sqrt (x * x) = fin |x| := by
  unfold fl_sqrt
  rw [rat_root_sq, if_pos (abs_mul_abs_self x)]
  exact is_f32_abs h

/-! ### Exact `float` operations on the vectors of the resolver -/

theorem fmul_zero_right (t : ℚ) : fmul (fin t) (fin 0) = fin 0 := by
  show fl (t * 0) = fin 0
  rw [mul_zero, fl_zero]

theorem fadd_fin_zero {x : ℚ} (h : is_f32 x) : fadd (fin x) (fin 0) = fin x := by
  show fl (x + 0) = fin x
  rw [add_zero]
  exact h

theorem fadd_zero_fin {x : ℚ} (h : is_f32 x) : fadd (fin 0) (fin x) = fin x := by
  show fl (0 + x) = fin x
  rw [zero_add]
  exact h

theorem fsub_fin_zero {x : ℚ} (h : is_f32 x) : fsub (fin x) (fin 0) = fin x := by
  show fl (x + -0) = fin x
  rw [neg_zero, add_zero]
  exact h

theorem is_f32_mul_unit {a s : ℚ} (hs : s = 1 ∨ s = -1) (ha : is_f32 a) : is_f32 (a * s) := by
  rcases hs with rfl | rfl
  · rw [mul_one]; exact ha
  · rw [mul_neg_one]; exact is_f32_neg ha

theorem vec_3_dot_x (a b c s : ℚ) (hs : s = 1 ∨ s = -1) (ha : is_f32 a) :
    vec_3_dot ⟨fin a, fin b, fin c⟩ ⟨fin s, fin 0, fin 0⟩ = fin (a * s) := by
  have h1 := is_f32_mul_unit hs ha
  show fadd (fadd (fmul (fin a) (fin s)) (fmul (fin b) (fin 0))) (fmul (fin c) (fin 0)) = _
  rw [fmul_exact _ _ h1, fmul_zero_right, fmul_zero_right, fadd_fin_zero h1, fadd_fin_zero h1]

theorem vec_3_dot_y (a b c s : ℚ) (hs : s = 1 ∨ s = -1) (hb : is_f32 b) :
    vec_3_dot ⟨fin a, fin b, fin c⟩ ⟨fin 0, fin s, fin 0⟩ = fin (b * s) := by
  have h1 := is_f32_mul_unit hs hb
  show fadd (fadd (fmul (fin a) (fin 0)) (fmul (fin b) (fin s))) (fmul (fin c) (fin 0)) = _
  rw [fmul_exact _ _ h1, fmul_zero_right, fmul_zero_right, fadd_zero_fin h1, fadd_fin_zero h1]

/-- The component along the normal, reflected: `a - (2 (a s)) s = -a` without rounding. -/
theorem reflect_along (a s : ℚ) (hs : s = 1 ∨ s = -1) (ha : is_f32 a) (h2 : is_f32 (2 * a)) :
    fsub (fin a) (fmul (fmul (fin 2) (fin (a * s))) (fin s)) = fin (-a) := by
  have hss : s * s = 1 := by rcases hs with rfl | rfl <;> norm_num
  have h3 : is_f32 (2 * (a * s)) := by
    rw [← mul_assoc]
    exact is_f32_mul_unit hs h2
  have e4 : 2 * (a * s) * s = 2 * a := by linear_combination (2 * a) * hss
  have h4 : is_f32 (2 * (a * s) * s) := by rw [e4]; exact h2
  have e5 : a - 2 * (a * s) * s = -a := by linear_combination (-2 * a) * hss
  have h5 : is_f32 (a - 2 * (a * s) * s) := by rw [e5]; exact is_f32_neg ha
  rw [fmul_exact _ _ h3, fmul_exact _ _ h4, fsub_exact _ _ h5, e5]

/-- A component across the normal, reflected: unchanged. -/
theorem reflect_across (b d : ℚ) (hb : is_f32 b) (h3 : is_f32 (2 * d)) :
    fsub (fin b) (fmul (fmul (fin 2) (fin d)) (fin 0)) = fin b := by
  rw [fmul_exact _ _ h3, fmul_zero_right, fsub_fin_zero hb]

theorem vec_3_reflect_x (a b c s : ℚ) (hs : s = 1 ∨ s = -1) (ha : is_f32 a)
    (h2 : is_f32 (2 * a)) (hb : is_f32 b) (hc : is_f32 c) :
    vec_3_reflect ⟨fin a, fin b, fin c⟩ ⟨fin s, fin 0, fin 0⟩ = ⟨fin (-a), fin b, fin c⟩ := by
  have h3 : is_f32 (2 * (a * s)) := by
    rw [← mul_assoc]
    exact is_f32_mul_unit hs h2
  unfold vec_3_reflect
  rw [vec_3_dot_x a b c s hs ha]
  simp only
  rw [reflect_along a s hs ha h2, reflect_across b _ hb h3, reflect_across c _ hc h3]

theorem vec_3_reflect_y (a b c s : ℚ) (hs : s = 1 ∨ s = -1) (ha : is_f32 a)
    (hb : is_f32 b) (h2 : is_f32 (2 * b)) (hc : is_f32 c) :
    vec_3_reflect ⟨fin a, fin b, fin c⟩ ⟨fin 0, fin s, fin 0⟩ = ⟨fin a, fin (-b), fin c⟩ := by
  have h3 : is_f32 (2 * (b * s)) := by
    rw [← mul_assoc]
    exact is_f32_mul_unit hs h2
  unfold vec_3_reflect
  rw [vec_3_dot_y a b c s hs hb]
  simp only
  rw [reflect_along b s hs hb h2, reflect_across a _ ha h3, reflect_across c _ hc h3]

/-- The normal of a face lies along x or along y, with component 1 or -1. -/
theorem normal_of_face (mode : Nat) (hm : is_face mode) :
    ∃ s : ℚ, (s = 1 ∨ s = -1) ∧
      (normal_of mode = ⟨fin s, fin 0, fin 0⟩ ∨ normal_of mode = ⟨fin 0, fin s, fin 0⟩) := by
  rcases hm with h | h | h | h <;> rw [h]
  · exact ⟨-1, Or.inr rfl, Or.inl rfl⟩
  · exact ⟨1, Or.inl rfl, Or.inl rfl⟩
  · exact ⟨-1, Or.inr rfl, Or.inr rfl⟩
  · exact ⟨1, Or.inl rfl, Or.inr rfl⟩

theorem is_f32_two_zero : is_f32 (2 * 0) := by
  rw [mul_zero]
  exact fl_zero

/-- The reflection of a velocity along an axis about the normal of a face lies along the
same axis, with the same or the opposite component. -/
theorem vec_3_reflect_axis (along_y : Bool) (x : ℚ) (mode : Nat) (hm : is_face mode)
    (hfx : is_f32 x) (hf2 : is_f32 (2 * x)) :
    ∃ r : ℚ, (r = x ∨ r = -x) ∧
      vec_3_reflect (axis_vec along_y x) (normal_of mode) = axis_vec along_y r := by
  obtain ⟨s, hs, hn | hn⟩ := normal_of_face mode hm <;> rw [hn] <;> cases along_y
  · refine ⟨-x, Or.inr rfl, ?_⟩
    exact vec_3_reflect_x x 0 0 s hs hfx hf2 fl_zero fl_zero
  · refine ⟨x, Or.inl rfl, ?_⟩
    have h := vec_3_reflect_x 0 x 0 s hs fl_zero is_f32_two_zero hfx fl_zero
    rw [neg_zero] at h
    exact h
  · refine ⟨x, Or.inl rfl, ?_⟩
    have h := vec_3_reflect_y x 0 0 s hs hfx fl_zero is_f32_two_zero fl_zero
    rw [neg_zero] at h
    exact h
  · refine ⟨-x, Or.inr rfl, ?_⟩
    exact vec_3_reflect_y 0 x 0 s hs fl_zero hfx hf2 fl_zero

theorem vec_3_length_axis (along_y : Bool) (x : ℚ) (hfx : is_f32 x) :
    vec_3_length (axis_vec along_y x) = fin |x| := by
  cases along_y
  · show fl_sqrt (x * x + 0 * 0 + 0 * 0) = fin |x|
    rw [mul_zero, add_zero, add_zero]
    exact fl_sqrt_sq hfx
  · show fl_sqrt (0 * 0 + x * x + 0 * 0) = fin |x|
    rw [mul_zero, add_zero, zero_add]
    exact fl_sqrt_sq hfx

theorem fdiv_zero_fin {d : ℚ} (hd : d ≠ 0) : fdiv (fin 0) (fin d) = fin 0 := by
  unfold fdiv
  simp only [if_neg hd]
  rw [zero_div]
  exact fl_zero

theorem unit_of_ne_zero {x : ℚ} (hx : x ≠ 0) : x / |x| = 1 ∨ x / |x| = -1 := by
  rcases abs_choice x with h | h <;> rw [h]
  · exact Or.inl (div_self hx)
  · right
    rw [div_neg, div_self hx]

/-- Normalizing a non-zero velocity along an axis gives the unit vector of its sign. -/
theorem vec_3_normalize_axis (along_y : Bool) (x : ℚ) (hx : x ≠ 0) (hfx : is_f32 x) :
    vec_3_normalize (axis_vec along_y x) = axis_vec along_y (x / |x|) := by
  have hd : |x| ≠ 0 := abs_ne_zero.mpr hx
  have hu : is_f32 (x / |x|) := by
    rcases unit_of_ne_zero hx with h | h <;> rw [h]
    · exact is_f32_one
    · exact is_f32_neg is_f32_one
  unfold vec_3_normalize
  rw [vec_3_length_axis along_y x hfx]
  cases along_y
  · show (⟨fdiv (fin x) (fin |x|), fdiv (fin 0) (fin |x|), fdiv (fin 0) (fin |x|)⟩ : Vec3) = _
    rw [fdiv_exact _ _ hd hu, fdiv_zero_fin hd]
    rfl
  · show (⟨fdiv (fin 0) (fin |x|), fdiv (fin x) (fin |x|), fdiv (fin 0) (fin |x|)⟩ : Vec3) = _
    rw [fdiv_exact _ _ hd hu, fdiv_zero_fin hd]
    rfl

theorem vec_3_normalize_unit (along_y : Bool) (u : ℚ) (hu : u = 1 ∨ u = -1) :
    vec_3_normalize (axis_vec along_y u) = axis_vec along_y u := by
  have h0 : u ≠ 0 := by rcases hu with h | h <;> rw [h] <;> norm_num
  have hf : is_f32 u := by
    rcases hu with h | h <;> rw [h]
    · exact is_f32_one
    · exact is_f32_neg is_f32_one
  rw [vec_3_normalize_axis along_y u h0 hf]
  have : u / |u| = u := by rcases hu with h | h <;> rw [h] <;> norm_num
  rw [this]

theorem vec_3_mul_scalar_unit (along_y : Bool) (u σ : ℚ) (hu : u = 1 ∨ u = -1)
    (hσ : is_f32 σ) :
    vec_3_mul_scalar (axis_vec along_y u) (fin σ) = axis_vec along_y (u * σ) := by
  have h1 : is_f32 (u * σ) := by
    rw [mul_comm]
    exact is_f32_mul_unit hu hσ
  cases along_y
  · show (⟨fmul (fin u) (fin σ), fmul (fin 0) (fin σ), fmul (fin 0) (fin σ)⟩ : Vec3) = _
    rw [fmul_exact _ _ h1, fmul_zero_fin]
    rfl
  · show (⟨fmul (fin 0) (fin σ), fmul (fin u) (fin σ), fmul (fin 0) (fin σ)⟩ : Vec3) = _
    rw [fmul_exact _ _ h1, fmul_zero_fin]
    rfl

theorem speed_eq_axis (along_y : Bool) (u σ : ℚ) (hu : u = 1 ∨ u = -1) (h0 : 0 ≤ σ) :
    speed_eq (axis_vec along_y (u * σ)) σ := by
  have hss : u * u = 1 := by rcases hu with rfl | rfl <;> norm_num
  refine ⟨h0, ?_⟩
  cases along_y
  · exact ⟨u * σ, 0, 0, rfl, by linear_combination (σ * σ) * hss⟩
  · exact ⟨0, u * σ, 0, rfl, by linear_combination (σ * σ) * hss⟩

/-! ### The rounded norm is not negative -/

theorem fl_sqrt_nonneg {q l : ℚ} (h : fl_sqrt q = fin l) : 0 ≤ l := by
  unfold fl_sqrt at h
  by_cases h1 : rat_root q * rat_root q = q
  · rw [if_pos h1] at h
    have hr : 0 ≤ rat_root q := by
      unfold rat_root
      positivity
    rcases fl_nonneg hr with h4 | ⟨r, hr0, h4⟩
    · rw [h4] at h
      exact F32.noConfusion h
    · rw [h4] at h
      rw [← F32.fin.inj h]
      exact hr0
  · rw [if_neg h1] at h
    simp only at h
    have hu := pow2_pos (sqrt_exponent_from q 253 (-126) - 23)
    split_ifs at h with h2 h3
    · rw [← F32.fin.inj h]
      exact mul_nonneg (Nat.cast_nonneg _) (le_of_lt hu)
    · rw [← F32.fin.inj h]
      exact mul_nonneg (by positivity) (le_of_lt hu)

theorem vec_3_length_nonneg32 {v : Vec3} {l : ℚ} (h : vec_3_length v = fin l) : 0 ≤ l := by
  obtain ⟨x, y, z⟩ := v
  cases x <;> cases y <;> cases z <;>
    first
    | exact fl_sqrt_nonneg h
    | exact F32.noConfusion h

/-- A finite shared speed is a `float` that is not negative. -/
theorem shared_speed_nonneg {v_a v_b : Vec3} {σ : ℚ} (h : shared_speed v_a v_b = fin σ) :
    0 ≤ σ ∧ is_f32 σ := by
  have hval : is_f32 σ := by
    have := valid_fdiv (fadd (vec_3_length v_a) (vec_3_length v_b)) (fin 2)
    unfold shared_speed at h
    rw [h] at this
    exact this
  refine ⟨?_, hval⟩
  unfold shared_speed at h
  cases ha : vec_3_length v_a with
  | fin la =>
    cases hb : vec_3_length v_b with
    | fin lb =>
      rw [ha, hb] at h
      have h1 : 0 ≤ la + lb := add_nonneg (vec_3_length_nonneg32 ha) (vec_3_length_nonneg32 hb)
      rcases fl_nonneg h1 with h2 | ⟨r, hr0, h2⟩
      · rw [show fadd (fin la) (fin lb) = fl (la + lb) from rfl, h2] at h
        exact F32.noConfusion h
      · rw [show fadd (fin la) (fin lb) = fl (la + lb) from rfl, h2] at h
        have h3 : fdiv (fin r) (fin 2) = fl (r / 2) := by
          unfold fdiv
          simp only [if_neg (show (2 : ℚ) ≠ 0 by norm_num)]
        rw [h3] at h
        rcases fl_nonneg (show 0 ≤ r / 2 by positivity) with h4 | ⟨w, hw0, h4⟩
        · rw [h4] at h
          exact F32.noConfusion h
        · rw [h4] at h
          rw [← F32.fin.inj h]
          exact hw0
    | inf n =>
      rw [ha, hb] at h
      exact F32.noConfusion h
    | nan =>
      rw [ha, hb] at h
      exact F32.noConfusion h
  | inf n =>
    rw [ha] at h
    cases hb : vec_3_length v_b with
    | fin lb =>
      rw [hb] at h
      exact F32.noConfusion h
    | inf k =>
      rw [hb] at h
      by_cases hnk : n = k
      · rw [show fadd (inf n) (inf k) = inf n from if_pos hnk] at h
        exact F32.noConfusion h
      · rw [show fadd (inf n) (inf k) = nan from if_neg hnk] at h
        exact F32.noConfusion h
    | nan =>
      rw [hb] at h
      exact F32.noConfusion h
  | nan =>
    rw [ha] at h
    cases hb : vec_3_length v_b <;> rw [hb] at h <;> exact F32.noConfusion h

/-! ### What one record does to its two participants, in binary32 -/

theorem resolve_record_sprite_vel32 (st : RESOLVE_STATE) (c : COLLISION_VALUES)
    (hne : c.sprite ≠ c.other_sprite)
    (hs : ¬ (st.heap c.sprite).is_static = true) (hr : c.sprite ∉ st.resolved) :
    ((resolve_record st c).heap c.sprite).vel = new_vel_sprite st c := by
  unfold resolve_record new_vel_sprite
  simp only [if_pos (And.intro hs hr)]
  split_ifs <;> simp [set_vel, hne]

theorem resolve_record_other_vel32 (st : RESOLVE_STATE) (c : COLLISION_VALUES)
    (hne : c.sprite ≠ c.other_sprite)
    (hs : ¬ (st.heap c.other_sprite).is_static = true) (hr : c.other_sprite ∉ st.resolved) :
    ((resolve_record st c).heap c.other_sprite).vel =
      vec_3_mul_scalar (vec_3_normalize (st.heap c.sprite).vel)
        (shared_speed (st.heap c.sprite).vel (st.heap c.other_sprite).vel) := by
  have hne2 : c.other_sprite ≠ c.sprite := fun h => hne h.symm
  unfold resolve_record shared_speed
  by_cases h1 : ¬ (st.heap c.sprite).is_static = true ∧ c.sprite ∉ st.resolved
  · simp only [if_pos h1]
    have hr2 := not_mem_mark_resolved st.resolved c.sprite c.other_sprite hr hne
    have hs2 : ¬ (set_vel st.heap c.sprite
        (vec_3_mul_scalar
          (vec_3_normalize (vec_3_normalize
            (vec_3_reflect (st.heap c.sprite).vel (normal_of c.mode_a))))
          (fdiv (fadd (vec_3_length (st.heap c.sprite).vel)
            (vec_3_length (st.heap c.other_sprite).vel))
            (if (st.heap c.other_sprite).is_static = true then fin 1 else fin 2)))
        c.other_sprite).is_static = true := by
      simp only [set_vel, if_neg hne2]
      exact hs
    rw [if_pos ⟨hs2, hr2⟩]
    simp only [set_vel, if_true, if_neg hne2, if_neg hs]
  · simp only [if_neg h1]
    rw [if_pos ⟨hs, hr⟩]
    simp only [set_vel, if_true, if_neg hs]

/-! ### Speed after a collision of two moving sprites (C7) -/

/-- C7, as stated, fails in binary32. On `heap_uneven` A (velocity 1) and B (velocity
-2^-24) are non-static and collide head-on, the solver reports the record (A, B) with
faces RIGHT and LEFT, and `(|v_a| + |v_b|) / 2 = 1/2 + 2^-25`; the sum `1 + 2^-24` rounds
to 1, and after the record both speeds are 1/2. -/
theorem resolve_two_moving_counterexample :
    intersection_time (heap32 heap_uneven) 0 1 = ⟨RIGHT, LEFT, fin 2, 0, 1⟩ ∧
    ((heap_uneven 0).is_static = false ∧ (heap_uneven 1).is_static = false) ∧
    (vec_3_length (heap32 heap_uneven 0).vel = fin 1 ∧
      vec_3_length (heap32 heap_uneven 1).vel = fin (1 / 16777216)) ∧
    ((resolve_record ⟨heap32 heap_uneven, [], []⟩ ⟨RIGHT, LEFT, fin 2, 0, 1⟩).heap 0).vel =
      ⟨fin (-1 / 2), fin 0, fin 0⟩ ∧
    ((resolve_record ⟨heap32 heap_uneven, [], []⟩ ⟨RIGHT, LEFT, fin 2, 0, 1⟩).heap 1).vel =
      ⟨fin (1 / 2), fin 0, fin 0⟩ ∧
    ¬ speed_eq ((resolve_record ⟨heap32 heap_uneven, [], []⟩
        ⟨RIGHT, LEFT, fin 2, 0, 1⟩).heap 0).vel ((1 + 1 / 16777216) / 2) := by
  refine ⟨by decide!, by decide!, by decide!, by decide!, by decide!, ?_⟩
  have hv : ((resolve_record ⟨heap32 heap_uneven, [], []⟩
      ⟨RIGHT, LEFT, fin 2, 0, 1⟩).heap 0).vel = ⟨fin (-1 / 2), fin 0, fin 0⟩ := by decide!
  rw [hv]
  rintro ⟨_, a, b, c, he, hq⟩
  have h1 : a = -1 / 2 := by
    have := congrArg Vec3.x he
    exact (F32.fin.inj this).symm
  have h2 : b = 0 := by
    have := congrArg Vec3.y he
    exact (F32.fin.inj this).symm
  have h3 : c = 0 := by
    have := congrArg Vec3.z he
    exact (F32.fin.inj this).symm
  rw [h1, h2, h3] at hq
  norm_num at hq

/-- C7 (amended), in binary32: for a record between two distinct non-static sprites,
neither of them in `resolved[]`, with a face in `mode_a`, whose `sprite` has a velocity
along the x or the y axis with a non-zero `float` component `x` whose double is a `float`:
when the speed `(vel_a_momentum + vel_b_momentum) / 2` that the code computes (the two
rounded norms, their rounded sum, its rounded half) is the finite value `σ`, each of the
two sprites has speed `σ` after the record; and when the other velocity is the opposite
one, `σ` is `|x|`, which is `(|v_a| + |v_b|) / 2`. -/
theorem resolve_two_moving (st : RESOLVE_STATE) (c : COLLISION_VALUES) (along_y : Bool)
    (x σ : ℚ) (hne : c.sprite ≠ c.other_sprite)
    (hsa : ¬ (st.heap c.sprite).is_static = true)
    (hsb : ¬ (st.heap c.other_sprite).is_static = true)
    (hra : c.sprite ∉ st.resolved) (hrb : c.other_sprite ∉ st.resolved)
    (hm : is_face c.mode_a) (hv : (st.heap c.sprite).vel = axis_vec along_y x)
    (hx : x ≠ 0) (hfx : is_f32 x) (hf2 : is_f32 (2 * x))
    (hσ : shared_speed (st.heap c.sprite).vel (st.heap c.other_sprite).vel = fin σ) :
    speed_eq ((resolve_record st c).heap c.sprite).vel σ ∧
    speed_eq ((resolve_record st c).heap c.other_sprite).vel σ ∧
    ((st.heap c.other_sprite).vel = axis_vec along_y (-x) → σ = |x|) := by
  obtain ⟨h0, hval⟩ := shared_speed_nonneg hσ
  have hux := unit_of_ne_zero hx
  refine ⟨?_, ?_, ?_⟩
  · rw [resolve_record_sprite_vel32 st c hne hsa hra]
    unfold new_vel_sprite
    rw [if_neg hsb]
    have hs2 : fdiv (fadd (vec_3_length (st.heap c.sprite).vel)
        (vec_3_length (st.heap c.other_sprite).vel)) (fin 2) = fin σ := hσ
    rw [hs2, hv]
    obtain ⟨r, hr, hrefl⟩ := vec_3_reflect_axis along_y x c.mode_a hm hfx hf2
    have hr0 : r ≠ 0 := by
      rcases hr with h | h <;> rw [h]
      · exact hx
      · exact neg_ne_zero.mpr hx
    have hfr : is_f32 r := by
      rcases hr with h | h <;> rw [h]
      · exact hfx
      · exact is_f32_neg hfx
    have hur := unit_of_ne_zero hr0
    rw [hrefl, vec_3_normalize_axis along_y r hr0 hfr, vec_3_normalize_unit along_y _ hur,
      vec_3_mul_scalar_unit along_y _ σ hur hval]
    exact speed_eq_axis along_y _ σ hur h0
  · rw [resolve_record_other_vel32 st c hne hsb hrb, hσ, hv,
      vec_3_normalize_axis along_y x hx hfx, vec_3_mul_scalar_unit along_y _ σ hux hval]
    exact speed_eq_axis along_y _ σ hux h0
  · intro hb
    rw [hv, hb] at hσ
    unfold shared_speed at hσ
    rw [vec_3_length_axis along_y x hfx, vec_3_length_axis along_y (-x) (is_f32_neg hfx),
      abs_neg] at hσ
    have e1 : |x| + |x| = |2 * x| := by
      rw [abs_mul, abs_two]
      ring
    have h1 : is_f32 (|x| + |x|) := by
      rw [e1]
      exact is_f32_abs hf2
    have e2 : (|x| + |x|) / 2 = |x| := by ring
    have h2 : is_f32 ((|x| + |x|) / 2) := by
      rw [e2]
      exact is_f32_abs hfx
    rw [fadd_exact _ _ h1, fdiv_exact _ _ (by norm_num) h2, e2] at hσ
    exact (F32.fin.inj hσ).symm

/-- Witness of C7: two unit boxes that collide head-on with the velocities 1 and -1
leave with speed 1. -/
theorem resolve_two_moving_witness :
    speed_eq ((resolve_record ⟨heap32 heap_head_on, [], []⟩
        ⟨RIGHT, LEFT, fin 1, 0, 1⟩).heap 0).vel 1 ∧
    speed_eq ((resolve_record ⟨heap32 heap_head_on, [], []⟩
        ⟨RIGHT, LEFT, fin 1, 0, 1⟩).heap 1).vel 1 ∧
    ((heap32 heap_head_on 1).vel = axis_vec false (-1) → (1 : ℚ) = |1|) :=
  resolve_two_moving ⟨heap32 heap_head_on, [], []⟩ ⟨RIGHT, LEFT, fin 1, 0, 1⟩ false 1 1
    (by decide) (by decide) (by decide) (by decide) (by decide) (by decide) (by decide!)
    (by decide) (by decide!) (by decide!) (by decide!)

/-! ### Doubling a `float` -/

theorem round_abs_of_is_f32 {q : ℚ} (h : is_f32 q) :
    round_abs |q| = |q| ∧ round_abs |q| < pow2 128 := by
  unfold is_f32 at h
  rcases fl_cases q with h1 | h1 | h1
  · rw [h1.2] at h
    exact F32.noConfusion h
  · rw [h1.2.2] at h
    have h2 := F32.fin.inj h
    refine ⟨?_, h1.1⟩
    rw [abs_of_neg h1.2.1] at h2 ⊢
    linarith
  · rw [h1.2.2] at h
    have h2 := F32.fin.inj h
    refine ⟨?_, h1.1⟩
    rw [abs_of_nonneg h1.2.1] at h2 ⊢
    exact h2

theorem is_f32_of_round_abs {q : ℚ} (h1 : round_abs |q| = |q|) (h2 : |q| < pow2 128) :
    is_f32 q := by
  unfold is_f32 fl
  rw [h1, if_neg (not_le.mpr h2)]
  by_cases h : q < 0
  · rw [if_pos h, abs_of_neg h, neg_neg]
  · rw [if_neg h, abs_of_nonneg (not_lt.mp h)]

/-- A rounded magnitude is an integer multiple of the unit of a binade, within the
binade. -/
theorem round_abs_form {a : ℚ} (h : 0 ≤ a) :
    ∃ n e : Int, -126 ≤ e ∧ e ≤ 127 ∧ (e = -126 ∨ 8388608 ≤ n) ∧
      (n < 16777216 ∨ e = 127) ∧ 0 ≤ n ∧ round_abs a = n * pow2 (e - 23) := by
  obtain ⟨g1, g2, g3, g4⟩ := exponent_spec a
  have hn0 : 0 ≤ round_even (a / ulp a) :=
    round_even_nonneg (div_nonneg h (le_of_lt (ulp_pos a)))
  have hlow : exponent a = -126 ∨ 8388608 ≤ round_even (a / ulp a) := by
    rcases g3 with g3 | g3
    · exact Or.inl g3
    · right
      apply round_even_ge_of_int_le
      rw [le_div_iff₀ (ulp_pos a)]
      unfold ulp
      have := pow2_split (exponent a)
      push_cast
      linarith
  by_cases hbig : round_even (a / ulp a) < 16777216 ∨ exponent a = 127
  · exact ⟨round_even (a / ulp a), exponent a, g1, g2, hlow, hbig, hn0, rfl⟩
  · push_neg at hbig
    have ha : a < pow2 (exponent a + 1) := by
      rcases g4 with g4 | g4
      · exact g4
      · exact absurd g4 hbig.2
    have hle : round_even (a / ulp a) ≤ 16777216 := by
      apply round_even_le_of_le_int
      rw [div_le_iff₀ (ulp_pos a)]
      unfold ulp
      have := pow2_split_succ (exponent a)
      push_cast
      linarith
    have hn : round_even (a / ulp a) = 16777216 := le_antisymm hle hbig.1
    have hr : round_abs a = (8388608 : Int) * pow2 (exponent a + 1 - 23) := by
      unfold round_abs
      rw [hn]
      unfold ulp
      have h1 := pow2_split_succ (exponent a)
      have h2 := pow2_split (exponent a + 1)
      push_cast
      linarith
    have h127 : exponent a < 127 := lt_of_le_of_ne g2 hbig.2
    exact ⟨8388608, exponent a + 1, by omega, by omega, Or.inr (le_refl _),
      Or.inl (by norm_num), by norm_num, hr⟩

/-- The double of a `float` is a `float`, unless it overflows. -/
theorem is_f32_double {q : ℚ} (h : is_f32 q) :
    is_f32 (2 * q) ∨ ∃ n : Bool, fl (2 * q) = inf n := by
  obtain ⟨h1, h2⟩ := round_abs_of_is_f32 h
  obtain ⟨n, e, e1, e2, e3, e4, n0, hform⟩ := round_abs_form (abs_nonneg q)
  rw [h1] at hform
  have habs : |2 * q| = 2 * |q| := by rw [abs_mul, abs_two]
  have hu := pow2_pos (e - 23)
  have hnq : (0 : ℚ) ≤ n := by exact_mod_cast n0
  by_cases he : e = 127
  · right
    have hn : 8388608 ≤ n := by
      rcases e3 with e3 | e3
      · omega
      · exact e3
    have hnq2 : (8388608 : ℚ) ≤ n := by exact_mod_cast hn
    have hbig : pow2 128 ≤ |2 * q| := by
      rw [habs, hform]
      have h3 := pow2_split_succ 127
      rw [he]
      rw [show (127 : Int) + 1 = 128 from rfl] at h3
      rw [h3]
      have h4 := pow2_pos (127 - 23)
      nlinarith
    have hgrid : round_abs (pow2 128) = pow2 128 := by
      have h3 := pow2_split_succ 127
      have h4 := round_abs_grid 16777216 127 (by norm_num) (by norm_num)
        (Or.inr (by norm_num)) (Or.inr rfl)
      norm_num at h3 h4
      rw [h3]
      exact h4
    have hr : pow2 128 ≤ round_abs |2 * q| := by
      rw [← hgrid]
      exact round_abs_mono hbig
    refine ⟨decide (2 * q < 0), ?_⟩
    unfold fl
    rw [if_pos hr]
  · left
    have he2 : e < 127 := lt_of_le_of_ne e2 he
    have hn24 : n < 16777216 := by
      rcases e4 with e4 | e4
      · exact e4
      · exact absurd e4 he
    have hnq24 : (n : ℚ) < 16777216 := by exact_mod_cast hn24
    by_cases hn : 8388608 ≤ n
    · have hs : pow2 (e + 1 - 23) = 2 * pow2 (e - 23) := by
        rw [show e + 1 - 23 = (e - 23) + 1 by ring, pow2_succ]
      have hval : |2 * q| = n * pow2 (e + 1 - 23) := by
        rw [habs, hform, hs]
        ring
      apply is_f32_of_round_abs
      · rw [hval]
        exact round_abs_grid n (e + 1) (by omega) (by omega) (Or.inr hn) (Or.inl hn24)
      · rw [hval]
        have h3 := pow2_split_succ (e + 1)
        have h4 : pow2 (e + 1 + 1) ≤ pow2 128 := pow2_mono (by omega)
        have h5 := pow2_pos (e + 1 - 23)
        nlinarith
    · have hm : e = -126 := by
        rcases e3 with e3 | e3
        · exact e3
        · exact absurd e3 hn
      have hval : |2 * q| = ((2 * n : Int) : ℚ) * pow2 (-126 - 23) := by
        rw [habs, hform, hm]
        push_cast
        ring
      apply is_f32_of_round_abs
      · rw [hval]
        exact round_abs_grid (2 * n) (-126) (by norm_num) (by norm_num) (Or.inl rfl)
          (Or.inl (by omega))
      · rw [hval]
        have h3 := pow2_split_succ (-126)
        have h4 : pow2 (-126 + 1) ≤ pow2 128 := pow2_mono (by norm_num)
        have h5 := pow2_pos (-126 - 23)
        have h6 : ((2 * n : Int) : ℚ) < 16777216 := by
          exact_mod_cast (show 2 * n < 16777216 by omega)
        calc ((2 * n : Int) : ℚ) * pow2 (-126 - 23)
            < 16777216 * pow2 (-126 - 23) := mul_lt_mul_of_pos_right h6 h5
          _ = pow2 (-126 + 1) := h3.symm
          _ ≤ pow2 128 := h4

/-! ### A reflected velocity is not the zero vector -/

theorem fadd_fin_inv {x y : F32} {r : ℚ} (h : fadd x y = fin r) :
    ∃ a b : ℚ, x = fin a ∧ y = fin b := by
  cases x with
  | fin a =>
    cases y with
    | fin b => exact ⟨a, b, rfl, rfl⟩
    | inf n => exact F32.noConfusion h
    | nan => exact F32.noConfusion h
  | inf n =>
    cases y with
    | fin b => exact F32.noConfusion h
    | inf k =>
      by_cases hnk : n = k
      · rw [show fadd (inf n) (inf k) = inf n from if_pos hnk] at h
        exact F32.noConfusion h
      · rw [show fadd (inf n) (inf k) = nan from if_neg hnk] at h
        exact F32.noConfusion h
    | nan => exact F32.noConfusion h
  | nan => cases y <;> exact F32.noConfusion h

theorem fsub_fin_inv {x y : F32} {r : ℚ} (h : fsub x y = fin r) :
    ∃ a b : ℚ, x = fin a ∧ y = fin b := by
  obtain ⟨a, b, ha, hb⟩ := fadd_fin_inv (show fadd x (fneg y) = fin r from h)
  cases y with
  | fin c => exact ⟨a, c, ha, rfl⟩
  | inf n => exact F32.noConfusion hb
  | nan => exact F32.noConfusion hb

theorem fmul_fin_inv {x y : F32} {r : ℚ} (h : fmul x y = fin r) :
    ∃ a b : ℚ, x = fin a ∧ y = fin b := by
  cases x with
  | fin a =>
    cases y with
    | fin b => exact ⟨a, b, rfl, rfl⟩
    | inf n =>
      by_cases h0 : a = 0
      · rw [show fmul (fin a) (inf n) = nan from if_pos h0] at h
        exact F32.noConfusion h
      · rw [show fmul (fin a) (inf n) = inf (xor (decide (a < 0)) n) from if_neg h0] at h
        exact F32.noConfusion h
    | nan => exact F32.noConfusion h
  | inf n =>
    cases y with
    | fin b =>
      by_cases h0 : b = 0
      · rw [show fmul (inf n) (fin b) = nan from if_pos h0] at h
        exact F32.noConfusion h
      · rw [show fmul (inf n) (fin b) = inf (xor n (decide (b < 0))) from if_neg h0] at h
        exact F32.noConfusion h
    | inf k => exact F32.noConfusion h
    | nan => exact F32.noConfusion h
  | nan => cases y <;> exact F32.noConfusion h

theorem not_moving_zero (z : F32) : ¬ moving ⟨fin 0, fin 0, z⟩ := by
  intro h
  rcases h with h | h | h | h <;> exact absurd h (lt_irrefl (0 : ℚ))

/-- The doubled scalar product is finite only when the double of the component along
the normal is a `float`. -/
theorem double_of_fin {a s d : ℚ} (hs : s = 1 ∨ s = -1) (ha : is_f32 a)
    (h : fmul (fin 2) (fin (a * s)) = fin d) : is_f32 (2 * a) := by
  have hss : s * s = 1 := by rcases hs with rfl | rfl <;> norm_num
  rcases is_f32_double (is_f32_mul_unit hs ha) with h1 | ⟨n, h1⟩
  · have h2 := is_f32_mul_unit hs h1
    have e : 2 * (a * s) * s = 2 * a := by linear_combination (2 * a) * hss
    rw [e] at h2
    exact h2
  · rw [show fmul (fin 2) (fin (a * s)) = fl (2 * (a * s)) from rfl, h1] at h
    exact F32.noConfusion h

theorem vec_3_reflect_x_ne_zero (v : Vec3) (s : ℚ) (hs : s = 1 ∨ s = -1)
    (hvx : valid v.x) (hvy : valid v.y) (hm : moving v) :
    vec_3_reflect v ⟨fin s, fin 0, fin 0⟩ ≠ zero_vec := by
  intro h
  have hx : fsub v.x (fmul (fmul (fin 2) (vec_3_dot v ⟨fin s, fin 0, fin 0⟩)) (fin s)) = fin 0 :=
    congrArg Vec3.x h
  have hy : fsub v.y (fmul (fmul (fin 2) (vec_3_dot v ⟨fin s, fin 0, fin 0⟩)) (fin 0)) = fin 0 :=
    congrArg Vec3.y h
  obtain ⟨b, w, hb, hw⟩ := fsub_fin_inv hy
  obtain ⟨d, _, hd, _⟩ := fmul_fin_inv hw
  obtain ⟨_, δ, _, hδ⟩ := fmul_fin_inv hd
  obtain ⟨_, _, h1, h2⟩ := fadd_fin_inv
    (show fadd (fadd (fmul v.x (fin s)) (fmul v.y (fin 0))) (fmul v.z (fin 0)) = fin δ from hδ)
  obtain ⟨_, _, h3, _⟩ := fadd_fin_inv h1
  obtain ⟨a, _, ha, _⟩ := fmul_fin_inv h3
  obtain ⟨c, _, hc, _⟩ := fmul_fin_inv h2
  obtain ⟨X, Y, Z⟩ := v
  simp only at ha hb hc hvx hvy hx hy hd
  subst ha hb hc
  have hfa : is_f32 a := hvx
  have hfb : is_f32 b := hvy
  rw [vec_3_dot_x a b c s hs hfa] at hx hy hd
  have h2a := double_of_fin hs hfa hd
  have h3 : is_f32 (2 * (a * s)) := by
    rw [← mul_assoc]
    exact is_f32_mul_unit hs h2a
  rw [reflect_along a s hs hfa h2a] at hx
  rw [reflect_across b _ hfb h3] at hy
  have ea : a = 0 := by
    have := F32.fin.inj hx
    linarith
  have eb : b = 0 := F32.fin.inj hy
  rw [ea, eb] at hm
  exact not_moving_zero _ hm

theorem vec_3_reflect_y_ne_zero (v : Vec3) (s : ℚ) (hs : s = 1 ∨ s = -1)
    (hvx : valid v.x) (hvy : valid v.y) (hm : moving v) :
    vec_3_reflect v ⟨fin 0, fin s, fin 0⟩ ≠ zero_vec := by
  intro h
  have hx : fsub v.x (fmul (fmul (fin 2) (vec_3_dot v ⟨fin 0, fin s, fin 0⟩)) (fin 0)) = fin 0 :=
    congrArg Vec3.x h
  have hy : fsub v.y (fmul (fmul (fin 2) (vec_3_dot v ⟨fin 0, fin s, fin 0⟩)) (fin s)) = fin 0 :=
    congrArg Vec3.y h
  obtain ⟨a, w, ha, hw⟩ := fsub_fin_inv hx
  obtain ⟨d, _, hd, _⟩ := fmul_fin_inv hw
  obtain ⟨_, δ, _, hδ⟩ := fmul_fin_inv hd
  obtain ⟨_, _, h1, h2⟩ := fadd_fin_inv
    (show fadd (fadd (fmul v.x (fin 0)) (fmul v.y (fin s))) (fmul v.z (fin 0)) = fin δ from hδ)
  obtain ⟨_, _, _, h3⟩ := fadd_fin_inv h1
  obtain ⟨b, _, hb, _⟩ := fmul_fin_inv h3
  obtain ⟨c, _, hc, _⟩ := fmul_fin_inv h2
  obtain ⟨X, Y, Z⟩ := v
  simp only at ha hb hc hvx hvy hx hy hd
  subst ha hb hc
  have hfa : is_f32 a := hvx
  have hfb : is_f32 b := hvy
  rw [vec_3_dot_y a b c s hs hfb] at hx hy hd
  have h2b := double_of_fin hs hfb hd
  have h3 : is_f32 (2 * (b * s)) := by
    rw [← mul_assoc]
    exact is_f32_mul_unit hs h2b
  rw [reflect_along b s hs hfb h2b] at hy
  rw [reflect_across a _ hfa h3] at hx
  have eb : b = 0 := by
    have := F32.fin.inj hy
    linarith
  have ea : a = 0 := F32.fin.inj hx
  rw [ea, eb] at hm
  exact not_moving_zero _ hm

/-- The reflection of a `float` velocity with a non-zero x or y component about the
normal of a face is not the zero vector. -/
theorem vec_3_reflect_ne_zero (v : Vec3) (mode : Nat) (hf : is_face mode)
    (hvx : valid v.x) (hvy : valid v.y) (hm : moving v) :
    vec_3_reflect v (normal_of mode) ≠ zero_vec := by
  obtain ⟨s, hs, hn | hn⟩ := normal_of_face mode hf <;> rw [hn]
  · exact vec_3_reflect_x_ne_zero v s hs hvx hvy hm
  · exact vec_3_reflect_y_ne_zero v s hs hvx hvy hm

theorem ne_zero_of_moving (v : Vec3) (hm : moving v) : v ≠ zero_vec := by
  intro h
  rw [h] at hm
  exact not_moving_zero _ hm

/-! ### The records of a winning set -/

theorem directed_case_sprite32 (c : COLLISION_VALUES) (guard : Prop) [Decidable guard]
    (num den : F32) (cross : F32 → Prop) [DecidablePred cross] (mode_a mode_b : Nat) :
    (directed_case c guard num den cross mode_a mode_b).sprite = c.sprite := by
  unfold directed_case
  split_ifs <;> rfl

theorem intersection_time_sprite32 (m : Heap) (a b : Ptr) :
    (intersection_time m a b).sprite = a := by
  simp only [intersection_time, directed_case_sprite32]

/-- A record that `intersection_time(a, b)` reports has a face in `mode_a`, and `a` has a
non-zero x or y velocity: the guard of the accepted case tests its sign. -/
theorem intersection_time_reported (m : Heap) (a b : Ptr)
    (h : ¬ feq (intersection_time m a b).time FLT_MAX) :
    is_face (intersection_time m a b).mode_a ∧ moving (m a).vel := by
  have hP : (intersection_time m a b).time = FLT_MAX ∨
      (is_face (intersection_time m a b).mode_a ∧ moving (m a).vel) := by
    simp only [intersection_time]
    apply directed_case_ind _ _ _ _ _ _ _
      (fun c => c.time = FLT_MAX ∨ (is_face c.mode_a ∧ moving (m a).vel))
    · apply directed_case_ind _ _ _ _ _ _ _
        (fun c => c.time = FLT_MAX ∨ (is_face c.mode_a ∧ moving (m a).vel))
      · apply directed_case_ind _ _ _ _ _ _ _
          (fun c => c.time = FLT_MAX ∨ (is_face c.mode_a ∧ moving (m a).vel))
        · apply directed_case_ind _ _ _ _ _ _ _
            (fun c => c.time = FLT_MAX ∨ (is_face c.mode_a ∧ moving (m a).vel))
          · exact Or.inl rfl
          · intro hg _ _ _
            exact Or.inr ⟨Or.inl rfl, Or.inl hg.1⟩
        · intro hg _ _ _
          exact Or.inr ⟨Or.inr (Or.inl rfl), Or.inr (Or.inl hg.1)⟩
      · intro hg _ _ _
        exact Or.inr ⟨Or.inr (Or.inr (Or.inl rfl)), Or.inr (Or.inr (Or.inl hg.1))⟩
    · intro hg _ _ _
      exact Or.inr ⟨Or.inr (Or.inr (Or.inr rfl)), Or.inr (Or.inr (Or.inr hg.1))⟩
  rcases hP with hP | hP
  · exfalso
    apply h
    rw [hP]
    exact (rfl : FLT_MAX_value = FLT_MAX_value)
  · exact hP

/-- A property of every reported solver record holds for every record the collector
keeps: the collector stores a record only when its time is not `FLT_MAX`. -/
theorem find_collision_step_stored (Q : COLLISION_VALUES → Prop) (m : Heap)
    (max_collisions : Nat) (a : Ptr) (time : F32) (collisions : List COLLISION_VALUES)
    (s : Ptr)
    (hQ : ¬ feq (intersection_time m a s).time FLT_MAX → Q (intersection_time m a s))
    (h : ∀ c ∈ collisions, Q c) :
    ∀ c ∈ find_collision_step m max_collisions a time collisions s, Q c := by
  unfold find_collision_step
  simp only
  split_ifs with h1 h2 h3 h4 h5 h6
  · exact h
  · exact h
  · intro c hc
    rcases List.mem_append.mp hc with hc | hc
    · exact h c hc
    · rw [List.mem_singleton.mp hc]
      exact hQ h2.2.2.1
  · intro c hc
    rw [List.mem_singleton.mp hc]
    exact hQ h4.2.1
  · intro c hc
    rw [List.mem_singleton.mp hc]
    exact hQ h4.2.1
  · exact h
  · exact h

theorem find_collision_time_stored (Q : COLLISION_VALUES → Prop) (m : Heap)
    (sprites : List Ptr) (max_collisions : Nat) (a : Ptr) (time : F32)
    (collisions : List COLLISION_VALUES)
    (hQ : ∀ s ∈ sprites, ¬ feq (intersection_time m a s).time FLT_MAX →
      Q (intersection_time m a s))
    (h : ∀ c ∈ collisions, Q c) :
    ∀ c ∈ find_collision_time m sprites collisions max_collisions a time, Q c := by
  unfold find_collision_time
  apply foldl_invariant (fun l => ∀ c ∈ l, Q c) _ _ _ h
  intro l s hs hl
  exact find_collision_step_stored Q m max_collisions a time l s (hQ s hs) hl

theorem scan_sprites_stored (Q : COLLISION_VALUES → Prop) (m : Heap) (sprites : List Ptr)
    (remaining : F32)
    (hQ : ∀ a ∈ sprites, ∀ s ∈ sprites, ¬ feq (intersection_time m a s).time FLT_MAX →
      Q (intersection_time m a s)) :
    (∀ c ∈ (scan_sprites m sprites remaining).1, Q c) ∧
      ∀ c ∈ (scan_sprites m sprites remaining).2, Q c := by
  unfold scan_sprites
  apply foldl_invariant
    (fun sets : List COLLISION_VALUES × List COLLISION_VALUES =>
      (∀ c ∈ sets.1, Q c) ∧ ∀ c ∈ sets.2, Q c)
  · exact ⟨fun c hc => absurd hc (List.not_mem_nil c), fun c hc => absurd hc (List.not_mem_nil c)⟩
  · intro sets a ha hsets
    have hc := find_collision_time_stored Q m sprites COLLISIONS_MAX a remaining sets.1
      (hQ a ha) hsets.1
    simp only
    split_ifs
    · exact ⟨hc, hc⟩
    · exact ⟨hc, hsets.2⟩

/-- Every record of a winning set has a registered `sprite` with a non-zero x or y
velocity, and a face in `mode_a`. -/
theorem winning_set_reported (m : Heap) (sprites : List Ptr) (remaining : F32) :
    ∀ c ∈ (scan_sprites m sprites remaining).2,
      c.sprite ∈ sprites ∧ is_face c.mode_a ∧ moving (m c.sprite).vel := by
  apply (scan_sprites_stored
    (fun c => c.sprite ∈ sprites ∧ is_face c.mode_a ∧ moving (m c.sprite).vel)
    m sprites remaining _).2
  intro a ha s _ hne
  have h1 := intersection_time_reported m a s hne
  show (intersection_time m a s).sprite ∈ sprites ∧ _ ∧
    moving (m (intersection_time m a s).sprite).vel
  rw [intersection_time_sprite32]
  exact ⟨ha, h1⟩

/-! ### A velocity is written only to a logged address -/

theorem resolve_branch_keeps (st : RESOLVE_STATE) (p : Ptr) (v : Vec3) (q : Ptr)
    (hq : q ∉ (resolve_branch st p v).assigned) :
    ((resolve_branch st p v).heap q).vel = (st.heap q).vel ∧ q ∉ st.assigned := by
  unfold resolve_branch at hq ⊢
  split_ifs at hq ⊢ with h
  · have h1 : q ∉ st.assigned := fun hm => hq (List.mem_append_left _ hm)
    have h2 : q ≠ p := fun he => hq (List.mem_append_right _ (List.mem_singleton.mpr he))
    refine ⟨?_, h1⟩
    simp only [set_vel, if_neg h2]
  · exact ⟨rfl, hq⟩

theorem resolve_record_eq_branches32 (st : RESOLVE_STATE) (c : COLLISION_VALUES) :
    resolve_record st c =
      resolve_branch (resolve_branch st c.sprite (new_vel_sprite st c)) c.other_sprite
        (vec_3_mul_scalar (vec_3_normalize (st.heap c.sprite).vel)
          (fdiv (fadd (vec_3_length (st.heap c.sprite).vel)
              (vec_3_length (st.heap c.other_sprite).vel))
            (if ((resolve_branch st c.sprite (new_vel_sprite st c)).heap
              c.other_sprite).is_static = true then fin 1 else fin 2))) := rfl

theorem resolve_record_keeps (st : RESOLVE_STATE) (c : COLLISION_VALUES) (q : Ptr)
    (hq : q ∉ (resolve_record st c).assigned) :
    ((resolve_record st c).heap q).vel = (st.heap q).vel ∧ q ∉ st.assigned := by
  rw [resolve_record_eq_branches32] at hq ⊢
  obtain ⟨h1, h2⟩ := resolve_branch_keeps _ _ _ q hq
  obtain ⟨h3, h4⟩ := resolve_branch_keeps _ _ _ q h2
  exact ⟨h1.trans h3, h4⟩

theorem resolve_fold_keeps (done : List COLLISION_VALUES) (q : Ptr) :
    ∀ st : RESOLVE_STATE, q ∉ (done.foldl resolve_record st).assigned →
      ((done.foldl resolve_record st).heap q).vel = (st.heap q).vel ∧ q ∉ st.assigned := by
  induction done with
  | nil => intro st h; exact ⟨rfl, h⟩
  | cons c cs ih =>
    intro st h
    rw [List.foldl_cons] at h ⊢
    obtain ⟨h1, h2⟩ := ih _ h
    obtain ⟨h3, h4⟩ := resolve_record_keeps st c q h2
    exact ⟨h1.trans h3, h4⟩

/-! ### The vectors passed to `vec_3_normalize` (C20) -/

/-- C20, as stated, fails in binary32. On `heap_underflow` the velocities are `float`s,
the winning set of the first sub-step of `process_sprites(5)` is the two records (A, B)
and (A, C) at time 1, and the speed `(|v_a| + |v_b|) / 2 = 2^-150` of the first record
rounds to zero: the record stores the zero vector in A, and the second record saves it
as `orig_vel` and passes it to `vec_3_normalize`. -/
theorem resolve_pass_normalize_zero_counterexample :
    float_velocities (heap32 heap_underflow) [0, 1, 2] ∧
    (scan_sprites (heap32 heap_underflow) [0, 1, 2] (fsub (fin 5) (fin 0))).2 =
      [⟨RIGHT, LEFT, fin 1, 0, 1⟩, ⟨RIGHT, LEFT, fin 1, 0, 2⟩] ∧
    ((state_after (advance_sprites (heap32 heap_underflow) [0, 1, 2] (fin 1))
      [⟨RIGHT, LEFT, fin 1, 0, 1⟩]).heap 0).vel = zero_vec ∧
    zero_vec ∈ pass_normalize_args
      ⟨advance_sprites (heap32 heap_underflow) [0, 1, 2] (fin 1), [], []⟩
      (scan_sprites (heap32 heap_underflow) [0, 1, 2] (fsub (fin 5) (fin 0))).2 := by
  refine ⟨by decide!, by decide!, by decide!, by decide!⟩

/-- C20 (amended), in binary32: in the resolution pass of a sub-step over the winning set
that the scan of the same sub-step produced from sprites with `float` velocities, for
every record whose `sprite` has not been assigned a velocity by the records before it
(in particular for the first record): `mode_a` is a face, the `sprite` still has its
velocity of detection, with a non-zero x or y component, so the saved `orig_vel` is not
the zero vector, and neither is the reflected velocity. -/
theorem resolve_pass_normalize_unassigned (m : Heap) (sprites : List Ptr) (remaining t : F32)
    (hv : float_velocities m sprites) (done rest : List COLLISION_VALUES)
    (c : COLLISION_VALUES)
    (hw : (scan_sprites m sprites remaining).2 = done ++ c :: rest)
    (hc : c.sprite ∉ (state_after (advance_sprites m sprites t) done).assigned) :
    is_face c.mode_a ∧
    ((state_after (advance_sprites m sprites t) done).heap c.sprite).vel = (m c.sprite).vel ∧
    moving ((state_after (advance_sprites m sprites t) done).heap c.sprite).vel ∧
    ((state_after (advance_sprites m sprites t) done).heap c.sprite).vel ≠ zero_vec ∧
    vec_3_reflect ((state_after (advance_sprites m sprites t) done).heap c.sprite).vel
      (normal_of c.mode_a) ≠ zero_vec := by
  have hmem : c ∈ (scan_sprites m sprites remaining).2 := by
    rw [hw]
    exact List.mem_append_right _ (List.mem_cons_self c rest)
  obtain ⟨hreg, hface, hmov⟩ := winning_set_reported m sprites remaining c hmem
  have hkeep : ((state_after (advance_sprites m sprites t) done).heap c.sprite).vel =
      (m c.sprite).vel := by
    have h1 := (resolve_fold_keeps done c.sprite _ hc).1
    have h2 : ((state_after (advance_sprites m sprites t) done).heap c.sprite).vel =
        (advance_sprites m sprites t c.sprite).vel := h1
    rw [h2, advance_sprites_vel32]
  obtain ⟨hvx, hvy⟩ := hv c.sprite hreg
  refine ⟨hface, hkeep, ?_, ?_, ?_⟩
  · rw [hkeep]
    exact hmov
  · rw [hkeep]
    exact ne_zero_of_moving _ hmov
  · rw [hkeep]
    exact vec_3_reflect_ne_zero _ _ hface hvx hvy hmov

/-- Witness of C20: the first record of the pass over the winning set of the head-on pair
of `heap_head_on`. -/
theorem resolve_pass_normalize_unassigned_witness :
    is_face RIGHT ∧
    ((state_after (advance_sprites (heap32 heap_head_on) [0, 1] (fin 1)) []).heap 0).vel =
      (heap32 heap_head_on 0).vel ∧
    moving ((state_after (advance_sprites (heap32 heap_head_on) [0, 1] (fin 1)) []).heap 0).vel ∧
    ((state_after (advance_sprites (heap32 heap_head_on) [0, 1] (fin 1)) []).heap 0).vel ≠
      zero_vec ∧
    vec_3_reflect ((state_after (advance_sprites (heap32 heap_head_on) [0, 1] (fin 1))
      []).heap 0).vel (normal_of RIGHT) ≠ zero_vec :=
  resolve_pass_normalize_unassigned (heap32 heap_head_on) [0, 1] (fin 5) (fin 1)
    (by decide!) [] [⟨LEFT, RIGHT, fin 1, 1, 0⟩] ⟨RIGHT, LEFT, fin 1, 0, 1⟩ (by decide!)
    (by decide)

/-! ### Direction of the new velocities (C5) -/

/-- C5 fails for a participant stored as `other_sprite`. In the first sub-step of
`process_sprites(5)` on `heap_glance` the winning set is the single record (A, B) with
faces RIGHT and LEFT, and B is neither static nor resolved. The normalized reflection of
B's own velocity (0, -1/4, 0) about the normal (1, 0, 0) of its face LEFT is (0, -1, 0),
but the sub-step leaves B with the velocity (5/8, 0, 0), of direction (1, 0, 0): the
direction of A's velocity before the collision, the `orig_vel` that the `other_sprite`
branch normalizes in place of the reflection it has just computed. -/
theorem resolve_other_direction :
    (scan_sprites (heap32 heap_glance) [0, 1] (fsub (fin 5) (fin 0))).2 =
      [⟨RIGHT, LEFT, fin 2, 0, 1⟩] ∧
    (heap32 heap_glance 1).is_static = false ∧
    (heap32 heap_glance 1).vel = ⟨fin 0, fin (-1 / 4), fin 0⟩ ∧
    vec_3_normalize (vec_3_reflect (heap32 heap_glance 1).vel (normal_of LEFT)) =
      ⟨fin 0, fin (-1), fin 0⟩ ∧
    ((sub_step [0, 1] (fin 5) (heap32 heap_glance, fin 0)).1 1).vel =
      ⟨fin (5 / 8), fin 0, fin 0⟩ ∧
    vec_3_normalize ((sub_step [0, 1] (fin 5) (heap32 heap_glance, fin 0)).1 1).vel =
      ⟨fin 1, fin 0, fin 0⟩ ∧
    vec_3_normalize (heap32 heap_glance 0).vel = ⟨fin 1, fin 0, fin 0⟩ := by
  refine ⟨by decide!, by decide!, by decide!, by decide!, by decide!, by decide!, by decide!⟩

end Binary32

end SpriteCollider
